import Mathlib

/-!
Verification model of the Noise protocol I/O adapter
(`src/protocols/noise/src/io.rs` of `mxinden/rust-libp2p`).

The adapter (`NoiseOutput`) wraps an underlying asynchronous byte stream and
a Noise transport session and exposes `poll_read` / `poll_write` /
`poll_flush` / `poll_close`.  We embed it shallowly:

* Bytes are `Nat`; buffers (`buffer.read`, `buffer.read_crypto`,
  `buffer.write`, `buffer.write_crypto`) are lists of fixed lengths, updated
  by splicing, mirroring the slice writes of the source.
* The underlying stream is modelled by a script of events (`UEv`): each
  poll of the underlying transport consumes one event; when the script is
  exhausted the stream keeps answering with a default event (`dflt`).
  The read side (`RSrc`) additionally carries the byte sequence the
  transport delivers; the write side (`WSnk`) records the bytes sunk, plus
  ghost counters for underlying `poll_flush` / `poll_close` invocations.
* The session is a pair of pure functions `enc` / `dec` returning
  `Option (List Nat)` (`None` models a cryptographic failure); ghost logs
  (`decCalls`, `encCalls`) record every invocation, mirroring
  `session.read_message` / `session.write_message` call sites.
* The `loop { .. }` bodies of `poll_read` / `poll_write` / `poll_flush`
  are translated with an explicit fuel argument; the canonical wrappers
  supply fuel that exceeds the number of loop iterations possible for the
  given script (each iteration either returns or consumes an event / a byte
  of `data` / a unit of the staged frame), so the `Stuck` branch is
  unreachable through the wrappers.
-/

/-- MAX_NOISE_PKG_LEN of the source: maximal frame (ciphertext) length. -/
def MAX_NOISE_PKG_LEN : Nat := 65535

/-- MAX_WRITE_BUF_LEN of the source: maximal plaintext accumulated per frame. -/
def MAX_WRITE_BUF_LEN : Nat := 16384

/-- Event of the underlying transport: deliver/accept up to `n` bytes,
fail with an I/O error carrying `code`, or suspend (`Poll::Pending`). -/
inductive UEv
  | ready (n : Nat)
  | ioErr (code : Nat)
  | pend
deriving DecidableEq, Repr

/-- Underlying read side: remaining bytes it will deliver, a script of
events, and a default event used once the script is exhausted. -/
structure RSrc where
  data : List Nat
  evs : List UEv
  dflt : UEv
deriving DecidableEq, Repr

/-- Result of polling the underlying read side. -/
inductive UPollR
  | gotBytes (bs : List Nat)
  | uerr (code : Nat)
  | upend
deriving DecidableEq, Repr

/-- One `poll_read` of the underlying stream with a buffer of capacity `k`:
consume the next event (or the default); a `ready n` event delivers the next
`min n k` available bytes (possibly none, which signals EOF). -/
def RSrc.poll (u : RSrc) (k : Nat) : UPollR × RSrc :=
  match u.evs with
  | [] =>
    match u.dflt with
    | .ready n => (.gotBytes (u.data.take (min n k)), { u with data := u.data.drop (min n k) })
    | .ioErr c => (.uerr c, u)
    | .pend => (.upend, u)
  | e :: rest =>
    match e with
    | .ready n => (.gotBytes (u.data.take (min n k)),
        { u with data := u.data.drop (min n k), evs := rest })
    | .ioErr c => (.uerr c, { u with evs := rest })
    | .pend => (.upend, { u with evs := rest })

/-- Underlying write side: bytes accepted so far, event script, default
event, and ghost counters of underlying `poll_flush` / `poll_close` calls. -/
structure WSnk where
  sunk : List Nat
  evs : List UEv
  dflt : UEv
  flushed : Nat
  closed : Nat
deriving DecidableEq, Repr

/-- Result of polling the underlying write side. -/
inductive UPollW
  | wrote (n : Nat)
  | uerr (code : Nat)
  | upend
deriving DecidableEq, Repr

/-- One `poll_write` of the underlying stream with source bytes `bs`:
a `ready n` event accepts `min n bs.length` bytes (0 accepted models the
closed sink). -/
def WSnk.poll (s : WSnk) (bs : List Nat) : UPollW × WSnk :=
  match s.evs with
  | [] =>
    match s.dflt with
    | .ready n => (.wrote (min n bs.length), { s with sunk := s.sunk ++ bs.take (min n bs.length) })
    | .ioErr c => (.uerr c, s)
    | .pend => (.upend, s)
  | e :: rest =>
    match e with
    | .ready n => (.wrote (min n bs.length),
        { s with sunk := s.sunk ++ bs.take (min n bs.length), evs := rest })
    | .ioErr c => (.uerr c, { s with evs := rest })
    | .pend => (.upend, { s with evs := rest })

/-- Underlying `poll_flush`: always succeeds, bumping the ghost counter. -/
def WSnk.pollFlushU (s : WSnk) : WSnk := { s with flushed := s.flushed + 1 }

/-- Underlying `poll_close`: always succeeds, bumping the ghost counter. -/
def WSnk.pollCloseU (s : WSnk) : WSnk := { s with closed := s.closed + 1 }

/-- Noise transport-mode session: pure encrypt / decrypt, `none` = failure
(models `snow::Session::{write_message, read_message}`). -/
structure Sess where
  enc : List Nat → Option (List Nat)
  dec : List Nat → Option (List Nat)

/-- ReadState of the source. `eofR true` is `Eof(Ok(()))` (clean),
`eofR false` is `Eof(Err(()))` (unexpected). -/
inductive ReadState
  | init
  | readLen (b0 b1 off : Nat)
  | readData (len off : Nat)
  | copyData (len off : Nat)
  | eofR (clean : Bool)
  | decErr
deriving DecidableEq, Repr

/-- WriteState of the source. -/
inductive WriteState
  | init
  | bufferData (off : Nat)
  | writeLen (len b0 b1 off : Nat)
  | writeData (len off : Nat)
  | eofW
  | encErr
deriving DecidableEq, Repr

/-- The four disjoint regions of the buffer arena, each a fixed-length list
(`read`, `read_crypto`, `write`, `write_crypto` of the source). -/
structure Bufs where
  readC : List Nat
  readP : List Nat
  wplain : List Nat
  wcipher : List Nat
deriving DecidableEq, Repr

/-- The adapter: both state machines, the arena, and ghost logs of the
arguments of every session decrypt / encrypt invocation. -/
structure NoiseOutput where
  rs : ReadState
  ws : WriteState
  bufs : Bufs
  decCalls : List (List Nat)
  encCalls : List (List Nat)
deriving DecidableEq, Repr

/-- Freshly constructed adapter (`NoiseOutput::new`): both machines in
`Init`, the arena zero-initialised with the source's region sizes. -/
def initOutput : NoiseOutput :=
  { rs := .init, ws := .init,
    bufs := { readC := List.replicate MAX_NOISE_PKG_LEN 0,
              readP := List.replicate MAX_NOISE_PKG_LEN 0,
              wplain := List.replicate MAX_WRITE_BUF_LEN 0,
              wcipher := List.replicate (2 * MAX_WRITE_BUF_LEN) 0 },
    decCalls := [], encCalls := [] }

/-- Error kinds surfaced by the adapter; `io code` is an error of the
underlying transport surfaced unchanged. -/
inductive ErrK
  | ueof
  | invalidData
  | writeZero
  | io (code : Nat)
deriving DecidableEq, Repr

/-- Result of `read_frame_len`. -/
inductive LenRes
  | got (n : Nat)
  | eofLen
  | lenErr (code : Nat)
  | lenPending
  | lenStuck
deriving DecidableEq, Repr

/-- Place the delivered bytes `bs` (at most `2 - off` of them) into the
two-byte length buffer at offset `off`. -/
def fill2 (b0 b1 off : Nat) (bs : List Nat) : Nat × Nat × Nat :=
  match off, bs with
  | 0, [x] => (x, b1, 1)
  | 0, x :: y :: _ => (x, y, 2)
  | 1, x :: _ => (b0, x, 2)
  | _, _ => (b0, b1, off)

/-- Loop body of `read_frame_len`: repeatedly poll the underlying stream
into `buf[off..2]`; a zero-byte delivery is EOF (`Ok(None)`), two
accumulated bytes decode big-endian.  Fuel bounds the iterations. -/
def readFrameLenF : Nat → RSrc → Nat → Nat → Nat → LenRes × Nat × Nat × Nat × RSrc
  | 0, u, b0, b1, off => (.lenStuck, b0, b1, off, u)
  | f + 1, u, b0, b1, off =>
    match u.poll (2 - off) with
    | (.upend, u') => (.lenPending, b0, b1, off, u')
    | (.uerr c, u') => (.lenErr c, b0, b1, off, u')
    | (.gotBytes bs, u') =>
      if bs.length = 0 then (.eofLen, b0, b1, off, u')
      else
        match fill2 b0 b1 off bs with
        | (b0', b1', off') =>
          if off' = 2 then (.got (256 * b0' + b1'), b0', b1', 2, u')
          else readFrameLenF f u' b0' b1' off'

/-- Canonical `read_frame_len`: every loop iteration consumes a script
event or delivers at least one byte of `data`, so this fuel suffices. -/
def read_frame_len (u : RSrc) (b0 b1 off : Nat) : LenRes × Nat × Nat × Nat × RSrc :=
  readFrameLenF (u.evs.length + u.data.length + 2) u b0 b1 off

/-- Result of `write_frame_len`. -/
inductive WLenRes
  | wlDone
  | wlEof
  | wlErr (code : Nat)
  | wlPending
  | wlStuck
deriving DecidableEq, Repr

/-- Loop body of `write_frame_len`: repeatedly write `buf[off..2]` to the
underlying sink; zero bytes accepted signals the closed sink (`Ok(false)`). -/
def writeFrameLenF : Nat → WSnk → Nat → Nat → Nat → WLenRes × Nat × WSnk
  | 0, s, _, _, off => (.wlStuck, off, s)
  | f + 1, s, b0, b1, off =>
    match s.poll (([b0, b1].drop off).take (2 - off)) with
    | (.upend, s') => (.wlPending, off, s')
    | (.uerr c, s') => (.wlErr c, off, s')
    | (.wrote n, s') =>
      if n = 0 then (.wlEof, off, s')
      else
        if off + n = 2 then (.wlDone, 2, s')
        else writeFrameLenF f s' b0 b1 (off + n)

/-- Canonical `write_frame_len`: each iteration consumes a script event or
makes offset progress (bounded by 2), so this fuel suffices. -/
def write_frame_len (s : WSnk) (b0 b1 off : Nat) : WLenRes × Nat × WSnk :=
  writeFrameLenF (s.evs.length + 4) s b0 b1 off

/-- Write `bs` into the fixed-size buffer `buf` at position `off`
(the slice assignment `buf[off .. off + bs.length] = bs`). -/
def spliceAt (buf : List Nat) (off : Nat) (bs : List Nat) : List Nat :=
  buf.take off ++ bs ++ buf.drop (off + bs.length)

/-- Result of the adapter's `poll_read`: `bytes bs` is `Ready(Ok(n))` with
the `n = bs.length` bytes copied into the caller's buffer. -/
inductive RRes
  | bytes (bs : List Nat)
  | rErr (e : ErrK)
  | rPending
  | rStuck
deriving DecidableEq, Repr

/-- Loop body of `NoiseOutput::poll_read` (fuel-bounded); `cap` is the
caller's buffer capacity.  Mirrors the source arm by arm, including that on
an underlying error in `ReadLen` the updated `(buf, off)` copies are NOT
written back (the source only writes them back on `Pending`). -/
def pollReadF (sess : Sess) : Nat → NoiseOutput → RSrc → Nat → RRes × NoiseOutput × RSrc
  | 0, a, u, _ => (.rStuck, a, u)
  | f + 1, a, u, cap =>
    match a.rs with
    | .init => pollReadF sess f { a with rs := .readLen 0 0 0 } u cap
    | .readLen b0 b1 off =>
      match read_frame_len u b0 b1 off with
      | (.got n, _, _, _, u') =>
        if n = 0 then pollReadF sess f { a with rs := .init } u' cap
        else pollReadF sess f { a with rs := .readData n 0 } u' cap
      | (.eofLen, _, _, _, u') => (.bytes [], { a with rs := .eofR true }, u')
      | (.lenErr c, _, _, _, u') => (.rErr (.io c), a, u')
      | (.lenPending, b0', b1', off', u') =>
        (.rPending, { a with rs := .readLen b0' b1' off' }, u')
      | (.lenStuck, _, _, _, u') => (.rStuck, a, u')
    | .readData len off =>
      match u.poll (len - off) with
      | (.upend, u') => (.rPending, a, u')
      | (.uerr c, u') => (.rErr (.io c), a, u')
      | (.gotBytes bs, u') =>
        if bs.length = 0 then (.rErr .ueof, { a with rs := .eofR false }, u')
        else
          let bufs' := { a.bufs with readC := spliceAt a.bufs.readC off bs }
          if len = off + bs.length then
            match sess.dec (bufs'.readC.take len) with
            | some plain =>
              pollReadF sess f { a with
                rs := .copyData plain.length 0,
                bufs := { bufs' with readP := spliceAt bufs'.readP 0 plain },
                decCalls := a.decCalls ++ [bufs'.readC.take len] } u' cap
            | none =>
              (.rErr .invalidData, { a with
                rs := .decErr, bufs := bufs',
                decCalls := a.decCalls ++ [bufs'.readC.take len] }, u')
          else pollReadF sess f { a with rs := .readData len (off + bs.length), bufs := bufs' } u' cap
    | .copyData len off =>
      let n := min (len - off) cap
      let out := (a.bufs.readP.drop off).take n
      if len = off + n then (.bytes out, { a with rs := .readLen 0 0 0 }, u)
      else (.bytes out, { a with rs := .copyData len (off + n) }, u)
    | .eofR true => (.bytes [], a, u)
    | .eofR false => (.rErr .ueof, a, u)
    | .decErr => (.rErr .invalidData, a, u)

/-- Canonical `poll_read`: every pair of loop iterations consumes a script
event or a byte of `data`, so this fuel suffices. -/
def pollRead (sess : Sess) (a : NoiseOutput) (u : RSrc) (cap : Nat) :
    RRes × NoiseOutput × RSrc :=
  pollReadF sess (2 * (u.evs.length + u.data.length) + 4) a u cap

/-- Result of the adapter's `poll_write`. -/
inductive WRes
  | accepted (n : Nat)
  | wErr (e : ErrK)
  | wPending
  | wStuck
deriving DecidableEq, Repr

/-- Loop body of `NoiseOutput::poll_write` (fuel-bounded).  Mirrors the
source arm by arm: `BufferData` accepts bytes and returns immediately (the
frame encrypted on fill is only staged); on an underlying error in
`WriteLen` the updated offset copy is NOT written back. -/
def pollWriteF (sess : Sess) : Nat → NoiseOutput → WSnk → List Nat → WRes × NoiseOutput × WSnk
  | 0, a, s, _ => (.wStuck, a, s)
  | f + 1, a, s, src =>
    match a.ws with
    | .init => pollWriteF sess f { a with ws := .bufferData 0 } s src
    | .bufferData off =>
      let n := min (MAX_WRITE_BUF_LEN - off) src.length
      let wplain' := spliceAt a.bufs.wplain off (src.take n)
      if off + n = MAX_WRITE_BUF_LEN then
        match sess.enc wplain' with
        | some c =>
          (.accepted n, { a with
            ws := .writeLen c.length (c.length / 256 % 256) (c.length % 256) 0,
            bufs := { a.bufs with
              wplain := wplain',
              wcipher := spliceAt a.bufs.wcipher 0 c },
            encCalls := a.encCalls ++ [wplain'] }, s)
        | none =>
          (.wErr .invalidData, { a with
            ws := .encErr,
            bufs := { a.bufs with wplain := wplain' },
            encCalls := a.encCalls ++ [wplain'] }, s)
      else
        (.accepted n, { a with
          ws := .bufferData (off + n),
          bufs := { a.bufs with wplain := wplain' } }, s)
    | .writeLen len b0 b1 off =>
      match write_frame_len s b0 b1 off with
      | (.wlDone, _, s') => pollWriteF sess f { a with ws := .writeData len 0 } s' src
      | (.wlEof, _, s') => (.wErr .writeZero, { a with ws := .eofW }, s')
      | (.wlErr c, _, s') => (.wErr (.io c), a, s')
      | (.wlPending, off', s') => (.wPending, { a with ws := .writeLen len b0 b1 off' }, s')
      | (.wlStuck, _, s') => (.wStuck, a, s')
    | .writeData len off =>
      match s.poll ((a.bufs.wcipher.drop off).take (len - off)) with
      | (.upend, s') => (.wPending, a, s')
      | (.uerr c, s') => (.wErr (.io c), a, s')
      | (.wrote n, s') =>
        if n = 0 then (.wErr .writeZero, { a with ws := .eofW }, s')
        else
          if len = off + n then pollWriteF sess f { a with ws := .init } s' src
          else pollWriteF sess f { a with ws := .writeData len (off + n) } s' src
    | .eofW => (.wErr .writeZero, a, s)
    | .encErr => (.wErr .invalidData, a, s)

/-- Fuel slack for the write loop, covering the staged frame in flight. -/
def wSlack : WriteState → Nat
  | .writeLen len _ _ _ => len + 4
  | .writeData len off => len - off + 3
  | _ => 3

/-- Canonical `poll_write`. -/
def pollWrite (sess : Sess) (a : NoiseOutput) (s : WSnk) (src : List Nat) :
    WRes × NoiseOutput × WSnk :=
  pollWriteF sess (s.evs.length + wSlack a.ws + 4) a s src

/-- Result of the adapter's `poll_flush` / `poll_close`. -/
inductive FRes
  | flushOk
  | fErr (e : ErrK)
  | fPending
  | fStuck
deriving DecidableEq, Repr

/-- Loop body of `NoiseOutput::poll_flush` (fuel-bounded): encrypt whatever
is accumulated (`write[..off]`), then drive length and data onto the
underlying sink; completion of `WriteData` returns `Ready(Ok(()))`.  The
underlying stream's own flush is never invoked. -/
def pollFlushF (sess : Sess) : Nat → NoiseOutput → WSnk → FRes × NoiseOutput × WSnk
  | 0, a, s => (.fStuck, a, s)
  | f + 1, a, s =>
    match a.ws with
    | .init => (.flushOk, a, s)
    | .bufferData off =>
      match sess.enc (a.bufs.wplain.take off) with
      | some c =>
        pollFlushF sess f { a with
          ws := .writeLen c.length (c.length / 256 % 256) (c.length % 256) 0,
          bufs := { a.bufs with wcipher := spliceAt a.bufs.wcipher 0 c },
          encCalls := a.encCalls ++ [a.bufs.wplain.take off] } s
      | none =>
        (.fErr .invalidData, { a with
          ws := .encErr,
          encCalls := a.encCalls ++ [a.bufs.wplain.take off] }, s)
    | .writeLen len b0 b1 off =>
      match write_frame_len s b0 b1 off with
      | (.wlDone, _, s') => pollFlushF sess f { a with ws := .writeData len 0 } s'
      | (.wlEof, _, s') => (.fErr .writeZero, { a with ws := .eofW }, s')
      | (.wlErr c, _, s') => (.fErr (.io c), a, s')
      | (.wlPending, off', s') => (.fPending, { a with ws := .writeLen len b0 b1 off' }, s')
      | (.wlStuck, _, s') => (.fStuck, a, s')
    | .writeData len off =>
      match s.poll ((a.bufs.wcipher.drop off).take (len - off)) with
      | (.upend, s') => (.fPending, a, s')
      | (.uerr c, s') => (.fErr (.io c), a, s')
      | (.wrote n, s') =>
        if n = 0 then (.fErr .writeZero, { a with ws := .eofW }, s')
        else
          if len = off + n then (.flushOk, { a with ws := .init }, s')
          else pollFlushF sess f { a with ws := .writeData len (off + n) } s'
    | .eofW => (.fErr .writeZero, a, s)
    | .encErr => (.fErr .invalidData, a, s)

/-- Fuel slack for the flush loop: in `BufferData` the frame to drive is
the encryption of the accumulated plaintext. -/
def fSlack (sess : Sess) (b : Bufs) : WriteState → Nat
  | .bufferData off =>
    match sess.enc (b.wplain.take off) with
    | some c => c.length + 7
    | none => 3
  | .writeLen len _ _ _ => len + 5
  | .writeData len off => len - off + 4
  | _ => 3

/-- Canonical `poll_flush`. -/
def pollFlush (sess : Sess) (a : NoiseOutput) (s : WSnk) : FRes × NoiseOutput × WSnk :=
  pollFlushF sess (s.evs.length + fSlack sess a.bufs a.ws + 4) a s

/-- `NoiseOutput::poll_close`: forwards directly to the underlying stream's
close; no flush, no state change. -/
def pollClose (a : NoiseOutput) (s : WSnk) : FRes × NoiseOutput × WSnk :=
  (.flushOk, a, s.pollCloseU)

/-- A driver operation against the write side: offer a chunk to
`poll_write` (re-offering the remainder until fully accepted), or flush. -/
inductive WOp
  | wr (bs : List Nat)
  | fl
deriving DecidableEq, Repr

/-- The chunks of a driver schedule; their concatenation is the byte
sequence written. -/
def chunksOf : List WOp → List (List Nat)
  | [] => []
  | .wr bs :: ops => bs :: chunksOf ops
  | .fl :: ops => chunksOf ops

/-- Drive one chunk fully into the adapter: repeatedly `poll_write`,
re-offering the remainder, as an application caller would. -/
def writeChunk (sess : Sess) : Nat → NoiseOutput → WSnk → List Nat → Option (NoiseOutput × WSnk)
  | 0, _, _, _ => none
  | _ + 1, a, s, [] => some (a, s)
  | f + 1, a, s, bs =>
    match pollWrite sess a s bs with
    | (.accepted n, a', s') => if n = 0 then none else writeChunk sess f a' s' (bs.drop n)
    | _ => none

/-- Run a schedule of write/flush operations against the write side. -/
def runOps (sess : Sess) : List WOp → NoiseOutput → WSnk → Option (NoiseOutput × WSnk)
  | [], a, s => some (a, s)
  | .wr bs :: ops, a, s =>
    (writeChunk sess (bs.length + 1) a s bs).bind fun p => runOps sess ops p.1 p.2
  | .fl :: ops, a, s =>
    match pollFlush sess a s with
    | (.flushOk, a', s') => runOps sess ops a' s'
    | _ => none

/-- Read repeatedly with a maximal caller buffer, concatenating delivered
bytes, until a clean EOF (`Ready(Ok(0))` with a nonempty buffer). -/
def readAll (sess : Sess) : Nat → NoiseOutput → RSrc → Option (List Nat)
  | 0, _, _ => none
  | f + 1, a, u =>
    match pollRead sess a u MAX_NOISE_PKG_LEN with
    | (.bytes [], _, _) => some []
    | (.bytes bs, a', u') => (readAll sess f a' u').map (bs ++ ·)
    | _ => none

/-- Fully cooperative underlying sink: accepts everything offered. -/
def coopSnk : WSnk := { sunk := [], evs := [], dflt := .ready 70000, flushed := 0, closed := 0 }

/-- Fully cooperative underlying source delivering `wire`. -/
def coopSrc (wire : List Nat) : RSrc := { data := wire, evs := [], dflt := .ready 70000 }

/-- The on-wire bytes of one frame: big-endian `u16` length prefix
followed by the ciphertext, exactly as the write path produces them. -/
def frameBytes (c : List Nat) : List Nat := (c.length / 256 % 256) :: (c.length % 256) :: c

/-- The wire image of a sequence of plaintext frames under a session. -/
def wireOf (sess : Sess) : List (List Nat) → List Nat
  | [] => []
  | p :: parts => frameBytes ((sess.enc p).getD []) ++ wireOf sess parts

/-- Session assumptions for the round trip, following the specified
session interface: encryption succeeds on every admissible plaintext,
decryption inverts it, and the ciphertext is nonempty (it carries the
authentication tag) and expands the plaintext by at most 16 tag bytes. -/
def SessOK (sess : Sess) : Prop :=
  ∀ p : List Nat, p.length ≤ MAX_WRITE_BUF_LEN →
    ∃ c, sess.enc p = some c ∧ sess.dec c = some p ∧ c ≠ [] ∧ c.length ≤ p.length + 16

/-- Invariant of the write side during a cooperative round-trip run:
`parts` are the plaintext frames already on the wire, `pend` the bytes
accepted by the adapter but not yet on the wire. -/
def WInv (sess : Sess) (a : NoiseOutput) (s : WSnk) (parts : List (List Nat))
    (pend : List Nat) : Prop :=
  s.evs = [] ∧ s.dflt = .ready 70000 ∧ s.sunk = wireOf sess parts ∧
  (∀ p ∈ parts, p ≠ [] ∧ p.length ≤ MAX_WRITE_BUF_LEN) ∧
  a.bufs.wplain.length = MAX_WRITE_BUF_LEN ∧
  a.bufs.wcipher.length = 2 * MAX_WRITE_BUF_LEN ∧
  ((a.ws = .init ∧ pend = []) ∨
   (∃ off, a.ws = .bufferData off ∧ 1 ≤ off ∧ off < MAX_WRITE_BUF_LEN ∧
     pend = a.bufs.wplain.take off ∧ pend.length = off) ∨
   (∃ c, a.ws = .writeLen c.length (c.length / 256 % 256) (c.length % 256) 0 ∧
     sess.enc pend = some c ∧ pend.length = MAX_WRITE_BUF_LEN ∧
     a.bufs.wcipher.take c.length = c))

/-- Session that always fails; the length-reading paths never consult it. -/
def noSess : Sess := { enc := fun _ => none, dec := fun _ => none }

/-- Session used by the zero-plaintext-frame counterexample: the one-byte
ciphertext `[1]` decrypts to the empty plaintext, `[0, 7]` decrypts to `[7]`. -/
def c2sess : Sess :=
  { enc := fun p => some (0 :: p),
    dec := fun c => if c = [1] then some [] else if c = [0, 7] then some [7] else none }

/-- Round-trip session for the C1 witness: encryption appends a one-byte
tag, decryption strips it. -/
def tagSess : Sess := { enc := fun p => some (p ++ [7]), dec := fun c => some c.dropLast }

/-- Iterated `poll_read` calls: the adapter/stream configuration after `k`
consecutive calls with capacity `cap`. -/
def iterRead (sess : Sess) : Nat → NoiseOutput → RSrc → Nat → NoiseOutput × RSrc
  | 0, a, u, _ => (a, u)
  | k + 1, a, u, cap =>
    let r := pollRead sess a u cap
    iterRead sess k r.2.1 r.2.2 cap

/-- Splicing within the buffer bounds preserves its length. -/
theorem spliceAt_length (buf : List Nat) (off : Nat) (bs : List Nat)
    (h : off + bs.length ≤ buf.length) : (spliceAt buf off bs).length = buf.length := by
  simp [spliceAt]
  omega

/-- Reading back the accumulated prefix after a splice: the old prefix
followed by the bytes just written. -/
theorem spliceAt_take (buf : List Nat) (off : Nat) (bs : List Nat)
    (h : off ≤ buf.length) :
    (spliceAt buf off bs).take (off + bs.length) = buf.take off ++ bs := by
  have h1 : (buf.take off ++ bs).length = off + bs.length := by
    simp [Nat.min_eq_left h]
  unfold spliceAt
  rw [← h1]
  exact List.take_left _ _

/-- A splice that exactly reaches the end of the buffer replaces the whole
suffix from `off`. -/
theorem spliceAt_full (buf : List Nat) (off : Nat) (bs : List Nat)
    (h : off + bs.length = buf.length) :
    spliceAt buf off bs = buf.take off ++ bs := by
  unfold spliceAt
  rw [h, List.drop_length]
  simp

/-- Reading back bytes written at the start of a buffer. -/
theorem spliceAt_zero_take (buf : List Nat) (bs : List Nat) :
    (spliceAt buf 0 bs).take bs.length = bs := by
  have := spliceAt_take buf 0 bs (Nat.zero_le _)
  simpa using this

/-- One read-loop iteration from `Init`: become a fresh `ReadLen`. -/
theorem stepR_init (f : Nat) {sess : Sess} {ws : WriteState} {bufs : Bufs}
    {dc ec : List (List Nat)} {u : RSrc} {cap : Nat} :
    pollReadF sess (f + 1) ⟨.init, ws, bufs, dc, ec⟩ u cap =
      pollReadF sess f ⟨.readLen 0 0 0, ws, bufs, dc, ec⟩ u cap := rfl

/-- One read-loop iteration in `ReadLen` obtaining a nonzero frame length. -/
theorem stepR_len_got (f : Nat) {sess : Sess} {ws : WriteState} {bufs : Bufs}
    {dc ec : List (List Nat)} {u : RSrc} {cap b0 b1 off n b0' b1' off' : Nat} {u' : RSrc}
    (h : read_frame_len u b0 b1 off = (.got n, b0', b1', off', u')) (hn : n ≠ 0) :
    pollReadF sess (f + 1) ⟨.readLen b0 b1 off, ws, bufs, dc, ec⟩ u cap =
      pollReadF sess f ⟨.readData n 0, ws, bufs, dc, ec⟩ u' cap := by
  simp only [pollReadF]
  rw [h]
  simp [hn]

/-- One read-loop iteration in `ReadLen` obtaining a zero frame length:
the empty frame is absorbed and the loop re-enters `Init`. -/
theorem stepR_len_zero (f : Nat) {sess : Sess} {ws : WriteState} {bufs : Bufs}
    {dc ec : List (List Nat)} {u : RSrc} {cap b0 b1 off b0' b1' off' : Nat} {u' : RSrc}
    (h : read_frame_len u b0 b1 off = (.got 0, b0', b1', off', u')) :
    pollReadF sess (f + 1) ⟨.readLen b0 b1 off, ws, bufs, dc, ec⟩ u cap =
      pollReadF sess f ⟨.init, ws, bufs, dc, ec⟩ u' cap := by
  simp only [pollReadF]
  rw [h]
  simp

/-- One read-loop iteration in `ReadLen` hitting EOF: clean EOF at any
length offset. -/
theorem stepR_len_eof (f : Nat) {sess : Sess} {ws : WriteState} {bufs : Bufs}
    {dc ec : List (List Nat)} {u : RSrc} {cap b0 b1 off b0' b1' off' : Nat} {u' : RSrc}
    (h : read_frame_len u b0 b1 off = (.eofLen, b0', b1', off', u')) :
    pollReadF sess (f + 1) ⟨.readLen b0 b1 off, ws, bufs, dc, ec⟩ u cap =
      (.bytes [], ⟨.eofR true, ws, bufs, dc, ec⟩, u') := by
  simp only [pollReadF]
  rw [h]

/-- One read-loop iteration in `ReadData` reading part of the frame. -/
theorem stepR_data_more (f : Nat) {sess : Sess} {ws : WriteState} {bufs : Bufs}
    {dc ec : List (List Nat)} {u : RSrc} {cap len off : Nat} {bs : List Nat} {u' : RSrc}
    (h : u.poll (len - off) = (.gotBytes bs, u')) (hbs : bs ≠ [])
    (hne : ¬ len = off + bs.length) :
    pollReadF sess (f + 1) ⟨.readData len off, ws, bufs, dc, ec⟩ u cap =
      pollReadF sess f ⟨.readData len (off + bs.length), ws,
        { bufs with readC := spliceAt bufs.readC off bs }, dc, ec⟩ u' cap := by
  have hb0 : ¬ bs.length = 0 := by simpa using hbs
  simp only [pollReadF]
  rw [h]
  simp [hb0, hne]

/-- One read-loop iteration in `ReadData` completing the frame: decrypt
succeeds and the loop proceeds to `CopyData`. -/
theorem stepR_data_done (f : Nat) {sess : Sess} {ws : WriteState} {bufs : Bufs}
    {dc ec : List (List Nat)} {u : RSrc} {cap len off : Nat} {bs plain : List Nat} {u' : RSrc}
    (h : u.poll (len - off) = (.gotBytes bs, u')) (hbs : bs ≠ [])
    (heq : len = off + bs.length)
    (hdec : sess.dec ((spliceAt bufs.readC off bs).take len) = some plain) :
    pollReadF sess (f + 1) ⟨.readData len off, ws, bufs, dc, ec⟩ u cap =
      pollReadF sess f ⟨.copyData plain.length 0, ws,
        { bufs with readC := spliceAt bufs.readC off bs,
                    readP := spliceAt bufs.readP 0 plain },
        dc ++ [(spliceAt bufs.readC off bs).take len], ec⟩ u' cap := by
  have hb0 : ¬ bs.length = 0 := by simpa using hbs
  simp only [pollReadF]
  rw [h]
  simp [hb0, ← heq, hdec]

/-- One read-loop iteration in `ReadData` completing the frame with a
decryption failure: sticky transition to `DecErr`, `Err(InvalidData)`. -/
theorem stepR_data_fail (f : Nat) {sess : Sess} {ws : WriteState} {bufs : Bufs}
    {dc ec : List (List Nat)} {u : RSrc} {cap len off : Nat} {bs : List Nat} {u' : RSrc}
    (h : u.poll (len - off) = (.gotBytes bs, u')) (hbs : bs ≠ [])
    (heq : len = off + bs.length)
    (hdec : sess.dec ((spliceAt bufs.readC off bs).take len) = none) :
    pollReadF sess (f + 1) ⟨.readData len off, ws, bufs, dc, ec⟩ u cap =
      (.rErr .invalidData, ⟨.decErr, ws,
        { bufs with readC := spliceAt bufs.readC off bs },
        dc ++ [(spliceAt bufs.readC off bs).take len], ec⟩, u') := by
  have hb0 : ¬ bs.length = 0 := by simpa using hbs
  simp only [pollReadF]
  rw [h]
  simp [hb0, ← heq, hdec]

/-- One read-loop iteration in `ReadData` hitting a zero-byte read:
unexpected EOF. -/
theorem stepR_data_eof (f : Nat) {sess : Sess} {ws : WriteState} {bufs : Bufs}
    {dc ec : List (List Nat)} {u : RSrc} {cap len off : Nat} {u' : RSrc}
    (h : u.poll (len - off) = (.gotBytes [], u')) :
    pollReadF sess (f + 1) ⟨.readData len off, ws, bufs, dc, ec⟩ u cap =
      (.rErr .ueof, ⟨.eofR false, ws, bufs, dc, ec⟩, u') := by
  simp only [pollReadF]
  rw [h]
  simp

/-- The `CopyData` arm: deliver `min (len - off) cap` bytes of the
decrypted plaintext and always return. -/
theorem stepR_copy (f : Nat) {sess : Sess} {ws : WriteState} {bufs : Bufs}
    {dc ec : List (List Nat)} {u : RSrc} {cap len off : Nat} :
    pollReadF sess (f + 1) ⟨.copyData len off, ws, bufs, dc, ec⟩ u cap =
      (.bytes ((bufs.readP.drop off).take (min (len - off) cap)),
       ⟨if len = off + min (len - off) cap then .readLen 0 0 0
        else .copyData len (off + min (len - off) cap), ws, bufs, dc, ec⟩, u) := by
  by_cases hc : len = off + min (len - off) cap
  · simp only [pollReadF, if_pos hc]
  · simp only [pollReadF, if_neg hc]

/-- One write-loop iteration from `Init`: become `BufferData{0}`. -/
theorem stepW_init (f : Nat) {sess : Sess} {rs : ReadState} {bufs : Bufs}
    {dc ec : List (List Nat)} {s : WSnk} {src : List Nat} :
    pollWriteF sess (f + 1) ⟨rs, .init, bufs, dc, ec⟩ s src =
      pollWriteF sess f ⟨rs, .bufferData 0, bufs, dc, ec⟩ s src := rfl

/-- The `BufferData` arm without filling the accumulator: accept
`min (MAX_WRITE_BUF_LEN - off) src.length` bytes and return. -/
theorem stepW_buffer_part (f : Nat) {sess : Sess} {rs : ReadState} {bufs : Bufs}
    {dc ec : List (List Nat)} {s : WSnk} {src : List Nat} {off : Nat}
    (h : ¬ off + min (MAX_WRITE_BUF_LEN - off) src.length = MAX_WRITE_BUF_LEN) :
    pollWriteF sess (f + 1) ⟨rs, .bufferData off, bufs, dc, ec⟩ s src =
      (.accepted (min (MAX_WRITE_BUF_LEN - off) src.length),
       ⟨rs, .bufferData (off + min (MAX_WRITE_BUF_LEN - off) src.length),
        { bufs with wplain :=
            spliceAt bufs.wplain off (src.take (min (MAX_WRITE_BUF_LEN - off) src.length)) },
        dc, ec⟩, s) := by
  simp [pollWriteF, h]

/-- The `BufferData` arm filling the accumulator: accept the bytes,
encrypt the full accumulator, stage the frame, and still return the
acceptance count. -/
theorem stepW_buffer_fill (f : Nat) {sess : Sess} {rs : ReadState} {bufs : Bufs}
    {dc ec : List (List Nat)} {s : WSnk} {src : List Nat} {off : Nat} {c : List Nat}
    (hfull : off + min (MAX_WRITE_BUF_LEN - off) src.length = MAX_WRITE_BUF_LEN)
    (henc : sess.enc
      (spliceAt bufs.wplain off (src.take (min (MAX_WRITE_BUF_LEN - off) src.length))) = some c) :
    pollWriteF sess (f + 1) ⟨rs, .bufferData off, bufs, dc, ec⟩ s src =
      (.accepted (min (MAX_WRITE_BUF_LEN - off) src.length),
       ⟨rs, .writeLen c.length (c.length / 256 % 256) (c.length % 256) 0,
        { bufs with
          wplain :=
            spliceAt bufs.wplain off (src.take (min (MAX_WRITE_BUF_LEN - off) src.length)),
          wcipher := spliceAt bufs.wcipher 0 c },
        dc, ec ++ [spliceAt bufs.wplain off
          (src.take (min (MAX_WRITE_BUF_LEN - off) src.length))]⟩, s) := by
  simp [pollWriteF, hfull, henc]

/-- The `BufferData` arm filling the accumulator with failing encryption:
sticky transition to `EncErr`, `Err(InvalidData)` (bytes were copied). -/
theorem stepW_buffer_encfail (f : Nat) {sess : Sess} {rs : ReadState} {bufs : Bufs}
    {dc ec : List (List Nat)} {s : WSnk} {src : List Nat} {off : Nat}
    (hfull : off + min (MAX_WRITE_BUF_LEN - off) src.length = MAX_WRITE_BUF_LEN)
    (henc : sess.enc
      (spliceAt bufs.wplain off (src.take (min (MAX_WRITE_BUF_LEN - off) src.length))) = none) :
    pollWriteF sess (f + 1) ⟨rs, .bufferData off, bufs, dc, ec⟩ s src =
      (.wErr .invalidData,
       ⟨rs, .encErr,
        { bufs with wplain :=
            spliceAt bufs.wplain off (src.take (min (MAX_WRITE_BUF_LEN - off) src.length)) },
        dc, ec ++ [spliceAt bufs.wplain off
          (src.take (min (MAX_WRITE_BUF_LEN - off) src.length))]⟩, s) := by
  simp [pollWriteF, hfull, henc]

/-- One write-loop iteration in `WriteLen` completing the length prefix. -/
theorem stepW_len_done (f : Nat) {sess : Sess} {rs : ReadState} {bufs : Bufs}
    {dc ec : List (List Nat)} {s : WSnk} {src : List Nat} {len b0 b1 off off' : Nat} {s' : WSnk}
    (h : write_frame_len s b0 b1 off = (.wlDone, off', s')) :
    pollWriteF sess (f + 1) ⟨rs, .writeLen len b0 b1 off, bufs, dc, ec⟩ s src =
      pollWriteF sess f ⟨rs, .writeData len 0, bufs, dc, ec⟩ s' src := by
  simp only [pollWriteF]
  rw [h]

/-- One write-loop iteration in `WriteLen` hitting the closed sink. -/
theorem stepW_len_zero (f : Nat) {sess : Sess} {rs : ReadState} {bufs : Bufs}
    {dc ec : List (List Nat)} {s : WSnk} {src : List Nat} {len b0 b1 off off' : Nat} {s' : WSnk}
    (h : write_frame_len s b0 b1 off = (.wlEof, off', s')) :
    pollWriteF sess (f + 1) ⟨rs, .writeLen len b0 b1 off, bufs, dc, ec⟩ s src =
      (.wErr .writeZero, ⟨rs, .eofW, bufs, dc, ec⟩, s') := by
  simp only [pollWriteF]
  rw [h]

/-- One write-loop iteration in `WriteData` finishing the frame: back to
`Init`, and the loop continues (to buffer more of `src`). -/
theorem stepW_data_done (f : Nat) {sess : Sess} {rs : ReadState} {bufs : Bufs}
    {dc ec : List (List Nat)} {s : WSnk} {src : List Nat} {len off n : Nat} {s' : WSnk}
    (h : s.poll ((bufs.wcipher.drop off).take (len - off)) = (.wrote n, s'))
    (hn : n ≠ 0) (hfin : len = off + n) :
    pollWriteF sess (f + 1) ⟨rs, .writeData len off, bufs, dc, ec⟩ s src =
      pollWriteF sess f ⟨rs, .init, bufs, dc, ec⟩ s' src := by
  simp only [pollWriteF]
  rw [h]
  simp [hn, hfin]

/-- One write-loop iteration in `WriteData` making partial progress. -/
theorem stepW_data_part (f : Nat) {sess : Sess} {rs : ReadState} {bufs : Bufs}
    {dc ec : List (List Nat)} {s : WSnk} {src : List Nat} {len off n : Nat} {s' : WSnk}
    (h : s.poll ((bufs.wcipher.drop off).take (len - off)) = (.wrote n, s'))
    (hn : n ≠ 0) (hne : ¬ len = off + n) :
    pollWriteF sess (f + 1) ⟨rs, .writeData len off, bufs, dc, ec⟩ s src =
      pollWriteF sess f ⟨rs, .writeData len (off + n), bufs, dc, ec⟩ s' src := by
  simp only [pollWriteF]
  rw [h]
  simp [hn, hne]

/-- One write-loop iteration in `WriteData` hitting the closed sink. -/
theorem stepW_data_zero (f : Nat) {sess : Sess} {rs : ReadState} {bufs : Bufs}
    {dc ec : List (List Nat)} {s : WSnk} {src : List Nat} {len off : Nat} {s' : WSnk}
    (h : s.poll ((bufs.wcipher.drop off).take (len - off)) = (.wrote 0, s')) :
    pollWriteF sess (f + 1) ⟨rs, .writeData len off, bufs, dc, ec⟩ s src =
      (.wErr .writeZero, ⟨rs, .eofW, bufs, dc, ec⟩, s') := by
  simp only [pollWriteF]
  rw [h]
  simp

/-- The flush arm in `Init`: nothing staged, `Ready(Ok(()))`. -/
theorem stepF_init (f : Nat) {sess : Sess} {rs : ReadState} {bufs : Bufs}
    {dc ec : List (List Nat)} {s : WSnk} :
    pollFlushF sess (f + 1) ⟨rs, .init, bufs, dc, ec⟩ s =
      (.flushOk, ⟨rs, .init, bufs, dc, ec⟩, s) := rfl

/-- One flush-loop iteration in `BufferData`: encrypt `write[..off]` and
stage the frame. -/
theorem stepF_buffer_ok (f : Nat) {sess : Sess} {rs : ReadState} {bufs : Bufs}
    {dc ec : List (List Nat)} {s : WSnk} {off : Nat} {c : List Nat}
    (henc : sess.enc (bufs.wplain.take off) = some c) :
    pollFlushF sess (f + 1) ⟨rs, .bufferData off, bufs, dc, ec⟩ s =
      pollFlushF sess f ⟨rs, .writeLen c.length (c.length / 256 % 256) (c.length % 256) 0,
        { bufs with wcipher := spliceAt bufs.wcipher 0 c },
        dc, ec ++ [bufs.wplain.take off]⟩ s := by
  simp only [pollFlushF]
  rw [henc]

/-- One flush-loop iteration in `BufferData` with failing encryption. -/
theorem stepF_buffer_fail (f : Nat) {sess : Sess} {rs : ReadState} {bufs : Bufs}
    {dc ec : List (List Nat)} {s : WSnk} {off : Nat}
    (henc : sess.enc (bufs.wplain.take off) = none) :
    pollFlushF sess (f + 1) ⟨rs, .bufferData off, bufs, dc, ec⟩ s =
      (.fErr .invalidData, ⟨rs, .encErr, bufs, dc, ec ++ [bufs.wplain.take off]⟩, s) := by
  simp only [pollFlushF]
  rw [henc]

/-- One flush-loop iteration in `WriteLen` completing the length prefix. -/
theorem stepF_len_done (f : Nat) {sess : Sess} {rs : ReadState} {bufs : Bufs}
    {dc ec : List (List Nat)} {s : WSnk} {len b0 b1 off off' : Nat} {s' : WSnk}
    (h : write_frame_len s b0 b1 off = (.wlDone, off', s')) :
    pollFlushF sess (f + 1) ⟨rs, .writeLen len b0 b1 off, bufs, dc, ec⟩ s =
      pollFlushF sess f ⟨rs, .writeData len 0, bufs, dc, ec⟩ s' := by
  simp only [pollFlushF]
  rw [h]

/-- One flush-loop iteration in `WriteData` finishing the frame: return
`Ready(Ok(()))` with the writer back in `Init`. -/
theorem stepF_data_done (f : Nat) {sess : Sess} {rs : ReadState} {bufs : Bufs}
    {dc ec : List (List Nat)} {s : WSnk} {len off n : Nat} {s' : WSnk}
    (h : s.poll ((bufs.wcipher.drop off).take (len - off)) = (.wrote n, s'))
    (hn : n ≠ 0) (hfin : len = off + n) :
    pollFlushF sess (f + 1) ⟨rs, .writeData len off, bufs, dc, ec⟩ s =
      (.flushOk, ⟨rs, .init, bufs, dc, ec⟩, s') := by
  simp only [pollFlushF]
  rw [h]
  simp [hn, hfin]

/-- One flush-loop iteration in `WriteData` making partial progress. -/
theorem stepF_data_part (f : Nat) {sess : Sess} {rs : ReadState} {bufs : Bufs}
    {dc ec : List (List Nat)} {s : WSnk} {len off n : Nat} {s' : WSnk}
    (h : s.poll ((bufs.wcipher.drop off).take (len - off)) = (.wrote n, s'))
    (hn : n ≠ 0) (hne : ¬ len = off + n) :
    pollFlushF sess (f + 1) ⟨rs, .writeData len off, bufs, dc, ec⟩ s =
      pollFlushF sess f ⟨rs, .writeData len (off + n), bufs, dc, ec⟩ s' := by
  simp only [pollFlushF]
  rw [h]
  simp [hn, hne]

/-- Fuel monotonicity: once the length-reading loop completes (is not
`lenStuck`), adding fuel does not change the outcome. -/
theorem readFrameLenF_mono : ∀ f f' u b0 b1 off,
    (readFrameLenF f u b0 b1 off).1 ≠ .lenStuck → f ≤ f' →
    readFrameLenF f' u b0 b1 off = readFrameLenF f u b0 b1 off := by
  intro f
  induction f with
  | zero => intro f' u b0 b1 off hns _; exact absurd rfl hns
  | succ f ih =>
    intro f' u b0 b1 off hns hle
    obtain ⟨g, rfl⟩ : ∃ g, f' = g + 1 := ⟨f' - 1, by omega⟩
    unfold readFrameLenF at hns ⊢
    rcases hp : u.poll (2 - off) with ⟨r, u'⟩
    rw [hp] at hns
    cases r with
    | upend => rfl
    | uerr c => rfl
    | gotBytes bs =>
      by_cases hb : bs.length = 0
      · simp only [if_pos hb]
      · simp only [if_neg hb] at hns ⊢
        rcases hf : fill2 b0 b1 off bs with ⟨b0', b1', off'⟩
        rw [hf] at hns
        by_cases h2 : off' = 2
        · simp only [if_pos h2]
        · simp only [if_neg h2] at hns ⊢
          exact ih g u' b0' b1' off' hns (by omega)

/-- Fuel monotonicity for the length-writing loop. -/
theorem writeFrameLenF_mono : ∀ f f' s b0 b1 off,
    (writeFrameLenF f s b0 b1 off).1 ≠ .wlStuck → f ≤ f' →
    writeFrameLenF f' s b0 b1 off = writeFrameLenF f s b0 b1 off := by
  intro f
  induction f with
  | zero => intro f' s b0 b1 off hns _; exact absurd rfl hns
  | succ f ih =>
    intro f' s b0 b1 off hns hle
    obtain ⟨g, rfl⟩ : ∃ g, f' = g + 1 := ⟨f' - 1, by omega⟩
    unfold writeFrameLenF at hns ⊢
    rcases hp : s.poll (([b0, b1].drop off).take (2 - off)) with ⟨r, s'⟩
    rw [hp] at hns
    cases r with
    | upend => rfl
    | uerr c => rfl
    | wrote n =>
      by_cases h0 : n = 0
      · simp only [if_pos h0]
      · simp only [if_neg h0] at hns ⊢
        by_cases h2 : off + n = 2
        · simp only [if_pos h2]
        · simp only [if_neg h2] at hns ⊢
          exact ih g s' b0 b1 (off + n) hns (by omega)

/-- Fuel monotonicity for the read loop. -/
theorem pollReadF_mono : ∀ f f' sess a u cap,
    (pollReadF sess f a u cap).1 ≠ .rStuck → f ≤ f' →
    pollReadF sess f' a u cap = pollReadF sess f a u cap := by
  intro f
  induction f with
  | zero => intro f' sess a u cap hns _; exact absurd rfl hns
  | succ f ih =>
    intro f' sess a u cap hns hle
    obtain ⟨g, rfl⟩ : ∃ g, f' = g + 1 := ⟨f' - 1, by omega⟩
    rcases a with ⟨rs, ws, bufs, dc, ec⟩
    cases rs with
    | init =>
      rw [stepR_init g, stepR_init f]
      rw [stepR_init f] at hns
      exact ih g sess _ u cap hns (by omega)
    | readLen b0 b1 off =>
      simp only [pollReadF] at hns ⊢
      rcases hr : read_frame_len u b0 b1 off with ⟨r, b0', b1', off', u'⟩
      rw [hr] at hns
      cases r with
      | got n =>
        by_cases h0 : n = 0
        · simp only [if_pos h0] at hns ⊢
          exact ih g sess _ u' cap hns (by omega)
        · simp only [if_neg h0] at hns ⊢
          exact ih g sess _ u' cap hns (by omega)
      | eofLen => rfl
      | lenErr c => rfl
      | lenPending => rfl
      | lenStuck => rfl
    | readData len off =>
      simp only [pollReadF] at hns ⊢
      rcases hp : u.poll (len - off) with ⟨r, u'⟩
      rw [hp] at hns
      cases r with
      | upend => rfl
      | uerr c => rfl
      | gotBytes bs =>
        by_cases hb : bs.length = 0
        · simp only [if_pos hb]
        · simp only [if_neg hb] at hns ⊢
          by_cases h2 : len = off + bs.length
          · simp only [if_pos h2] at hns ⊢
            rcases hd : sess.dec ((spliceAt bufs.readC off bs).take len) with _ | plain
            · rfl
            · rw [hd] at hns
              exact ih g sess _ u' cap hns (by omega)
          · simp only [if_neg h2] at hns ⊢
            exact ih g sess _ u' cap hns (by omega)
    | copyData len off =>
      simp only [pollReadF]
    | eofR clean => cases clean <;> rfl
    | decErr => rfl

/-- Fuel monotonicity for the write loop. -/
theorem pollWriteF_mono : ∀ f f' sess a s src,
    (pollWriteF sess f a s src).1 ≠ .wStuck → f ≤ f' →
    pollWriteF sess f' a s src = pollWriteF sess f a s src := by
  intro f
  induction f with
  | zero => intro f' sess a s src hns _; exact absurd rfl hns
  | succ f ih =>
    intro f' sess a s src hns hle
    obtain ⟨g, rfl⟩ : ∃ g, f' = g + 1 := ⟨f' - 1, by omega⟩
    rcases a with ⟨rs, ws, bufs, dc, ec⟩
    cases ws with
    | init =>
      rw [stepW_init g, stepW_init f]
      rw [stepW_init f] at hns
      exact ih g sess _ s src hns (by omega)
    | bufferData off =>
      simp only [pollWriteF]
    | writeLen len b0 b1 off =>
      simp only [pollWriteF] at hns ⊢
      rcases hw : write_frame_len s b0 b1 off with ⟨r, off', s'⟩
      rw [hw] at hns
      cases r with
      | wlDone => exact ih g sess _ s' src hns (by omega)
      | wlEof => rfl
      | wlErr c => rfl
      | wlPending => rfl
      | wlStuck => rfl
    | writeData len off =>
      simp only [pollWriteF] at hns ⊢
      rcases hp : s.poll ((bufs.wcipher.drop off).take (len - off)) with ⟨r, s'⟩
      rw [hp] at hns
      cases r with
      | upend => rfl
      | uerr c => rfl
      | wrote n =>
        by_cases h0 : n = 0
        · simp only [if_pos h0]
        · simp only [if_neg h0] at hns ⊢
          by_cases h2 : len = off + n
          · simp only [if_pos h2] at hns ⊢
            exact ih g sess _ s' src hns (by omega)
          · simp only [if_neg h2] at hns ⊢
            exact ih g sess _ s' src hns (by omega)
    | eofW => rfl
    | encErr => rfl

/-- Fuel monotonicity for the flush loop. -/
theorem pollFlushF_mono : ∀ f f' sess a s,
    (pollFlushF sess f a s).1 ≠ .fStuck → f ≤ f' →
    pollFlushF sess f' a s = pollFlushF sess f a s := by
  intro f
  induction f with
  | zero => intro f' sess a s hns _; exact absurd rfl hns
  | succ f ih =>
    intro f' sess a s hns hle
    obtain ⟨g, rfl⟩ : ∃ g, f' = g + 1 := ⟨f' - 1, by omega⟩
    rcases a with ⟨rs, ws, bufs, dc, ec⟩
    cases ws with
    | init => rfl
    | bufferData off =>
      simp only [pollFlushF] at hns ⊢
      rcases he : sess.enc (bufs.wplain.take off) with _ | c
      · rfl
      · rw [he] at hns
        exact ih g sess _ s hns (by omega)
    | writeLen len b0 b1 off =>
      simp only [pollFlushF] at hns ⊢
      rcases hw : write_frame_len s b0 b1 off with ⟨r, off', s'⟩
      rw [hw] at hns
      cases r with
      | wlDone => exact ih g sess _ s' hns (by omega)
      | wlEof => rfl
      | wlErr c => rfl
      | wlPending => rfl
      | wlStuck => rfl
    | writeData len off =>
      simp only [pollFlushF] at hns ⊢
      rcases hp : s.poll ((bufs.wcipher.drop off).take (len - off)) with ⟨r, s'⟩
      rw [hp] at hns
      cases r with
      | upend => rfl
      | uerr c => rfl
      | wrote n =>
        by_cases h0 : n = 0
        · simp only [if_pos h0]
        · simp only [if_neg h0] at hns ⊢
          by_cases h2 : len = off + n
          · simp only [if_pos h2]
          · simp only [if_neg h2] at hns ⊢
            exact ih g sess _ s' hns (by omega)
    | eofW => rfl
    | encErr => rfl

/-- Lift a fuel-`k` read computation to the canonical `pollRead`. -/
theorem pollRead_lift (sess : Sess) (a : NoiseOutput) (u : RSrc) (cap k : Nat)
    (h : (pollReadF sess k a u cap).1 ≠ .rStuck)
    (hk : k ≤ 2 * (u.evs.length + u.data.length) + 4) :
    pollRead sess a u cap = pollReadF sess k a u cap :=
  pollReadF_mono k (2 * (u.evs.length + u.data.length) + 4) sess a u cap h hk

/-- Lift a fuel-`k` write computation to the canonical `pollWrite`. -/
theorem pollWrite_lift (sess : Sess) (a : NoiseOutput) (s : WSnk) (src : List Nat) (k : Nat)
    (h : (pollWriteF sess k a s src).1 ≠ .wStuck)
    (hk : k ≤ s.evs.length + wSlack a.ws + 4) :
    pollWrite sess a s src = pollWriteF sess k a s src :=
  pollWriteF_mono k (s.evs.length + wSlack a.ws + 4) sess a s src h hk

/-- Lift a fuel-`k` flush computation to the canonical `pollFlush`. -/
theorem pollFlush_lift (sess : Sess) (a : NoiseOutput) (s : WSnk) (k : Nat)
    (h : (pollFlushF sess k a s).1 ≠ .fStuck)
    (hk : k ≤ s.evs.length + fSlack sess a.bufs a.ws + 4) :
    pollFlush sess a s = pollFlushF sess k a s :=
  pollFlushF_mono k (s.evs.length + fSlack sess a.bufs a.ws + 4) sess a s h hk

/-- A cooperative sink accepts everything offered (at most 65535 bytes). -/
theorem coop_poll (sunk : List Nat) (fl cl : Nat) (bs : List Nat) (h : bs.length ≤ 65535) :
    WSnk.poll ⟨sunk, [], .ready 70000, fl, cl⟩ bs =
      (.wrote bs.length, ⟨sunk ++ bs, [], .ready 70000, fl, cl⟩) := by
  unfold WSnk.poll
  have hmin : min 70000 bs.length = bs.length := Nat.min_eq_right (by omega)
  simp [hmin]

/-- Writing the two length-prefix bytes into a cooperative sink completes
in one poll. -/
theorem coop_write_frame_len (sunk : List Nat) (fl cl : Nat) (b0 b1 : Nat) :
    write_frame_len ⟨sunk, [], .ready 70000, fl, cl⟩ b0 b1 0 =
      (.wlDone, 2, ⟨sunk ++ [b0, b1], [], .ready 70000, fl, cl⟩) := rfl

/-- Flushing a staged frame `WriteLen{len, b0, b1, 0}` through a
cooperative sink writes the two length bytes and the `len` ciphertext
bytes, returning `Ready(Ok(()))` with the writer back in `Init`. -/
theorem coop_flush_drain (sess : Sess) (rs : ReadState) (bufs : Bufs)
    (dc ec : List (List Nat)) (sunk : List Nat) (fl cl : Nat) (len b0 b1 : Nat)
    (h1 : len ≠ 0) (h2 : len ≤ bufs.wcipher.length) (h3 : len ≤ 65535) :
    pollFlush sess ⟨rs, .writeLen len b0 b1 0, bufs, dc, ec⟩ ⟨sunk, [], .ready 70000, fl, cl⟩ =
      (.flushOk, ⟨rs, .init, bufs, dc, ec⟩,
        ⟨sunk ++ [b0, b1] ++ bufs.wcipher.take len, [], .ready 70000, fl, cl⟩) := by
  have hlbs : ((bufs.wcipher.drop 0).take (len - 0)).length = len := by
    simp [Nat.min_eq_left h2]
  have hpoll : WSnk.poll ⟨sunk ++ [b0, b1], [], .ready 70000, fl, cl⟩
      ((bufs.wcipher.drop 0).take (len - 0)) =
      (.wrote len, ⟨sunk ++ [b0, b1] ++ bufs.wcipher.take len, [], .ready 70000, fl, cl⟩) := by
    rw [coop_poll _ _ _ _ (by omega)]
    rw [hlbs]
    simp
  have hrun : pollFlushF sess 2 ⟨rs, .writeLen len b0 b1 0, bufs, dc, ec⟩
      ⟨sunk, [], .ready 70000, fl, cl⟩ =
      (.flushOk, ⟨rs, .init, bufs, dc, ec⟩,
        ⟨sunk ++ [b0, b1] ++ bufs.wcipher.take len, [], .ready 70000, fl, cl⟩) := by
    rw [show (2 : Nat) = 1 + 1 from rfl,
      stepF_len_done 1 (coop_write_frame_len sunk fl cl b0 b1),
      stepF_data_done 0 hpoll h1 (by omega)]
  rw [pollFlush_lift sess _ _ 2 (by rw [hrun]; simp) (by omega), hrun]

/-- A cooperative source delivers a whole requested block when available. -/
theorem coop_src_poll (wire : List Nat) (k : Nat) (hk : k ≤ 65535) :
    (coopSrc wire).poll k = (.gotBytes (wire.take k), coopSrc (wire.drop k)) := by
  unfold RSrc.poll coopSrc
  have hmin : min 70000 k = k := Nat.min_eq_right (by omega)
  simp [hmin]

/-- Reading one complete frame from a cooperative source: length prefix,
ciphertext, decryption, and delivery of the whole plaintext in one call
(the caller's buffer is large enough). -/
theorem coop_read_frameF (sess : Sess) (ws : WriteState) (bufs : Bufs)
    (dc ec : List (List Nat)) (cap b0 b1 : Nat) (rest p : List Nat)
    (hn : 256 * b0 + b1 ≠ 0) (h65 : 256 * b0 + b1 ≤ 65535)
    (hnr : 256 * b0 + b1 ≤ rest.length)
    (hdec : sess.dec (rest.take (256 * b0 + b1)) = some p) (hcap : p.length ≤ cap) :
    pollReadF sess 4 ⟨.readLen 0 0 0, ws, bufs, dc, ec⟩ (coopSrc (b0 :: b1 :: rest)) cap =
      (.bytes p, ⟨.readLen 0 0 0, ws,
        { bufs with readC := spliceAt bufs.readC 0 (rest.take (256 * b0 + b1)),
                    readP := spliceAt bufs.readP 0 p },
        dc ++ [rest.take (256 * b0 + b1)], ec⟩, coopSrc (rest.drop (256 * b0 + b1))) := by
  have hrfl : read_frame_len (coopSrc (b0 :: b1 :: rest)) 0 0 0 =
      (.got (256 * b0 + b1), b0, b1, 2, coopSrc rest) := by
    simp [read_frame_len, readFrameLenF, RSrc.poll, coopSrc, fill2]
  have hpoll : (coopSrc rest).poll (256 * b0 + b1 - 0) =
      (.gotBytes (rest.take (256 * b0 + b1)), coopSrc (rest.drop (256 * b0 + b1))) := by
    rw [show 256 * b0 + b1 - 0 = 256 * b0 + b1 from rfl]
    exact coop_src_poll rest _ h65
  have htl : (rest.take (256 * b0 + b1)).length = 256 * b0 + b1 := by
    simp [Nat.min_eq_left hnr]
  have hne : rest.take (256 * b0 + b1) ≠ [] := by
    intro hcon
    rw [hcon] at htl
    simp at htl
    omega
  have hlen : 256 * b0 + b1 = 0 + (rest.take (256 * b0 + b1)).length := by
    rw [htl]
    omega
  have hsp : (spliceAt bufs.readC 0 (rest.take (256 * b0 + b1))).take (256 * b0 + b1) =
      rest.take (256 * b0 + b1) := by
    have := spliceAt_zero_take bufs.readC (rest.take (256 * b0 + b1))
    rw [htl] at this
    exact this
  have hdec' : sess.dec ((spliceAt bufs.readC 0 (rest.take (256 * b0 + b1))).take
      (256 * b0 + b1)) = some p := by
    rw [hsp]
    exact hdec
  rw [show (4 : Nat) = 3 + 1 from rfl, stepR_len_got 3 hrfl hn,
    show (3 : Nat) = 2 + 1 from rfl, stepR_data_done 2 hpoll hne hlen hdec',
    show (2 : Nat) = 1 + 1 from rfl, stepR_copy 1]
  have hmin : min (p.length - 0) cap = p.length := by
    simp [Nat.min_eq_left hcap]
  have hout : ((spliceAt bufs.readP 0 p).drop 0).take (min (p.length - 0) cap) = p := by
    rw [hmin, List.drop_zero]
    exact spliceAt_zero_take bufs.readP p
  rw [hout, hsp]
  simp [hmin, hcap]

/-- The same frame read through the canonical `pollRead`, entering in
`ReadLen{0,0,0}`. -/
theorem coop_read_frame (sess : Sess) (ws : WriteState) (bufs : Bufs)
    (dc ec : List (List Nat)) (cap b0 b1 : Nat) (rest p : List Nat)
    (hn : 256 * b0 + b1 ≠ 0) (h65 : 256 * b0 + b1 ≤ 65535)
    (hnr : 256 * b0 + b1 ≤ rest.length)
    (hdec : sess.dec (rest.take (256 * b0 + b1)) = some p) (hcap : p.length ≤ cap) :
    pollRead sess ⟨.readLen 0 0 0, ws, bufs, dc, ec⟩ (coopSrc (b0 :: b1 :: rest)) cap =
      (.bytes p, ⟨.readLen 0 0 0, ws,
        { bufs with readC := spliceAt bufs.readC 0 (rest.take (256 * b0 + b1)),
                    readP := spliceAt bufs.readP 0 p },
        dc ++ [rest.take (256 * b0 + b1)], ec⟩, coopSrc (rest.drop (256 * b0 + b1))) := by
  have h4 := coop_read_frameF sess ws bufs dc ec cap b0 b1 rest p hn h65 hnr hdec hcap
  rw [pollRead_lift sess _ _ cap 4 (by rw [h4]; simp) (by simp [coopSrc]; try omega), h4]

/-- The same frame read through the canonical `pollRead`, entering in
`Init`. -/
theorem coop_read_frame_init (sess : Sess) (ws : WriteState) (bufs : Bufs)
    (dc ec : List (List Nat)) (cap b0 b1 : Nat) (rest p : List Nat)
    (hn : 256 * b0 + b1 ≠ 0) (h65 : 256 * b0 + b1 ≤ 65535)
    (hnr : 256 * b0 + b1 ≤ rest.length)
    (hdec : sess.dec (rest.take (256 * b0 + b1)) = some p) (hcap : p.length ≤ cap) :
    pollRead sess ⟨.init, ws, bufs, dc, ec⟩ (coopSrc (b0 :: b1 :: rest)) cap =
      (.bytes p, ⟨.readLen 0 0 0, ws,
        { bufs with readC := spliceAt bufs.readC 0 (rest.take (256 * b0 + b1)),
                    readP := spliceAt bufs.readP 0 p },
        dc ++ [rest.take (256 * b0 + b1)], ec⟩, coopSrc (rest.drop (256 * b0 + b1))) := by
  have h4 := coop_read_frameF sess ws bufs dc ec cap b0 b1 rest p hn h65 hnr hdec hcap
  have h5 : pollReadF sess 5 ⟨.init, ws, bufs, dc, ec⟩ (coopSrc (b0 :: b1 :: rest)) cap =
      (.bytes p, ⟨.readLen 0 0 0, ws,
        { bufs with readC := spliceAt bufs.readC 0 (rest.take (256 * b0 + b1)),
                    readP := spliceAt bufs.readP 0 p },
        dc ++ [rest.take (256 * b0 + b1)], ec⟩, coopSrc (rest.drop (256 * b0 + b1))) := by
    rw [show (5 : Nat) = 4 + 1 from rfl, stepR_init 4, h4]
  rw [pollRead_lift sess _ _ cap 5 (by rw [h5]; simp) (by simp [coopSrc]; try omega), h5]

/-- Reading from an exhausted cooperative source: clean EOF, entering in
`ReadLen{0,0,0}`. -/
theorem coop_read_eof (sess : Sess) (ws : WriteState) (bufs : Bufs)
    (dc ec : List (List Nat)) (cap : Nat) :
    pollRead sess ⟨.readLen 0 0 0, ws, bufs, dc, ec⟩ (coopSrc []) cap =
      (.bytes [], ⟨.eofR true, ws, bufs, dc, ec⟩, coopSrc []) := by
  have hrfl : read_frame_len (coopSrc []) 0 0 0 = (.eofLen, 0, 0, 0, coopSrc []) := rfl
  have h1 : pollReadF sess 1 ⟨.readLen 0 0 0, ws, bufs, dc, ec⟩ (coopSrc []) cap =
      (.bytes [], ⟨.eofR true, ws, bufs, dc, ec⟩, coopSrc []) := by
    rw [show (1 : Nat) = 0 + 1 from rfl, stepR_len_eof 0 hrfl]
  rw [pollRead_lift sess _ _ cap 1 (by rw [h1]; simp) (by omega), h1]

/-- Reading from an exhausted cooperative source: clean EOF, entering in
`Init`. -/
theorem coop_read_eof_init (sess : Sess) (ws : WriteState) (bufs : Bufs)
    (dc ec : List (List Nat)) (cap : Nat) :
    pollRead sess ⟨.init, ws, bufs, dc, ec⟩ (coopSrc []) cap =
      (.bytes [], ⟨.eofR true, ws, bufs, dc, ec⟩, coopSrc []) := by
  have hrfl : read_frame_len (coopSrc []) 0 0 0 = (.eofLen, 0, 0, 0, coopSrc []) := rfl
  have h2 : pollReadF sess 2 ⟨.init, ws, bufs, dc, ec⟩ (coopSrc []) cap =
      (.bytes [], ⟨.eofR true, ws, bufs, dc, ec⟩, coopSrc []) := by
    rw [show (2 : Nat) = 1 + 1 from rfl, stepR_init 1,
      show (1 : Nat) = 0 + 1 from rfl, stepR_len_eof 0 hrfl]
  rw [pollRead_lift sess _ _ cap 2 (by rw [h2]; simp) (by omega), h2]

/-- Appending one frame to the wire image. -/
theorem wireOf_append (sess : Sess) (parts : List (List Nat)) (q : List Nat) :
    wireOf sess (parts ++ [q]) = wireOf sess parts ++ frameBytes ((sess.enc q).getD []) := by
  induction parts with
  | nil => simp [wireOf]
  | cons p parts ih => simp [wireOf, ih]

/-- Outcome of the `BufferData` arm in a cooperative run: the bytes are
accepted into the accumulator (and the frame is staged when it fills),
preserving the writer invariant; the sink is untouched. -/
theorem coop_buffer_arm (f : Nat) (sess : Sess) (rs : ReadState) (bufs : Bufs)
    (dc ec : List (List Nat)) (parts : List (List Nat)) (pend src : List Nat)
    (s : WSnk) (off : Nat)
    (hS : SessOK sess) (hsrc : src ≠ [])
    (hoff : off < MAX_WRITE_BUF_LEN) (hwl : bufs.wplain.length = MAX_WRITE_BUF_LEN)
    (hwc : bufs.wcipher.length = 2 * MAX_WRITE_BUF_LEN)
    (hpend : pend = bufs.wplain.take off) (hpl : pend.length = off)
    (hse : s.evs = []) (hsd : s.dflt = .ready 70000) (hsunk : s.sunk = wireOf sess parts)
    (hparts : ∀ p ∈ parts, p ≠ [] ∧ p.length ≤ MAX_WRITE_BUF_LEN) :
    ∃ n a', pollWriteF sess (f + 1) ⟨rs, .bufferData off, bufs, dc, ec⟩ s src =
        (.accepted n, a', s) ∧ 1 ≤ n ∧ n ≤ src.length ∧
      WInv sess a' s parts (pend ++ src.take n) ∧
      n = min (MAX_WRITE_BUF_LEN - off) src.length := by
  have hM : MAX_WRITE_BUF_LEN = 16384 := rfl
  have hsrcpos : 1 ≤ src.length := List.length_pos.mpr hsrc
  have hn1 : 1 ≤ min (MAX_WRITE_BUF_LEN - off) src.length := by
    rw [hM] at hoff ⊢
    omega
  have hnsrc : min (MAX_WRITE_BUF_LEN - off) src.length ≤ src.length := Nat.min_le_right _ _
  have htn : (src.take (min (MAX_WRITE_BUF_LEN - off) src.length)).length =
      min (MAX_WRITE_BUF_LEN - off) src.length := by
    simp [Nat.min_eq_left hnsrc]
  have hbound : off + min (MAX_WRITE_BUF_LEN - off) src.length ≤ MAX_WRITE_BUF_LEN := by
    rw [hM] at hoff ⊢
    omega
  have hW'len : (spliceAt bufs.wplain off
      (src.take (min (MAX_WRITE_BUF_LEN - off) src.length))).length = MAX_WRITE_BUF_LEN := by
    rw [spliceAt_length _ _ _ (by rw [htn, hwl]; exact hbound), hwl]
  have hW'take : (spliceAt bufs.wplain off
      (src.take (min (MAX_WRITE_BUF_LEN - off) src.length))).take
        (off + min (MAX_WRITE_BUF_LEN - off) src.length) =
      pend ++ src.take (min (MAX_WRITE_BUF_LEN - off) src.length) := by
    have := spliceAt_take bufs.wplain off
      (src.take (min (MAX_WRITE_BUF_LEN - off) src.length)) (by rw [hwl]; rw [hM] at hoff ⊢; omega)
    rw [htn] at this
    rw [this, hpend]
  have hplen : (pend ++ src.take (min (MAX_WRITE_BUF_LEN - off) src.length)).length =
      off + min (MAX_WRITE_BUF_LEN - off) src.length := by
    rw [List.length_append, hpl, htn]
  by_cases hfull : off + min (MAX_WRITE_BUF_LEN - off) src.length = MAX_WRITE_BUF_LEN
  · have hW'eq : spliceAt bufs.wplain off
        (src.take (min (MAX_WRITE_BUF_LEN - off) src.length)) =
        pend ++ src.take (min (MAX_WRITE_BUF_LEN - off) src.length) := by
      rw [spliceAt_full bufs.wplain off _ (by rw [htn, hwl]; exact hfull), ← hpend]
    obtain ⟨c, henc, hdecc, hcne, hclen⟩ :=
      hS (pend ++ src.take (min (MAX_WRITE_BUF_LEN - off) src.length)) (by rw [hplen, hfull])
    have henc' : sess.enc (spliceAt bufs.wplain off
        (src.take (min (MAX_WRITE_BUF_LEN - off) src.length))) = some c := by
      rw [hW'eq]
      exact henc
    refine ⟨min (MAX_WRITE_BUF_LEN - off) src.length, _,
      stepW_buffer_fill f hfull henc', hn1, hnsrc, ?_, rfl⟩
    refine ⟨hse, hsd, hsunk, hparts, by simpa using hW'len, ?_, ?_⟩
    · have hc2 : c.length ≤ 2 * MAX_WRITE_BUF_LEN := by
        rw [hplen, hfull] at hclen
        rw [hM] at hclen ⊢
        omega
      have hsp := spliceAt_length bufs.wcipher 0 c (by rw [hwc]; omega)
      rw [hwc] at hsp
      simpa using hsp
    · refine Or.inr (Or.inr ⟨c, rfl, ?_, by rw [hplen, hfull], ?_⟩)
      · rw [hW'eq] at henc'
        exact henc'
      · simpa using spliceAt_zero_take bufs.wcipher c
  · refine ⟨min (MAX_WRITE_BUF_LEN - off) src.length, _,
      stepW_buffer_part f hfull, hn1, hnsrc, ?_, rfl⟩
    refine ⟨hse, hsd, hsunk, hparts, by simpa using hW'len, by simpa using hwc, ?_⟩
    refine Or.inr (Or.inl ⟨off + min (MAX_WRITE_BUF_LEN - off) src.length, rfl,
      by omega, by rw [hM] at hbound hfull ⊢; omega, ?_, hplen⟩)
    show pend ++ src.take (min (MAX_WRITE_BUF_LEN - off) src.length) =
      (spliceAt bufs.wplain off (src.take (min (MAX_WRITE_BUF_LEN - off) src.length))).take
        (off + min (MAX_WRITE_BUF_LEN - off) src.length)
    rw [hW'take]

/-- A cooperative `poll_write` call under the writer invariant: the call
accepts at least one source byte, leaves the sink's frames and the pending
bytes accounting for exactly the accepted prefix, and preserves the
invariant. -/
theorem coop_write_inv (sess : Sess) (hS : SessOK sess) (a : NoiseOutput) (s : WSnk)
    (parts : List (List Nat)) (pend src : List Nat)
    (hI : WInv sess a s parts pend) (hsrc : src ≠ []) :
    ∃ n a' s' parts' pend', pollWrite sess a s src = (.accepted n, a', s') ∧
      1 ≤ n ∧ n ≤ src.length ∧ WInv sess a' s' parts' pend' ∧
      parts'.flatten ++ pend' = parts.flatten ++ pend ++ src.take n := by
  obtain ⟨hse, hsd, hsunk, hparts, hwl, hwc, hstate⟩ := hI
  rcases a with ⟨rs, ws, bufs, dc, ec⟩
  rcases s with ⟨sunkS, evsS, dfltS, flS, clS⟩
  dsimp only at hse hsd hsunk hwl hwc hstate
  subst hse hsd hsunk
  rcases hstate with ⟨hws, hpend0⟩ | ⟨off, hws, hoff1, hoff, hpend, hpl⟩ |
    ⟨c, hws, henc, hpl, hwct⟩
  · subst hws hpend0
    obtain ⟨n, a', harm, hn1, hns, hI', hnmin⟩ :=
      coop_buffer_arm 0 sess rs bufs dc ec parts [] src
        ⟨wireOf sess parts, [], .ready 70000, flS, clS⟩ 0 hS hsrc (by decide) hwl hwc
        (by simp) rfl rfl rfl rfl hparts
    have h2 : pollWriteF sess 2 ⟨rs, .init, bufs, dc, ec⟩
        ⟨wireOf sess parts, [], .ready 70000, flS, clS⟩ src =
        (.accepted n, a', ⟨wireOf sess parts, [], .ready 70000, flS, clS⟩) := by
      rw [show (2 : Nat) = 1 + 1 from rfl, stepW_init 1]
      exact harm
    have hlift : pollWrite sess ⟨rs, .init, bufs, dc, ec⟩
        ⟨wireOf sess parts, [], .ready 70000, flS, clS⟩ src =
        pollWriteF sess 2 ⟨rs, .init, bufs, dc, ec⟩
          ⟨wireOf sess parts, [], .ready 70000, flS, clS⟩ src :=
      pollWrite_lift _ _ _ _ 2 (by rw [h2]; simp) (by dsimp only; decide)
    exact ⟨n, a', _, parts, [] ++ src.take n, by rw [hlift, h2], hn1, hns, hI', by simp⟩
  · subst hws hpend
    obtain ⟨n, a', harm, hn1, hns, hI', hnmin⟩ :=
      coop_buffer_arm 0 sess rs bufs dc ec parts (bufs.wplain.take off) src
        ⟨wireOf sess parts, [], .ready 70000, flS, clS⟩ off hS hsrc hoff hwl hwc
        rfl hpl rfl rfl rfl hparts
    have hslack : wSlack (.bufferData off) = 3 := rfl
    have hlift : pollWrite sess ⟨rs, .bufferData off, bufs, dc, ec⟩
        ⟨wireOf sess parts, [], .ready 70000, flS, clS⟩ src =
        pollWriteF sess 1 ⟨rs, .bufferData off, bufs, dc, ec⟩
          ⟨wireOf sess parts, [], .ready 70000, flS, clS⟩ src :=
      pollWrite_lift _ _ _ _ 1 (by rw [harm]; simp) (by dsimp only; omega)
    exact ⟨n, a', _, parts, bufs.wplain.take off ++ src.take n, by rw [hlift, harm],
      hn1, hns, hI', by simp⟩
  · subst hws
    obtain ⟨c', henc', hdecc, hcne, hclen⟩ := hS pend (le_of_eq hpl)
    rw [henc] at henc'
    obtain rfl : c = c' := Option.some.inj henc'
    have hM : MAX_WRITE_BUF_LEN = 16384 := rfl
    have hclen' : c.length ≤ 16400 := by
      rw [hpl, hM] at hclen
      omega
    have hc0 : c.length ≠ 0 := by
      simpa using hcne
    have hwfl := coop_write_frame_len (wireOf sess parts) flS clS
      (c.length / 256 % 256) (c.length % 256)
    have hbs : (bufs.wcipher.drop 0).take (c.length - 0) = c := by
      rw [List.drop_zero, Nat.sub_zero]
      exact hwct
    have hpoll : WSnk.poll ⟨wireOf sess parts ++ [c.length / 256 % 256, c.length % 256],
        [], .ready 70000, flS, clS⟩ ((bufs.wcipher.drop 0).take (c.length - 0)) =
        (.wrote c.length, ⟨wireOf sess parts ++ [c.length / 256 % 256, c.length % 256] ++ c,
          [], .ready 70000, flS, clS⟩) := by
      rw [hbs, coop_poll _ _ _ c (by omega)]
    have hsunk2 : wireOf sess parts ++ [c.length / 256 % 256, c.length % 256] ++ c =
        wireOf sess (parts ++ [pend]) := by
      rw [wireOf_append, henc]
      simp [frameBytes]
    have hparts2 : ∀ p ∈ parts ++ [pend], p ≠ [] ∧ p.length ≤ MAX_WRITE_BUF_LEN := by
      intro p hp
      rcases List.mem_append.mp hp with h | h
      · exact hparts p h
      · rcases List.mem_singleton.mp h with rfl
        refine ⟨?_, le_of_eq hpl⟩
        intro hcon
        rw [hcon] at hpl
        simp [hM] at hpl
    obtain ⟨n, a', harm, hn1, hns, hI', hnmin⟩ :=
      coop_buffer_arm 1 sess rs bufs dc ec (parts ++ [pend]) [] src
        ⟨wireOf sess (parts ++ [pend]), [], .ready 70000, flS, clS⟩ 0 hS hsrc (by decide)
        hwl hwc (by simp) rfl rfl rfl rfl hparts2
    have h5 : pollWriteF sess 5
        ⟨rs, .writeLen c.length (c.length / 256 % 256) (c.length % 256) 0, bufs, dc, ec⟩
        ⟨wireOf sess parts, [], .ready 70000, flS, clS⟩ src =
        (.accepted n, a', ⟨wireOf sess (parts ++ [pend]), [], .ready 70000, flS, clS⟩) := by
      rw [show (5 : Nat) = 4 + 1 from rfl, stepW_len_done 4 hwfl,
        show (4 : Nat) = 3 + 1 from rfl, stepW_data_done 3 hpoll hc0 (by omega),
        show (3 : Nat) = 2 + 1 from rfl, stepW_init 2, hsunk2]
      exact harm
    have hslack : wSlack (.writeLen c.length (c.length / 256 % 256) (c.length % 256) 0) =
        c.length + 4 := rfl
    have hlift : pollWrite sess
        ⟨rs, .writeLen c.length (c.length / 256 % 256) (c.length % 256) 0, bufs, dc, ec⟩
        ⟨wireOf sess parts, [], .ready 70000, flS, clS⟩ src =
        pollWriteF sess 5
          ⟨rs, .writeLen c.length (c.length / 256 % 256) (c.length % 256) 0, bufs, dc, ec⟩
          ⟨wireOf sess parts, [], .ready 70000, flS, clS⟩ src :=
      pollWrite_lift _ _ _ _ 5 (by rw [h5]; simp) (by dsimp only; rw [hslack]; omega)
    exact ⟨n, a', _, parts ++ [pend], [] ++ src.take n, by rw [hlift, h5], hn1, hns, hI',
      by simp⟩

/-- A cooperative `poll_flush` call under the writer invariant: it returns
`Ready(Ok(()))`, pushes any pending bytes onto the wire as one frame, and
re-establishes the invariant with nothing pending. -/
theorem coop_flush_inv (sess : Sess) (hS : SessOK sess) (a : NoiseOutput) (s : WSnk)
    (parts : List (List Nat)) (pend : List Nat) (hI : WInv sess a s parts pend) :
    ∃ a' s' parts', pollFlush sess a s = (.flushOk, a', s') ∧ WInv sess a' s' parts' [] ∧
      parts'.flatten = parts.flatten ++ pend := by
  obtain ⟨hse, hsd, hsunk, hparts, hwl, hwc, hstate⟩ := hI
  rcases a with ⟨rs, ws, bufs, dc, ec⟩
  rcases s with ⟨sunkS, evsS, dfltS, flS, clS⟩
  dsimp only at hse hsd hsunk hwl hwc hstate
  subst hse hsd hsunk
  have hM : MAX_WRITE_BUF_LEN = 16384 := rfl
  have hM2 : 2 * MAX_WRITE_BUF_LEN = 32768 := rfl
  rcases hstate with ⟨hws, hpend0⟩ | ⟨off, hws, hoff1, hoff, hpend, hpl⟩ |
    ⟨c, hws, henc, hpl, hwct⟩
  · subst hws hpend0
    have h1 : pollFlushF sess 1 ⟨rs, .init, bufs, dc, ec⟩
        ⟨wireOf sess parts, [], .ready 70000, flS, clS⟩ =
        (.flushOk, ⟨rs, .init, bufs, dc, ec⟩,
          ⟨wireOf sess parts, [], .ready 70000, flS, clS⟩) := stepF_init 0
    have hlift : pollFlush sess ⟨rs, .init, bufs, dc, ec⟩
        ⟨wireOf sess parts, [], .ready 70000, flS, clS⟩ =
        pollFlushF sess 1 ⟨rs, .init, bufs, dc, ec⟩
          ⟨wireOf sess parts, [], .ready 70000, flS, clS⟩ :=
      pollFlush_lift _ _ _ 1 (by rw [h1]; simp)
        (by dsimp only; have h : fSlack sess bufs .init = 3 := rfl; omega)
    exact ⟨_, _, parts, by rw [hlift, h1], ⟨rfl, rfl, rfl, hparts, hwl, hwc,
      Or.inl ⟨rfl, rfl⟩⟩, by simp⟩
  · subst hws hpend
    obtain ⟨c, henc, hdecc, hcne, hclen⟩ :=
      hS (bufs.wplain.take off) (by rw [hpl]; exact le_of_lt hoff)
    have hc0 : c.length ≠ 0 := by
      simpa using hcne
    have hclen' : c.length ≤ 16400 := by
      rw [hpl] at hclen
      rw [hM] at hoff
      omega
    have hwfl := coop_write_frame_len (wireOf sess parts) flS clS
      (c.length / 256 % 256) (c.length % 256)
    have hbs : ((spliceAt bufs.wcipher 0 c).drop 0).take (c.length - 0) = c := by
      rw [List.drop_zero, Nat.sub_zero]
      exact spliceAt_zero_take bufs.wcipher c
    have hpoll : WSnk.poll ⟨wireOf sess parts ++ [c.length / 256 % 256, c.length % 256],
        [], .ready 70000, flS, clS⟩ (((spliceAt bufs.wcipher 0 c).drop 0).take (c.length - 0)) =
        (.wrote c.length, ⟨wireOf sess parts ++ [c.length / 256 % 256, c.length % 256] ++ c,
          [], .ready 70000, flS, clS⟩) := by
      rw [hbs, coop_poll _ _ _ c (by omega)]
    have h3 : pollFlushF sess 3 ⟨rs, .bufferData off, bufs, dc, ec⟩
        ⟨wireOf sess parts, [], .ready 70000, flS, clS⟩ =
        (.flushOk, ⟨rs, .init, { bufs with wcipher := spliceAt bufs.wcipher 0 c },
          dc, ec ++ [bufs.wplain.take off]⟩,
          ⟨wireOf sess parts ++ [c.length / 256 % 256, c.length % 256] ++ c,
            [], .ready 70000, flS, clS⟩) := by
      rw [show (3 : Nat) = 2 + 1 from rfl, stepF_buffer_ok 2 henc,
        show (2 : Nat) = 1 + 1 from rfl, stepF_len_done 1 hwfl,
        show (1 : Nat) = 0 + 1 from rfl, stepF_data_done 0 hpoll hc0 (by omega)]
    have hlift : pollFlush sess ⟨rs, .bufferData off, bufs, dc, ec⟩
        ⟨wireOf sess parts, [], .ready 70000, flS, clS⟩ =
        pollFlushF sess 3 ⟨rs, .bufferData off, bufs, dc, ec⟩
          ⟨wireOf sess parts, [], .ready 70000, flS, clS⟩ :=
      pollFlush_lift _ _ _ 3 (by rw [h3]; simp) (by dsimp only; omega)
    have hsunk2 : wireOf sess parts ++ [c.length / 256 % 256, c.length % 256] ++ c =
        wireOf sess (parts ++ [bufs.wplain.take off]) := by
      rw [wireOf_append, henc]
      simp [frameBytes]
    have hwc' : (spliceAt bufs.wcipher 0 c).length = 2 * MAX_WRITE_BUF_LEN :=
      (spliceAt_length bufs.wcipher 0 c (by rw [hwc, hM2]; omega)).trans hwc
    have hparts2 : ∀ p ∈ parts ++ [bufs.wplain.take off],
        p ≠ [] ∧ p.length ≤ MAX_WRITE_BUF_LEN := by
      intro p hp
      rcases List.mem_append.mp hp with h | h
      · exact hparts p h
      · rcases List.mem_singleton.mp h with rfl
        refine ⟨?_, by rw [hpl]; exact le_of_lt hoff⟩
        intro hcon
        rw [hcon] at hpl
        simp at hpl
        omega
    exact ⟨_, _, parts ++ [bufs.wplain.take off], by rw [hlift, h3],
      ⟨rfl, rfl, hsunk2, hparts2, hwl, hwc', Or.inl ⟨rfl, rfl⟩⟩, by simp⟩
  · subst hws
    obtain ⟨c', henc', hdecc, hcne, hclen⟩ := hS pend (le_of_eq hpl)
    rw [henc] at henc'
    obtain rfl : c = c' := Option.some.inj henc'
    have hc0 : c.length ≠ 0 := by
      simpa using hcne
    have hclen' : c.length ≤ 16400 := by
      rw [hpl, hM] at hclen
      omega
    have hdrain := coop_flush_drain sess rs bufs dc ec (wireOf sess parts) flS clS
      c.length (c.length / 256 % 256) (c.length % 256) hc0 (by rw [hwc, hM2]; omega)
      (by omega)
    rw [hwct] at hdrain
    have hsunk2 : wireOf sess parts ++ [c.length / 256 % 256, c.length % 256] ++ c =
        wireOf sess (parts ++ [pend]) := by
      rw [wireOf_append, henc]
      simp [frameBytes]
    have hparts2 : ∀ p ∈ parts ++ [pend], p ≠ [] ∧ p.length ≤ MAX_WRITE_BUF_LEN := by
      intro p hp
      rcases List.mem_append.mp hp with h | h
      · exact hparts p h
      · rcases List.mem_singleton.mp h with rfl
        refine ⟨?_, le_of_eq hpl⟩
        intro hcon
        rw [hcon] at hpl
        simp [hM] at hpl
    exact ⟨_, _, parts ++ [pend], hdrain,
      ⟨rfl, rfl, hsunk2, hparts2, hwl, hwc, Or.inl ⟨rfl, rfl⟩⟩, by simp⟩

/-- Driving one chunk fully into the adapter succeeds under the writer
invariant, with the chunk appended to the pending accounting. -/
theorem coop_writeChunk (sess : Sess) (hS : SessOK sess) :
    ∀ (k : Nat) (src : List Nat) (a : NoiseOutput) (s : WSnk) (parts : List (List Nat))
      (pend : List Nat), src.length < k → WInv sess a s parts pend →
    ∃ a' s' parts' pend', writeChunk sess k a s src = some (a', s') ∧
      WInv sess a' s' parts' pend' ∧
      parts'.flatten ++ pend' = parts.flatten ++ pend ++ src := by
  intro k
  induction k with
  | zero =>
    intro src a s parts pend hk
    omega
  | succ k ih =>
    intro src a s parts pend hk hI
    rcases src with _ | ⟨b, bs⟩
    · exact ⟨a, s, parts, pend, rfl, hI, by simp⟩
    · obtain ⟨n, a1, s1, parts1, pend1, hpw, hn1, hns, hI1, hj1⟩ :=
        coop_write_inv sess hS a s parts pend (b :: bs) hI (by simp)
      have hrec : writeChunk sess (k + 1) a s (b :: bs) =
          writeChunk sess k a1 s1 ((b :: bs).drop n) := by
        show (match pollWrite sess a s (b :: bs) with
          | (.accepted m, a', s') =>
            if m = 0 then none else writeChunk sess k a' s' ((b :: bs).drop m)
          | _ => none) = _
        rw [hpw]
        simp only [if_neg (by omega : ¬ n = 0)]
      obtain ⟨a2, s2, parts2, pend2, hwc2, hI2, hj2⟩ :=
        ih ((b :: bs).drop n) a1 s1 parts1 pend1 (by simp at hns hk ⊢; omega) hI1
      refine ⟨a2, s2, parts2, pend2, by rw [hrec]; exact hwc2, hI2, ?_⟩
      rw [hj2, hj1, List.append_assoc, List.append_assoc, List.append_assoc,
        List.take_append_drop]

/-- `runOps` distributes over schedule concatenation. -/
theorem runOps_append (sess : Sess) (ops1 ops2 : List WOp) :
    ∀ (a : NoiseOutput) (s : WSnk), runOps sess (ops1 ++ ops2) a s =
      (runOps sess ops1 a s).bind fun p => runOps sess ops2 p.1 p.2 := by
  induction ops1 with
  | nil =>
    intro a s
    simp [runOps]
  | cons op ops1 ih =>
    intro a s
    rcases op with bs | _
    · simp only [List.cons_append, runOps, Option.bind_assoc]
      rcases writeChunk sess (bs.length + 1) a s bs with _ | p
      · simp
      · simp [ih]
    · simp only [List.cons_append, runOps]
      rcases hpf : pollFlush sess a s with ⟨r, a', s'⟩
      rcases r with _ | e | _ | _ <;> simp [ih]

/-- Running a schedule of nonempty chunk writes and flushes under the
writer invariant succeeds, and the frames-plus-pending accounting grows by
exactly the concatenation of the chunks. -/
theorem coop_runOps (sess : Sess) (hS : SessOK sess) :
    ∀ (ops : List WOp) (a : NoiseOutput) (s : WSnk) (parts : List (List Nat))
      (pend : List Nat), WInv sess a s parts pend →
      (∀ bs ∈ chunksOf ops, bs ≠ []) →
    ∃ a' s' parts' pend', runOps sess ops a s = some (a', s') ∧
      WInv sess a' s' parts' pend' ∧
      parts'.flatten ++ pend' = parts.flatten ++ pend ++ (chunksOf ops).flatten := by
  intro ops
  induction ops with
  | nil =>
    intro a s parts pend hI _
    exact ⟨a, s, parts, pend, rfl, hI, by simp [chunksOf]⟩
  | cons op ops ih =>
    intro a s parts pend hI hne
    rcases op with bs | _
    · have hbs : bs ≠ [] := hne bs (by simp [chunksOf])
      obtain ⟨a1, s1, parts1, pend1, hwc, hI1, hj1⟩ :=
        coop_writeChunk sess hS (bs.length + 1) bs a s parts pend (by omega) hI
      obtain ⟨a2, s2, parts2, pend2, hro, hI2, hj2⟩ :=
        ih a1 s1 parts1 pend1 hI1 (fun q hq => hne q (by simp [chunksOf, hq]))
      refine ⟨a2, s2, parts2, pend2, ?_, hI2, ?_⟩
      · show (writeChunk sess (bs.length + 1) a s bs).bind
          (fun p => runOps sess ops p.1 p.2) = _
        rw [hwc]
        exact hro
      · rw [hj2, hj1]
        simp [chunksOf]
    · obtain ⟨a1, s1, parts1, hfl, hI1, hj1⟩ := coop_flush_inv sess hS a s parts pend hI
      obtain ⟨a2, s2, parts2, pend2, hro, hI2, hj2⟩ :=
        ih a1 s1 parts1 [] hI1 (fun q hq => hne q (by simp [chunksOf, hq]))
      refine ⟨a2, s2, parts2, pend2, ?_, hI2, ?_⟩
      · show (match pollFlush sess a s with
          | (.flushOk, a', s') => runOps sess ops a' s'
          | _ => none) = _
        rw [hfl]
        exact hro
      · rw [hj2]
        simp [chunksOf]
        rw [hj1]
        simp

/-- One-step unfolding of the reading driver. -/
theorem readAll_succ (sess : Sess) (f : Nat) (a : NoiseOutput) (u : RSrc) :
    readAll sess (f + 1) a u =
      match pollRead sess a u MAX_NOISE_PKG_LEN with
      | (.bytes [], _, _) => some []
      | (.bytes bs, a', u') => (readAll sess f a' u').map (fun t => bs ++ t)
      | _ => none := rfl

/-- Reading back a cooperative wire image of well-formed frames delivers
exactly the concatenated plaintexts followed by a clean EOF. -/
theorem coop_read_all (sess : Sess) :
    ∀ (parts : List (List Nat)) (rs0 : ReadState) (ws : WriteState) (bufs : Bufs)
      (dc ec : List (List Nat)),
      rs0 = .init ∨ rs0 = .readLen 0 0 0 →
      (∀ p ∈ parts, p ≠ [] ∧ p.length ≤ MAX_WRITE_BUF_LEN) →
      (∀ p ∈ parts, ∃ c, sess.enc p = some c ∧ sess.dec c = some p ∧ c ≠ [] ∧
        c.length ≤ p.length + 16) →
      readAll sess (parts.length + 1) ⟨rs0, ws, bufs, dc, ec⟩
        (coopSrc (wireOf sess parts)) = some parts.flatten := by
  intro parts
  induction parts with
  | nil =>
    intro rs0 ws bufs dc ec hrs _ _
    simp only [List.length_nil]
    rw [readAll_succ sess 0]
    simp only [wireOf]
    rcases hrs with rfl | rfl
    · rw [coop_read_eof_init sess ws bufs dc ec MAX_NOISE_PKG_LEN]
      rfl
    · rw [coop_read_eof sess ws bufs dc ec MAX_NOISE_PKG_LEN]
      rfl
  | cons p parts ih =>
    intro rs0 ws bufs dc ec hrs hparts hsp
    obtain ⟨c, henc, hdec, hcne, hclen⟩ := hsp p (List.mem_cons_self p parts)
    obtain ⟨hpne, hple⟩ := hparts p (List.mem_cons_self p parts)
    have hM : MAX_WRITE_BUF_LEN = 16384 := rfl
    have hN : MAX_NOISE_PKG_LEN = 65535 := rfl
    have hple' : p.length ≤ 16384 := by
      rw [hM] at hple
      exact hple
    have hclen' : c.length ≤ 16400 := by
      omega
    have hc0 : c.length ≠ 0 := by
      simpa using hcne
    have hbe : 256 * (c.length / 256 % 256) + c.length % 256 = c.length := by
      omega
    have hwire : wireOf sess (p :: parts) =
        (c.length / 256 % 256) :: c.length % 256 :: (c ++ wireOf sess parts) := by
      simp only [wireOf]
      rw [henc]
      simp [frameBytes]
    have hn : 256 * (c.length / 256 % 256) + c.length % 256 ≠ 0 := by
      rw [hbe]
      exact hc0
    have h65 : 256 * (c.length / 256 % 256) + c.length % 256 ≤ 65535 := by
      omega
    have hnr : 256 * (c.length / 256 % 256) + c.length % 256 ≤
        (c ++ wireOf sess parts).length := by
      rw [hbe]
      simp
    have hdec' : sess.dec ((c ++ wireOf sess parts).take
        (256 * (c.length / 256 % 256) + c.length % 256)) = some p := by
      rw [hbe, List.take_left]
      exact hdec
    have hcap : p.length ≤ MAX_NOISE_PKG_LEN := by
      rw [hN]
      omega
    have hdrop : (c ++ wireOf sess parts).drop
        (256 * (c.length / 256 % 256) + c.length % 256) = wireOf sess parts := by
      rw [hbe]
      exact List.drop_left c _
    have hih := ih (.readLen 0 0 0) ws
    simp only [List.length_cons]
    rw [readAll_succ sess (parts.length + 1), hwire]
    rcases p with _ | ⟨pb, pt⟩
    · exact absurd rfl hpne
    · rcases hrs with rfl | rfl
      · rw [coop_read_frame_init sess ws bufs dc ec MAX_NOISE_PKG_LEN _ _ _ _
            hn h65 hnr hdec' hcap, hdrop]
        dsimp only
        rw [hih _ _ _ (Or.inr rfl) (fun q hq => hparts q (List.mem_cons_of_mem _ hq))
          (fun q hq => hsp q (List.mem_cons_of_mem _ hq))]
        simp
      · rw [coop_read_frame sess ws bufs dc ec MAX_NOISE_PKG_LEN _ _ _ _
            hn h65 hnr hdec' hcap, hdrop]
        dsimp only
        rw [hih _ _ _ (Or.inr rfl) (fun q hq => hparts q (List.mem_cons_of_mem _ hq))
          (fun q hq => hsp q (List.mem_cons_of_mem _ hq))]
        simp

/-- `chunksOf` distributes over schedule concatenation. -/
theorem chunksOf_append (ops1 ops2 : List WOp) :
    chunksOf (ops1 ++ ops2) = chunksOf ops1 ++ chunksOf ops2 := by
  induction ops1 with
  | nil => simp [chunksOf]
  | cons op ops1 ih =>
    rcases op with bs | _ <;> simp [chunksOf, ih]

/-- The freshly initialised adapter over a fresh cooperative sink satisfies
the writer invariant with no frames and nothing pending. -/
theorem WInv_init (sess : Sess) : WInv sess initOutput coopSnk [] [] :=
  ⟨rfl, rfl, rfl, by simp, by simp [initOutput], by simp [initOutput], Or.inl ⟨rfl, rfl⟩⟩

/-- Polling the underlying sink never touches the ghost flush counter. -/
theorem WSnk_poll_flushed (s : WSnk) (bs : List Nat) : ((s.poll bs).2).flushed = s.flushed := by
  unfold WSnk.poll
  rcases s with ⟨sunk, evs, dflt, fl, cl⟩
  cases evs with
  | nil => cases dflt <;> rfl
  | cons e rest => cases e <;> rfl

/-- Polling the underlying sink never touches the ghost close counter. -/
theorem WSnk_poll_closed (s : WSnk) (bs : List Nat) : ((s.poll bs).2).closed = s.closed := by
  unfold WSnk.poll
  rcases s with ⟨sunk, evs, dflt, fl, cl⟩
  cases evs with
  | nil => cases dflt <;> rfl
  | cons e rest => cases e <;> rfl

/-- The length-writing loop never touches the ghost flush counter. -/
theorem writeFrameLenF_flushed :
    ∀ f s b0 b1 off, ((writeFrameLenF f s b0 b1 off).2.2).flushed = s.flushed := by
  intro f
  induction f with
  | zero => intro s b0 b1 off; rfl
  | succ f ih =>
    intro s b0 b1 off
    have hpf := WSnk_poll_flushed s (([b0, b1].drop off).take (2 - off))
    unfold writeFrameLenF
    split <;> rename_i heq <;> rw [heq] at hpf
    · exact hpf
    · exact hpf
    · split
      · exact hpf
      · split
        · exact hpf
        · rw [ih]; exact hpf

/-- The flush loop of the adapter never invokes the underlying stream's
flush: the ghost counter is invariant for every fuel, state and script. -/
theorem pollFlushF_flushed :
    ∀ f sess a s, ((pollFlushF sess f a s).2.2).flushed = s.flushed := by
  intro f
  induction f with
  | zero => intro sess a s; rfl
  | succ f ih =>
    intro sess a s
    unfold pollFlushF
    split
    · rfl
    · rename_i off hws
      split
      · rw [ih]
      · rfl
    · rename_i len b0 b1 off hws
      have hwf : ((write_frame_len s b0 b1 off).2.2).flushed = s.flushed :=
        writeFrameLenF_flushed _ s b0 b1 off
      split <;> rename_i heq <;> rw [heq] at hwf
      · rw [ih]; exact hwf
      · exact hwf
      · exact hwf
      · exact hwf
      · exact hwf
    · rename_i len off hws
      have hpf := WSnk_poll_flushed s ((a.bufs.wcipher.drop off).take (len - off))
      split <;> rename_i heq <;> rw [heq] at hpf
      · exact hpf
      · exact hpf
      · split
        · exact hpf
        · split
          · exact hpf
          · rw [ih]; exact hpf
    · rfl
    · rfl

/-- C10: the adapter's `poll_flush` never forwards a flush to the
underlying transport — it only encrypts staged plaintext and drives the
frame through the underlying `poll_write`, returning `Ready(Ok(()))` as
soon as the staged frame's last bytes are handed to the underlying
`poll_write` (at which point the writer returns to `Init`); and
`poll_close` does not flush either, it forwards only a close. -/
theorem c10_flush_not_forwarded :
    (∀ sess a s, ((pollFlush sess a s).2.2).flushed = s.flushed) ∧
    (∀ a s, ((pollClose a s).2.2).flushed = s.flushed ∧
      ((pollClose a s).2.2).closed = s.closed + 1 ∧ (pollClose a s).2.1 = a) ∧
    (∀ sess rs bufs dc ec s len off n s',
      s.poll ((bufs.wcipher.drop off).take (len - off)) = (.wrote n, s') →
      n ≠ 0 → len = off + n →
      pollFlush sess ⟨rs, .writeData len off, bufs, dc, ec⟩ s =
        (.flushOk, ⟨rs, .init, bufs, dc, ec⟩, s')) := by
  refine ⟨fun sess a s => pollFlushF_flushed _ sess a s, fun a s => ⟨rfl, rfl, rfl⟩, ?_⟩
  intro sess rs bufs dc ec s len off n s' hp hn hlen
  simp only [pollFlush, pollFlushF]
  rw [hp]
  simp [hn, hlen]

/-- C2 counterexample: the wire holds a frame with one-byte ciphertext
decrypting to zero plaintext bytes, followed by a complete nonempty frame.
The read call consuming the zero-plaintext frame returns `Ready(Ok(0))`
(zero bytes — the EOF signal) to the caller instead of pulling the next
frame within the same call: the next frame's bytes are still unread and
the reader is left in `ReadLen`. -/
theorem c2_counterexample :
    (pollRead c2sess initOutput (coopSrc [0, 1, 1, 0, 2, 0, 7]) 8).1 = .bytes [] ∧
    ((pollRead c2sess initOutput (coopSrc [0, 1, 1, 0, 2, 0, 7]) 8).2.1).rs = .readLen 0 0 0 ∧
    ((pollRead c2sess initOutput (coopSrc [0, 1, 1, 0, 2, 0, 7]) 8).2.2).data = [0, 2, 0, 7] :=
  ⟨rfl, rfl, rfl⟩

/-- C2 amended: a frame whose ciphertext length prefix is zero is indeed
absorbed transparently within the same call (the loop re-enters `Init` and
continues); but a frame whose nonzero ciphertext decrypts to an empty
plaintext makes the read call return `Ready(Ok(0))` — zero bytes delivered
to the caller — while leaving the reader in a fresh (non-terminal)
`ReadLen`, so only a subsequent call pulls the next frame. -/
theorem c2_amended :
    (∀ sess ws bufs dc ec (rest : List Nat) cap f,
      pollReadF sess (f + 2) ⟨.readLen 0 0 0, ws, bufs, dc, ec⟩
          (coopSrc (0 :: 0 :: rest)) cap =
        pollReadF sess f ⟨.readLen 0 0 0, ws, bufs, dc, ec⟩ (coopSrc rest) cap) ∧
    (∀ sess ws (bufs : Bufs) dc ec u u' cap len off bs,
      u.poll (len - off) = (.gotBytes bs, u') → bs ≠ [] → len = off + bs.length →
      sess.dec ((spliceAt bufs.readC off bs).take len) = some [] →
      (pollRead sess ⟨.readData len off, ws, bufs, dc, ec⟩ u cap).1 = .bytes [] ∧
      ((pollRead sess ⟨.readData len off, ws, bufs, dc, ec⟩ u cap).2.1).rs = .readLen 0 0 0 ∧
      (pollRead sess ⟨.readData len off, ws, bufs, dc, ec⟩ u cap).2.2 = u') := by
  constructor
  · intro sess ws bufs dc ec rest cap f
    have hrfl : read_frame_len (coopSrc (0 :: 0 :: rest)) 0 0 0 =
        (.got 0, 0, 0, 2, coopSrc rest) := by
      simp [read_frame_len, readFrameLenF, RSrc.poll, coopSrc, fill2]
    rw [stepR_len_zero (f + 1) hrfl, stepR_init f]
  · intro sess ws bufs dc ec u u' cap len off bs hpoll hbs hlen hdec
    have e1 : pollRead sess ⟨.readData len off, ws, bufs, dc, ec⟩ u cap =
        pollReadF sess ((2 * (u.evs.length + u.data.length) + 3) + 1)
          ⟨.readData len off, ws, bufs, dc, ec⟩ u cap := rfl
    rw [e1, stepR_data_done (2 * (u.evs.length + u.data.length) + 3) hpoll hbs hlen hdec]
    rw [show 2 * (u.evs.length + u.data.length) + 3 =
      (2 * (u.evs.length + u.data.length) + 2) + 1 from rfl]
    rw [stepR_copy (2 * (u.evs.length + u.data.length) + 2)]
    simp

/-- C3 counterexample: the reader is mid-length (`ReadLen` with `off = 1`)
and the underlying stream answers a one-byte-capacity read with zero bytes
(EOF).  The read returns `Ready(Ok(0))` and the state becomes `Eof(clean)`
— not `Err(UnexpectedEof)` / `Eof(unexpected)` as the claim requires. -/
theorem c3_counterexample :
    pollRead noSess ⟨.readLen 0 0 1, .init, initOutput.bufs, [], []⟩
        ⟨[], [.ready 1], .pend⟩ 8 =
      (.bytes [], ⟨.eofR true, .init, initOutput.bufs, [], []⟩, ⟨[], [], .pend⟩) ∧
    ((pollRead noSess ⟨.readLen 0 0 1, .init, initOutput.bufs, [], []⟩
        ⟨[], [.ready 1], .pend⟩ 8).2.1).rs ≠ .eofR false :=
  ⟨rfl, by decide⟩

/-- C3 amended: a zero-byte read from the underlying stream while reading
the two-byte length prefix is treated as clean EOF at every offset (0 or
1): `read_frame_len` reports EOF without distinguishing the offset, and
the read returns `Ready(Ok(0))` with the state set to `Eof(clean)`. -/
theorem c3_amended (sess : Sess) (ws : WriteState) (bufs : Bufs)
    (dc ec : List (List Nat)) (u : RSrc) (cap b0 b1 off b0' b1' off' : Nat) (u' : RSrc)
    (h : read_frame_len u b0 b1 off = (.eofLen, b0', b1', off', u')) :
    pollRead sess ⟨.readLen b0 b1 off, ws, bufs, dc, ec⟩ u cap =
      (.bytes [], ⟨.eofR true, ws, bufs, dc, ec⟩, u') := by
  simp only [pollRead, pollReadF]
  rw [h]

/-- C3 amended, witness at offset 0: a zero-byte read before any length
byte is also clean EOF (this half of the original claim does hold). -/
theorem c3_amended_off0 :
    read_frame_len ⟨[], [.ready 1], .pend⟩ 0 0 0 = (.eofLen, 0, 0, 0, ⟨[], [], .pend⟩) ∧
    pollRead noSess ⟨.readLen 0 0 0, .init, initOutput.bufs, [], []⟩
        ⟨[], [.ready 1], .pend⟩ 8 =
      (.bytes [], ⟨.eofR true, .init, initOutput.bufs, [], []⟩, ⟨[], [], .pend⟩) :=
  ⟨rfl, c3_amended noSess .init initOutput.bufs [] [] ⟨[], [.ready 1], .pend⟩ 8
    0 0 0 0 0 0 ⟨[], [], .pend⟩ rfl⟩

/-- C4 counterexample: entering `ReadLen{[0,0], off=0}`, the underlying
stream delivers one byte (the value 9) and then fails with I/O error 7
within the same call.  The error is surfaced, but the persisted state is
the entry state `ReadLen{[0,0], 0}` — the byte already consumed from the
stream (its `data` shrank to `[1]`) is not recorded in `(buf, off)`, so a
retry does NOT resume from the position at the moment of the error. -/
theorem c4_counterexample :
    pollRead noSess ⟨.readLen 0 0 0, .init, initOutput.bufs, [], []⟩
        ⟨[9, 1], [.ready 1, .ioErr 7], .pend⟩ 8 =
      (.rErr (.io 7), ⟨.readLen 0 0 0, .init, initOutput.bufs, [], []⟩, ⟨[1], [], .pend⟩) ∧
    ((pollRead noSess ⟨.readLen 0 0 0, .init, initOutput.bufs, [], []⟩
        ⟨[9, 1], [.ready 1, .ioErr 7], .pend⟩ 8).2.1).rs ≠ .readLen 9 0 1 :=
  ⟨rfl, by decide⟩

/-- C4 amended: an underlying I/O error is surfaced unchanged and causes
no terminal transition, and the persisted state is exactly the state at
entry to the call: for `ReadData`/`WriteData` (whose offsets live in the
state) this preserves all partial progress, but for an in-flight length
read or length write the `(buf, off)` copies updated within the erroring
call are discarded (the source only writes them back on `Pending`). -/
theorem c4_amended :
    (∀ sess ws bufs dc ec u cap b0 b1 off b0' b1' off' u' c,
      read_frame_len u b0 b1 off = (.lenErr c, b0', b1', off', u') →
      pollRead sess ⟨.readLen b0 b1 off, ws, bufs, dc, ec⟩ u cap =
        (.rErr (.io c), ⟨.readLen b0 b1 off, ws, bufs, dc, ec⟩, u')) ∧
    (∀ sess ws (bufs : Bufs) dc ec u cap len off u' c,
      u.poll (len - off) = (.uerr c, u') →
      pollRead sess ⟨.readData len off, ws, bufs, dc, ec⟩ u cap =
        (.rErr (.io c), ⟨.readData len off, ws, bufs, dc, ec⟩, u')) ∧
    (∀ sess rs bufs dc ec s src len b0 b1 off off' s' c,
      write_frame_len s b0 b1 off = (.wlErr c, off', s') →
      pollWrite sess ⟨rs, .writeLen len b0 b1 off, bufs, dc, ec⟩ s src =
        (.wErr (.io c), ⟨rs, .writeLen len b0 b1 off, bufs, dc, ec⟩, s')) ∧
    (∀ sess rs (bufs : Bufs) dc ec s src len off s' c,
      s.poll ((bufs.wcipher.drop off).take (len - off)) = (.uerr c, s') →
      pollWrite sess ⟨rs, .writeData len off, bufs, dc, ec⟩ s src =
        (.wErr (.io c), ⟨rs, .writeData len off, bufs, dc, ec⟩, s')) ∧
    (∀ sess rs bufs dc ec s len b0 b1 off off' s' c,
      write_frame_len s b0 b1 off = (.wlErr c, off', s') →
      pollFlush sess ⟨rs, .writeLen len b0 b1 off, bufs, dc, ec⟩ s =
        (.fErr (.io c), ⟨rs, .writeLen len b0 b1 off, bufs, dc, ec⟩, s')) ∧
    (∀ sess rs (bufs : Bufs) dc ec s len off s' c,
      s.poll ((bufs.wcipher.drop off).take (len - off)) = (.uerr c, s') →
      pollFlush sess ⟨rs, .writeData len off, bufs, dc, ec⟩ s =
        (.fErr (.io c), ⟨rs, .writeData len off, bufs, dc, ec⟩, s')) := by
  refine ⟨?_, ?_, ?_, ?_, ?_, ?_⟩
  · intro sess ws bufs dc ec u cap b0 b1 off b0' b1' off' u' c h
    simp only [pollRead, pollReadF]
    rw [h]
  · intro sess ws bufs dc ec u cap len off u' c h
    simp only [pollRead, pollReadF]
    rw [h]
  · intro sess rs bufs dc ec s src len b0 b1 off off' s' c h
    simp only [pollWrite, pollWriteF]
    rw [h]
  · intro sess rs bufs dc ec s src len off s' c h
    simp only [pollWrite, pollWriteF]
    rw [h]
  · intro sess rs bufs dc ec s len b0 b1 off off' s' c h
    simp only [pollFlush, pollFlushF]
    rw [h]
  · intro sess rs bufs dc ec s len off s' c h
    simp only [pollFlush, pollFlushF]
    rw [h]

/-- C5: terminal states are sticky and idempotent.  From `Eof(clean)` every
read returns `Ready(0)`; from `Eof(unexpected)` it returns
`Err(UnexpectedEof)`; from `DecErr` it returns `Err(InvalidData)`; from the
write-side `Eof` both write and flush return `Err(WriteZero)`; from
`EncErr` both return `Err(InvalidData)`.  In every case the whole adapter
state and the underlying stream are left unchanged. -/
theorem c5_terminal_states_sticky :
    (∀ sess ws bufs dc ec u cap,
      pollRead sess ⟨.eofR true, ws, bufs, dc, ec⟩ u cap =
        (.bytes [], ⟨.eofR true, ws, bufs, dc, ec⟩, u)) ∧
    (∀ sess ws bufs dc ec u cap,
      pollRead sess ⟨.eofR false, ws, bufs, dc, ec⟩ u cap =
        (.rErr .ueof, ⟨.eofR false, ws, bufs, dc, ec⟩, u)) ∧
    (∀ sess ws bufs dc ec u cap,
      pollRead sess ⟨.decErr, ws, bufs, dc, ec⟩ u cap =
        (.rErr .invalidData, ⟨.decErr, ws, bufs, dc, ec⟩, u)) ∧
    (∀ sess rs bufs dc ec s src,
      pollWrite sess ⟨rs, .eofW, bufs, dc, ec⟩ s src =
        (.wErr .writeZero, ⟨rs, .eofW, bufs, dc, ec⟩, s)) ∧
    (∀ sess rs bufs dc ec s src,
      pollWrite sess ⟨rs, .encErr, bufs, dc, ec⟩ s src =
        (.wErr .invalidData, ⟨rs, .encErr, bufs, dc, ec⟩, s)) ∧
    (∀ sess rs bufs dc ec s,
      pollFlush sess ⟨rs, .eofW, bufs, dc, ec⟩ s =
        (.fErr .writeZero, ⟨rs, .eofW, bufs, dc, ec⟩, s)) ∧
    (∀ sess rs bufs dc ec s,
      pollFlush sess ⟨rs, .encErr, bufs, dc, ec⟩ s =
        (.fErr .invalidData, ⟨rs, .encErr, bufs, dc, ec⟩, s)) := by
  exact ⟨fun _ _ _ _ _ _ _ => rfl, fun _ _ _ _ _ _ _ => rfl, fun _ _ _ _ _ _ _ => rfl,
    fun _ _ _ _ _ _ _ => rfl, fun _ _ _ _ _ _ _ => rfl,
    fun _ _ _ _ _ _ => rfl, fun _ _ _ _ _ _ => rfl⟩

/-- The tagged session satisfies the round-trip session assumptions. -/
theorem tagSess_ok : SessOK tagSess := by
  intro p hp
  exact ⟨p ++ [7], rfl, by simp [tagSess], by simp, by simp⟩

/-- C1: round-trip correctness.  For any session pair that is mutually
inverse on admissible plaintexts (`SessOK`) and any schedule of nonempty
write chunks interleaved with flushes, driving the schedule followed by a
final flush through the write side over a cooperative sink succeeds, the
sink then holds the wire image of a list of frames, and reading that wire
image back through a fresh adapter yields exactly the concatenation of the
written chunks — ordered, complete, no insertions — ending in clean EOF. -/
theorem c1_roundtrip (sess : Sess) (ops : List WOp) (hS : SessOK sess)
    (hops : ∀ bs ∈ chunksOf ops, bs ≠ []) :
    ∃ a s parts, runOps sess (ops ++ [.fl]) initOutput coopSnk = some (a, s) ∧
      s.sunk = wireOf sess parts ∧
      readAll sess (parts.length + 1) initOutput (coopSrc s.sunk) =
        some (chunksOf ops).flatten := by
  obtain ⟨a1, s1, parts1, pend1, hro, hI1, hj1⟩ :=
    coop_runOps sess hS ops initOutput coopSnk [] [] (WInv_init sess) hops
  obtain ⟨a2, s2, parts2, hfl, hI2, hj2⟩ := coop_flush_inv sess hS a1 s1 parts1 pend1 hI1
  have hrun : runOps sess (ops ++ [.fl]) initOutput coopSnk = some (a2, s2) := by
    rw [runOps_append, hro]
    show (match pollFlush sess a1 s1 with
      | (.flushOk, a', s') => runOps sess [] a' s'
      | _ => none) = some (a2, s2)
    rw [hfl]
    rfl
  obtain ⟨hse2, hsd2, hsunk2, hparts2, hwl2, hwc2, hst2⟩ := hI2
  have hsp2 : ∀ p ∈ parts2, ∃ c, sess.enc p = some c ∧ sess.dec c = some p ∧ c ≠ [] ∧
      c.length ≤ p.length + 16 := fun p hp => hS p (hparts2 p hp).2
  have hread := coop_read_all sess parts2 .init .init initOutput.bufs [] []
    (Or.inl rfl) hparts2 hsp2
  have hflat : parts2.flatten = (chunksOf ops).flatten := by
    rw [hj2, hj1]
    simp
  have hinit : initOutput = ⟨.init, .init, initOutput.bufs, [], []⟩ := rfl
  refine ⟨a2, s2, parts2, hrun, hsunk2, ?_⟩
  rw [hsunk2, hinit, hread, hflat]

/-- C1 witness: a concrete schedule — write `[1,2,3]`, flush, write
`[4,5]`, final flush — through the tagged session round-trips. -/
theorem c1_roundtrip_witness :
    SessOK tagSess ∧
    (∀ bs ∈ chunksOf [WOp.wr [1, 2, 3], WOp.fl, WOp.wr [4, 5]], bs ≠ []) ∧
    (∃ a s parts,
      runOps tagSess ([WOp.wr [1, 2, 3], WOp.fl, WOp.wr [4, 5]] ++ [.fl])
        initOutput coopSnk = some (a, s) ∧
      s.sunk = wireOf tagSess parts ∧
      readAll tagSess (parts.length + 1) initOutput (coopSrc s.sunk) =
        some (chunksOf [WOp.wr [1, 2, 3], WOp.fl, WOp.wr [4, 5]]).flatten) :=
  ⟨tagSess_ok, by decide,
    c1_roundtrip tagSess [WOp.wr [1, 2, 3], WOp.fl, WOp.wr [4, 5]] tagSess_ok (by decide)⟩

/-- C6: decryption discipline of the read side.  (1) A frame completion
whose decryption fails surfaces `Err(InvalidData)`, transitions to the
sticky `DecErr`, logs exactly one decrypt invocation (on that frame's
ciphertext) and copies no plaintext anywhere.  (2) A loop iteration making
partial ciphertext progress performs no decrypt invocation.  (3) The
completion iteration with successful decryption performs exactly one
decrypt invocation, on the completed ciphertext.  (4) The `CopyData` arm
never decrypts and never touches the underlying stream — it only serves
bytes of the already-decrypted plaintext buffer.  (5) A read in `DecErr`
returns `Err(InvalidData)` leaving everything unchanged, and (6) any number
of further reads stays in `DecErr` with the stream untouched, so no byte of
the failed frame is ever delivered. -/
theorem c6_decrypt_once :
    (∀ sess ws (bufs : Bufs) dc ec u u' cap len off bs,
      u.poll (len - off) = (.gotBytes bs, u') → bs ≠ [] → len = off + bs.length →
      sess.dec ((spliceAt bufs.readC off bs).take len) = none →
      pollRead sess ⟨.readData len off, ws, bufs, dc, ec⟩ u cap =
        (.rErr .invalidData, ⟨.decErr, ws, { bufs with readC := spliceAt bufs.readC off bs },
          dc ++ [(spliceAt bufs.readC off bs).take len], ec⟩, u')) ∧
    (∀ sess f ws (bufs : Bufs) dc ec u u' cap len off bs,
      u.poll (len - off) = (.gotBytes bs, u') → bs ≠ [] → ¬ len = off + bs.length →
      pollReadF sess (f + 1) ⟨.readData len off, ws, bufs, dc, ec⟩ u cap =
        pollReadF sess f ⟨.readData len (off + bs.length), ws,
          { bufs with readC := spliceAt bufs.readC off bs }, dc, ec⟩ u' cap) ∧
    (∀ sess f ws (bufs : Bufs) dc ec u u' cap len off bs plain,
      u.poll (len - off) = (.gotBytes bs, u') → bs ≠ [] → len = off + bs.length →
      sess.dec ((spliceAt bufs.readC off bs).take len) = some plain →
      pollReadF sess (f + 1) ⟨.readData len off, ws, bufs, dc, ec⟩ u cap =
        pollReadF sess f ⟨.copyData plain.length 0, ws,
          { bufs with readC := spliceAt bufs.readC off bs,
                      readP := spliceAt bufs.readP 0 plain },
          dc ++ [(spliceAt bufs.readC off bs).take len], ec⟩ u' cap) ∧
    (∀ sess ws (bufs : Bufs) dc ec u cap len off,
      pollRead sess ⟨.copyData len off, ws, bufs, dc, ec⟩ u cap =
        (.bytes ((bufs.readP.drop off).take (min (len - off) cap)),
         ⟨if len = off + min (len - off) cap then .readLen 0 0 0
          else .copyData len (off + min (len - off) cap), ws, bufs, dc, ec⟩, u)) ∧
    (∀ sess ws (bufs : Bufs) dc ec u cap,
      pollRead sess ⟨.decErr, ws, bufs, dc, ec⟩ u cap =
        (.rErr .invalidData, ⟨.decErr, ws, bufs, dc, ec⟩, u)) ∧
    (∀ sess ws (bufs : Bufs) dc ec u cap k,
      iterRead sess k ⟨.decErr, ws, bufs, dc, ec⟩ u cap =
        (⟨.decErr, ws, bufs, dc, ec⟩, u)) := by
  refine ⟨?_, ?_, ?_, ?_, ?_, ?_⟩
  · intro sess ws bufs dc ec u u' cap len off bs hp hbs hlen hdec
    have e1 : pollRead sess ⟨.readData len off, ws, bufs, dc, ec⟩ u cap =
        pollReadF sess ((2 * (u.evs.length + u.data.length) + 3) + 1)
          ⟨.readData len off, ws, bufs, dc, ec⟩ u cap := rfl
    rw [e1, stepR_data_fail (2 * (u.evs.length + u.data.length) + 3) hp hbs hlen hdec]
  · intro sess f ws bufs dc ec u u' cap len off bs hp hbs hne
    exact stepR_data_more f hp hbs hne
  · intro sess f ws bufs dc ec u u' cap len off bs plain hp hbs hlen hdec
    exact stepR_data_done f hp hbs hlen hdec
  · intro sess ws bufs dc ec u cap len off
    have e1 : pollRead sess ⟨.copyData len off, ws, bufs, dc, ec⟩ u cap =
        pollReadF sess ((2 * (u.evs.length + u.data.length) + 3) + 1)
          ⟨.copyData len off, ws, bufs, dc, ec⟩ u cap := rfl
    rw [e1, stepR_copy (2 * (u.evs.length + u.data.length) + 3)]
  · intro sess ws bufs dc ec u cap
    rfl
  · intro sess ws bufs dc ec u cap k
    induction k with
    | zero => rfl
    | succ k ih => exact ih

/-- C6 witness: a one-byte frame whose ciphertext `[9]` fails to decrypt
(the always-failing session): `Err(InvalidData)`, sticky `DecErr`, exactly
one decrypt logged. -/
theorem c6_decrypt_once_witness :
    (coopSrc [9]).poll (1 - 0) = (.gotBytes [9], coopSrc []) ∧
    ([9] : List Nat) ≠ [] ∧ (1 : Nat) = 0 + ([9] : List Nat).length ∧
    noSess.dec ((spliceAt [0] 0 [9]).take 1) = none ∧
    pollRead noSess ⟨.readData 1 0, .init, ⟨[0], [], [], []⟩, [], []⟩ (coopSrc [9]) 8 =
      (.rErr .invalidData, ⟨.decErr, .init, ⟨spliceAt [0] 0 [9], [], [], []⟩,
        [] ++ [(spliceAt [0] 0 [9]).take 1], []⟩, coopSrc []) :=
  ⟨rfl, by decide, rfl, rfl,
    c6_decrypt_once.1 noSess .init ⟨[0], [], [], []⟩ [] [] (coopSrc [9]) (coopSrc []) 8
      1 0 [9] rfl (by decide) rfl rfl⟩

/-- C7: acceptance contract of a successful write entered with accumulator
offset `off`.  Without filling the accumulator the call returns
`Ready(Ok(n))` with `n = min (MAX_WRITE_BUF_LEN - off) src.length`, those
`n` source bytes spliced into the accumulator, no other change and no
underlying I/O; on filling it, the same acceptance count is returned in the
same call even though encryption was triggered and the frame was staged
(acceptance is decoupled from wire delivery — the sink is untouched in both
cases); and the accumulator after the call holds exactly its old prefix
followed by the accepted source bytes. -/
theorem c7_write_acceptance :
    (∀ sess rs (bufs : Bufs) dc ec s src off,
      ¬ off + min (MAX_WRITE_BUF_LEN - off) src.length = MAX_WRITE_BUF_LEN →
      pollWrite sess ⟨rs, .bufferData off, bufs, dc, ec⟩ s src =
        (.accepted (min (MAX_WRITE_BUF_LEN - off) src.length),
         ⟨rs, .bufferData (off + min (MAX_WRITE_BUF_LEN - off) src.length),
          { bufs with wplain :=
              spliceAt bufs.wplain off (src.take (min (MAX_WRITE_BUF_LEN - off) src.length)) },
          dc, ec⟩, s)) ∧
    (∀ sess rs (bufs : Bufs) dc ec s src off c,
      off + min (MAX_WRITE_BUF_LEN - off) src.length = MAX_WRITE_BUF_LEN →
      sess.enc (spliceAt bufs.wplain off
        (src.take (min (MAX_WRITE_BUF_LEN - off) src.length))) = some c →
      pollWrite sess ⟨rs, .bufferData off, bufs, dc, ec⟩ s src =
        (.accepted (min (MAX_WRITE_BUF_LEN - off) src.length),
         ⟨rs, .writeLen c.length (c.length / 256 % 256) (c.length % 256) 0,
          { bufs with
            wplain :=
              spliceAt bufs.wplain off (src.take (min (MAX_WRITE_BUF_LEN - off) src.length)),
            wcipher := spliceAt bufs.wcipher 0 c },
          dc, ec ++ [spliceAt bufs.wplain off
            (src.take (min (MAX_WRITE_BUF_LEN - off) src.length))]⟩, s)) ∧
    (∀ (buf src : List Nat) (off : Nat), off ≤ buf.length →
      (spliceAt buf off (src.take (min (MAX_WRITE_BUF_LEN - off) src.length))).take
          (off + min (MAX_WRITE_BUF_LEN - off) src.length) =
        buf.take off ++ src.take (min (MAX_WRITE_BUF_LEN - off) src.length)) := by
  refine ⟨?_, ?_, ?_⟩
  · intro sess rs bufs dc ec s src off h
    have hlift : pollWrite sess ⟨rs, .bufferData off, bufs, dc, ec⟩ s src =
        pollWriteF sess 1 ⟨rs, .bufferData off, bufs, dc, ec⟩ s src :=
      pollWrite_lift _ _ _ _ 1 (by rw [stepW_buffer_part 0 h]; simp)
        (by dsimp only; have hw : wSlack (.bufferData off) = 3 := rfl; omega)
    rw [hlift, stepW_buffer_part 0 h]
  · intro sess rs bufs dc ec s src off c hfull henc
    have hlift : pollWrite sess ⟨rs, .bufferData off, bufs, dc, ec⟩ s src =
        pollWriteF sess 1 ⟨rs, .bufferData off, bufs, dc, ec⟩ s src :=
      pollWrite_lift _ _ _ _ 1 (by rw [stepW_buffer_fill 0 hfull henc]; simp)
        (by dsimp only; have hw : wSlack (.bufferData off) = 3 := rfl; omega)
    rw [hlift, stepW_buffer_fill 0 hfull henc]
  · intro buf src off h
    have h1 := spliceAt_take buf off (src.take (min (MAX_WRITE_BUF_LEN - off) src.length)) h
    rw [List.length_take] at h1
    have hm : min (min (MAX_WRITE_BUF_LEN - off) src.length) src.length =
        min (MAX_WRITE_BUF_LEN - off) src.length := by omega
    rw [hm] at h1
    exact h1

/-- C7 witness: a two-byte write into an empty accumulator accepts both
bytes, splices them, and performs no underlying I/O. -/
theorem c7_write_acceptance_witness :
    (¬ (0 : Nat) + min (MAX_WRITE_BUF_LEN - 0) [(5 : Nat), 6].length = MAX_WRITE_BUF_LEN) ∧
    pollWrite noSess ⟨.init, .bufferData 0, ⟨[], [], [7, 7, 7], []⟩, [], []⟩ coopSnk [5, 6] =
      (.accepted (min (MAX_WRITE_BUF_LEN - 0) [(5 : Nat), 6].length),
       ⟨.init, .bufferData (0 + min (MAX_WRITE_BUF_LEN - 0) [(5 : Nat), 6].length),
        ⟨[], [], spliceAt [7, 7, 7] 0 ([(5 : Nat), 6].take
          (min (MAX_WRITE_BUF_LEN - 0) [(5 : Nat), 6].length)), []⟩, [], []⟩, coopSnk) :=
  ⟨by decide, c7_write_acceptance.1 noSess .init ⟨[], [], [7, 7, 7], []⟩ [] [] coopSnk
    [5, 6] 0 (by decide)⟩

/-- The full accumulator after writing exactly `MAX_WRITE_BUF_LEN` bytes
into a fresh adapter is exactly the written bytes. -/
theorem c8_spliced_plain :
    spliceAt initOutput.bufs.wplain 0 (List.replicate 16384 (170 : Nat)) =
      List.replicate 16384 (170 : Nat) := by
  have hwl : initOutput.bufs.wplain = List.replicate MAX_WRITE_BUF_LEN 0 := rfl
  rw [spliceAt_full _ _ _
    (by rw [List.length_replicate, hwl, List.length_replicate]; decide)]
  simp only [List.take_zero, List.nil_append]

/-- One `poll_write` of exactly `MAX_WRITE_BUF_LEN` bytes into the fresh
adapter: all bytes accepted, the frame encrypted and staged, the sink
untouched. -/
theorem c8_write_staged :
    pollWrite c2sess initOutput coopSnk (List.replicate 16384 170) =
      (.accepted 16384,
       ⟨.init, .writeLen 16385 64 1 0,
        { initOutput.bufs with
          wplain := List.replicate 16384 170,
          wcipher := spliceAt initOutput.bufs.wcipher 0 (0 :: List.replicate 16384 170) },
        [], [List.replicate 16384 170]⟩, coopSnk) := by
  have hfull : (0 : Nat) + min (MAX_WRITE_BUF_LEN - 0)
      (List.replicate 16384 (170 : Nat)).length = MAX_WRITE_BUF_LEN := by
    rw [List.length_replicate]
    decide
  have henc : c2sess.enc (spliceAt initOutput.bufs.wplain 0
      ((List.replicate 16384 (170 : Nat)).take
        (min (MAX_WRITE_BUF_LEN - 0) (List.replicate 16384 (170 : Nat)).length))) =
      some (0 :: spliceAt initOutput.bufs.wplain 0
      ((List.replicate 16384 (170 : Nat)).take
        (min (MAX_WRITE_BUF_LEN - 0) (List.replicate 16384 (170 : Nat)).length))) := rfl
  have hPW : pollWrite c2sess initOutput coopSnk (List.replicate 16384 170) =
      pollWriteF c2sess 7 initOutput coopSnk (List.replicate 16384 170) := rfl
  have hinit : initOutput = ⟨.init, .init, initOutput.bufs, [], []⟩ := rfl
  rw [hPW, hinit, show (7 : Nat) = 6 + 1 from rfl, stepW_init 6,
    stepW_buffer_fill 5 hfull henc]
  have htk : (List.replicate 16384 (170 : Nat)).take
      (min (MAX_WRITE_BUF_LEN - 0) (List.replicate 16384 (170 : Nat)).length) =
      List.replicate 16384 (170 : Nat) :=
    List.take_of_length_le (by rw [List.length_replicate]; decide)
  rw [htk, c8_spliced_plain]
  have hlen : (0 :: List.replicate 16384 (170 : Nat)).length = 16385 := by
    simp only [List.length_cons, List.length_replicate]
  rw [hlen]
  have hmin : (MAX_WRITE_BUF_LEN - 0) ⊓ (List.replicate 16384 (170 : Nat)).length = 16384 := by
    rw [List.length_replicate]
    decide
  rw [hmin, show (16385 : Nat) / 256 % 256 = 64 from by decide,
    show (16385 : Nat) % 256 = 1 from by decide]
  simp only [List.nil_append]

/-- C8 counterexample: writing exactly `MAX_PLAIN = 16384` bytes into a
writer in `Init` accepts all of them but puts NOTHING on the wire (the
frame is only encrypted and staged) and leaves the writer in
`WriteLen{16385, [64, 1], 0}`, not `Init`. -/
theorem c8_counterexample :
    (∃ bufs', pollWrite c2sess initOutput coopSnk (List.replicate 16384 170) =
      (.accepted 16384,
       ⟨.init, .writeLen 16385 64 1 0, bufs', [], [List.replicate 16384 170]⟩, coopSnk)) ∧
    (WriteState.writeLen 16385 64 1 0 ≠ .init) ∧ coopSnk.sunk = [] :=
  ⟨⟨{ initOutput.bufs with
      wplain := List.replicate 16384 170,
      wcipher := spliceAt initOutput.bufs.wcipher 0 (0 :: List.replicate 16384 170) },
    c8_write_staged⟩, by decide, rfl⟩

/-- C8 amended: writing exactly `MAX_PLAIN` bytes accepts them all and
stages exactly one frame, and it is the NEXT `poll_flush` that puts that
one frame on the wire and returns the writer to `Init`. -/
theorem c8_amended :
    ∃ a', pollWrite c2sess initOutput coopSnk (List.replicate 16384 170) =
        (.accepted 16384, a', coopSnk) ∧
      a'.ws = .writeLen 16385 64 1 0 ∧
      ∃ a'' s'', pollFlush c2sess a' coopSnk = (.flushOk, a'', s'') ∧
        a''.ws = .init ∧ s''.sunk = wireOf c2sess [List.replicate 16384 170] := by
  refine ⟨_, c8_write_staged, rfl, ?_⟩
  have h165 : (0 :: List.replicate 16384 (170 : Nat)).length = 16385 := by
    simp only [List.length_cons, List.length_replicate]
  have hwc : initOutput.bufs.wcipher = List.replicate (2 * MAX_WRITE_BUF_LEN) 0 := rfl
  have hctake : (spliceAt initOutput.bufs.wcipher 0
      (0 :: List.replicate 16384 (170 : Nat))).take 16385 =
      0 :: List.replicate 16384 (170 : Nat) := by
    have h := spliceAt_zero_take initOutput.bufs.wcipher (0 :: List.replicate 16384 (170 : Nat))
    rw [h165] at h
    exact h
  have hclen : 16385 ≤ (spliceAt initOutput.bufs.wcipher 0
      (0 :: List.replicate 16384 (170 : Nat))).length := by
    rw [spliceAt_length _ _ _ (by rw [h165, hwc, List.length_replicate]; decide),
      hwc, List.length_replicate]
    decide
  have hdrain := coop_flush_drain c2sess .init
    { initOutput.bufs with
      wplain := List.replicate 16384 170,
      wcipher := spliceAt initOutput.bufs.wcipher 0 (0 :: List.replicate 16384 170) }
    [] [List.replicate 16384 170] [] 0 0 16385 64 1 (by decide) hclen (by decide)
  refine ⟨_, _, hdrain, rfl, ?_⟩
  show [] ++ [64, 1] ++ (spliceAt initOutput.bufs.wcipher 0
      (0 :: List.replicate 16384 (170 : Nat))).take 16385 =
    wireOf c2sess [List.replicate 16384 170]
  rw [hctake]
  show [64, 1] ++ (0 :: List.replicate 16384 (170 : Nat)) =
    frameBytes ((c2sess.enc (List.replicate 16384 170)).getD []) ++ []
  rw [show (c2sess.enc (List.replicate 16384 170)).getD [] =
    0 :: List.replicate 16384 (170 : Nat) from rfl]
  show _ = ((0 :: List.replicate 16384 (170 : Nat)).length / 256 % 256) ::
    ((0 :: List.replicate 16384 (170 : Nat)).length % 256) ::
    (0 :: List.replicate 16384 (170 : Nat)) ++ []
  rw [h165]
  simp only [List.append_nil]
  rfl

/-- C2 amended, witness: ciphertext `[1]` decrypts to the empty plaintext;
the consuming read call returns zero bytes with the reader left in a fresh
`ReadLen`. -/
theorem c2_amended_witness :
    (coopSrc [1]).poll (1 - 0) = (.gotBytes [1], coopSrc []) ∧ ([1] : List Nat) ≠ [] ∧
    (1 : Nat) = 0 + ([1] : List Nat).length ∧
    c2sess.dec ((spliceAt [0] 0 [1]).take 1) = some [] ∧
    ((pollRead c2sess ⟨.readData 1 0, .init, ⟨[0], [], [], []⟩, [], []⟩ (coopSrc [1]) 8).1 =
      .bytes [] ∧
     ((pollRead c2sess ⟨.readData 1 0, .init, ⟨[0], [], [], []⟩, [], []⟩
        (coopSrc [1]) 8).2.1).rs = .readLen 0 0 0 ∧
     (pollRead c2sess ⟨.readData 1 0, .init, ⟨[0], [], [], []⟩, [], []⟩ (coopSrc [1]) 8).2.2 =
      coopSrc []) :=
  ⟨rfl, by decide, rfl, rfl,
    c2_amended.2 c2sess .init ⟨[0], [], [], []⟩ [] [] (coopSrc [1]) (coopSrc []) 8 1 0 [1]
      rfl (by decide) rfl rfl⟩

/-- C4 amended, witness: one length byte arrives, then the stream fails
with I/O error 7; the error is surfaced and the entry state persists. -/
theorem c4_amended_witness :
    read_frame_len ⟨[9, 1], [.ready 1, .ioErr 7], .pend⟩ 0 0 0 =
      (.lenErr 7, 9, 0, 1, ⟨[1], [], .pend⟩) ∧
    pollRead noSess ⟨.readLen 0 0 0, .init, initOutput.bufs, [], []⟩
        ⟨[9, 1], [.ready 1, .ioErr 7], .pend⟩ 8 =
      (.rErr (.io 7), ⟨.readLen 0 0 0, .init, initOutput.bufs, [], []⟩, ⟨[1], [], .pend⟩) :=
  ⟨rfl, c4_amended.1 noSess .init initOutput.bufs [] []
    ⟨[9, 1], [.ready 1, .ioErr 7], .pend⟩ 8 0 0 0 9 0 1 ⟨[1], [], .pend⟩ 7 rfl⟩

/-- C10 witness: completing a one-byte staged frame through the underlying
`poll_write` makes `poll_flush` return `Ready(Ok(()))` without any
underlying flush. -/
theorem c10_flush_not_forwarded_witness :
    coopSnk.poll ((([5] : List Nat).drop 0).take (1 - 0)) =
      (.wrote 1, ⟨[5], [], .ready 70000, 0, 0⟩) ∧ (1 : Nat) ≠ 0 ∧ (1 : Nat) = 0 + 1 ∧
    pollFlush noSess ⟨.init, .writeData 1 0, ⟨[], [], [], [5]⟩, [], []⟩ coopSnk =
      (.flushOk, ⟨.init, .init, ⟨[], [], [], [5]⟩, [], []⟩, ⟨[5], [], .ready 70000, 0, 0⟩) :=
  ⟨rfl, by decide, rfl,
    c10_flush_not_forwarded.2.2 noSess .init ⟨[], [], [], [5]⟩ [] [] coopSnk 1 0 1
      ⟨[5], [], .ready 70000, 0, 0⟩ rfl (by decide) rfl⟩

/-- Polling the underlying read side never changes its default event. -/
theorem RSrc_poll_dflt (u : RSrc) (k : Nat) : ((u.poll k).2).dflt = u.dflt := by
  rcases u with ⟨data, evs, dflt⟩
  rcases evs with _ | ⟨e, rest⟩
  · rcases dflt with n | c | _ <;> rfl
  · rcases e with n | c | _ <;> rfl

/-- Polling the underlying read side never grows the script-plus-data
measure, and a nonempty delivery strictly shrinks it. -/
theorem RSrc_poll_consume (u : RSrc) (k : Nat) :
    ((u.poll k).2).evs.length + ((u.poll k).2).data.length ≤
      u.evs.length + u.data.length ∧
    (∀ bs, (u.poll k).1 = .gotBytes bs → ¬ bs.length = 0 →
      ((u.poll k).2).evs.length + ((u.poll k).2).data.length + 1 ≤
        u.evs.length + u.data.length) := by
  rcases u with ⟨data, evs, dflt⟩
  rcases evs with _ | ⟨e, rest⟩
  · rcases dflt with n | c | _
    · refine ⟨by simp [RSrc.poll]; try omega, ?_⟩
      intro bs hbs hne
      simp only [RSrc.poll] at hbs ⊢
      obtain rfl : data.take (min n k) = bs := by
        exact (UPollR.gotBytes.injEq _ _).mp hbs
      rw [List.length_take] at hne
      simp [List.length_drop]
      omega
    · exact ⟨le_refl _, fun bs hbs _ => by simp [RSrc.poll] at hbs⟩
    · exact ⟨le_refl _, fun bs hbs _ => by simp [RSrc.poll] at hbs⟩
  · rcases e with n | c | _
    · refine ⟨by simp [RSrc.poll]; try omega, ?_⟩
      intro bs hbs hne
      simp only [RSrc.poll] at hbs ⊢
      obtain rfl : data.take (min n k) = bs := by
        exact (UPollR.gotBytes.injEq _ _).mp hbs
      rw [List.length_take] at hne
      simp [List.length_drop]
      omega
    · refine ⟨by simp [RSrc.poll], fun bs hbs _ => by simp [RSrc.poll] at hbs⟩
    · refine ⟨by simp [RSrc.poll], fun bs hbs _ => by simp [RSrc.poll] at hbs⟩

/-- The length-reading loop never grows the script-plus-data measure,
preserves the default event, and a completed length strictly consumed
data. -/
theorem readFrameLenF_consume : ∀ (g : Nat) (u : RSrc) (b0 b1 off : Nat),
    ((readFrameLenF g u b0 b1 off).2.2.2.2).evs.length +
        ((readFrameLenF g u b0 b1 off).2.2.2.2).data.length ≤
      u.evs.length + u.data.length ∧
    ((readFrameLenF g u b0 b1 off).2.2.2.2).dflt = u.dflt ∧
    (∀ n, (readFrameLenF g u b0 b1 off).1 = .got n →
      ((readFrameLenF g u b0 b1 off).2.2.2.2).evs.length +
          ((readFrameLenF g u b0 b1 off).2.2.2.2).data.length + 1 ≤
        u.evs.length + u.data.length) := by
  intro g
  induction g with
  | zero =>
    intro u b0 b1 off
    exact ⟨le_refl _, rfl, fun n h => by simp [readFrameLenF] at h⟩
  | succ g ih =>
    intro u b0 b1 off
    have hd := RSrc_poll_dflt u (2 - off)
    have hc := RSrc_poll_consume u (2 - off)
    unfold readFrameLenF
    rcases hp : u.poll (2 - off) with ⟨r, u'⟩
    rw [hp] at hd hc
    dsimp only at hd hc
    cases r with
    | upend => exact ⟨hc.1, hd, fun n h => by simp at h⟩
    | uerr c => exact ⟨hc.1, hd, fun n h => by simp at h⟩
    | gotBytes bs =>
      by_cases hb : bs.length = 0
      · simp only [if_pos hb]
        exact ⟨hc.1, hd, fun n h => by simp at h⟩
      · simp only [if_neg hb]
        have hstrict := hc.2 bs rfl hb
        rcases hf : fill2 b0 b1 off bs with ⟨b0', b1', off'⟩
        by_cases h2 : off' = 2
        · simp only [if_pos h2]
          exact ⟨by omega, hd, fun n _ => by simpa using hstrict⟩
        · simp only [if_neg h2]
          obtain ⟨ih1, ih2, ih3⟩ := ih u' b0' b1' off'
          refine ⟨by omega, ih2.trans hd, fun n h => ?_⟩
          have := ih1
          omega

/-- The length-reading loop cannot run out of fuel above its canonical
bound. -/
theorem readFrameLenF_nonstuck : ∀ (g : Nat) (u : RSrc) (b0 b1 off : Nat),
    u.evs.length + u.data.length + 2 ≤ g →
    (readFrameLenF g u b0 b1 off).1 ≠ .lenStuck := by
  intro g
  induction g with
  | zero =>
    intro u b0 b1 off h
    omega
  | succ g ih =>
    intro u b0 b1 off h
    have hc := RSrc_poll_consume u (2 - off)
    unfold readFrameLenF
    rcases hp : u.poll (2 - off) with ⟨r, u'⟩
    rw [hp] at hc
    dsimp only at hc
    cases r with
    | upend => simp
    | uerr c => simp
    | gotBytes bs =>
      by_cases hb : bs.length = 0
      · simp only [if_pos hb]
        simp
      · simp only [if_neg hb]
        have hstrict := hc.2 bs rfl hb
        rcases hf : fill2 b0 b1 off bs with ⟨b0', b1', off'⟩
        by_cases h2 : off' = 2
        · simp only [if_pos h2]
          simp
        · simp only [if_neg h2]
          exact ih u' b0' b1' off' (by omega)

/-- The canonical `read_frame_len` never reports fuel exhaustion. -/
theorem read_frame_len_nonstuck (u : RSrc) (b0 b1 off : Nat) :
    (read_frame_len u b0 b1 off).1 ≠ .lenStuck :=
  readFrameLenF_nonstuck _ u b0 b1 off (by omega)

/-- Any non-stuck fuel-bounded length read agrees with the canonical one. -/
theorem read_frame_len_bridge (g : Nat) (u : RSrc) (b0 b1 off : Nat)
    (h : (readFrameLenF g u b0 b1 off).1 ≠ .lenStuck) :
    read_frame_len u b0 b1 off = readFrameLenF g u b0 b1 off := by
  have h1 := readFrameLenF_mono g (max g (u.evs.length + u.data.length + 2)) u b0 b1 off h
    (le_max_left _ _)
  have h2 := readFrameLenF_mono (u.evs.length + u.data.length + 2)
    (max g (u.evs.length + u.data.length + 2)) u b0 b1 off
    (read_frame_len_nonstuck u b0 b1 off) (le_max_right _ _)
  exact h2.symm.trans h1

/-- Consumption facts for the canonical `read_frame_len`. -/
theorem read_frame_len_consume (u : RSrc) (b0 b1 off : Nat) :
    ((read_frame_len u b0 b1 off).2.2.2.2).evs.length +
        ((read_frame_len u b0 b1 off).2.2.2.2).data.length ≤
      u.evs.length + u.data.length ∧
    ((read_frame_len u b0 b1 off).2.2.2.2).dflt = u.dflt ∧
    (∀ n, (read_frame_len u b0 b1 off).1 = .got n →
      ((read_frame_len u b0 b1 off).2.2.2.2).evs.length +
          ((read_frame_len u b0 b1 off).2.2.2.2).data.length + 1 ≤
        u.evs.length + u.data.length) :=
  readFrameLenF_consume _ u b0 b1 off

/-- One canonical length-read iteration hitting a scripted suspension. -/
theorem rfl_step_pend (data : List Nat) (tail : List UEv) (dflt : UEv) (b0 b1 off : Nat) :
    read_frame_len ⟨data, .pend :: tail, dflt⟩ b0 b1 off =
      (.lenPending, b0, b1, off, ⟨data, tail, dflt⟩) := rfl

/-- One canonical length-read iteration hitting a scripted I/O error. -/
theorem rfl_step_err (data : List Nat) (tail : List UEv) (dflt : UEv) (b0 b1 off c : Nat) :
    read_frame_len ⟨data, .ioErr c :: tail, dflt⟩ b0 b1 off =
      (.lenErr c, b0, b1, off, ⟨data, tail, dflt⟩) := rfl

/-- One canonical length-read iteration delivering zero bytes: EOF. -/
theorem rfl_step_eof (data : List Nat) (n : Nat) (tail : List UEv) (dflt : UEv)
    (b0 b1 off : Nat) (hbs : (data.take (min n (2 - off))).length = 0) :
    read_frame_len ⟨data, .ready n :: tail, dflt⟩ b0 b1 off =
      (.eofLen, b0, b1, off, ⟨data.drop (min n (2 - off)), tail, dflt⟩) := by
  show readFrameLenF ((tail.length + 1 + data.length + 1) + 1) _ _ _ _ = _
  simp only [readFrameLenF]
  rw [show RSrc.poll ⟨data, .ready n :: tail, dflt⟩ (2 - off) =
    (.gotBytes (data.take (min n (2 - off))), ⟨data.drop (min n (2 - off)), tail, dflt⟩)
    from rfl]
  simp only [if_pos hbs]

/-- One canonical length-read iteration completing the two length bytes. -/
theorem rfl_step_got (data : List Nat) (n : Nat) (tail : List UEv) (dflt : UEv)
    (b0 b1 off b0' b1' off' : Nat)
    (hbs : ¬ (data.take (min n (2 - off))).length = 0)
    (hf : fill2 b0 b1 off (data.take (min n (2 - off))) = (b0', b1', off'))
    (h2 : off' = 2) :
    read_frame_len ⟨data, .ready n :: tail, dflt⟩ b0 b1 off =
      (.got (256 * b0' + b1'), b0', b1', 2,
        ⟨data.drop (min n (2 - off)), tail, dflt⟩) := by
  show readFrameLenF ((tail.length + 1 + data.length + 1) + 1) _ _ _ _ = _
  simp only [readFrameLenF]
  rw [show RSrc.poll ⟨data, .ready n :: tail, dflt⟩ (2 - off) =
    (.gotBytes (data.take (min n (2 - off))), ⟨data.drop (min n (2 - off)), tail, dflt⟩)
    from rfl]
  simp only [if_neg hbs, hf, if_pos h2]

/-- One canonical length-read iteration making partial progress: the loop
continues canonically on the shorter stream. -/
theorem rfl_step_cont (data : List Nat) (n : Nat) (tail : List UEv) (dflt : UEv)
    (b0 b1 off b0' b1' off' : Nat)
    (hbs : ¬ (data.take (min n (2 - off))).length = 0)
    (hf : fill2 b0 b1 off (data.take (min n (2 - off))) = (b0', b1', off'))
    (h2 : ¬ off' = 2) :
    read_frame_len ⟨data, .ready n :: tail, dflt⟩ b0 b1 off =
      read_frame_len ⟨data.drop (min n (2 - off)), tail, dflt⟩ b0' b1' off' := by
  have h1 : read_frame_len ⟨data, .ready n :: tail, dflt⟩ b0 b1 off =
      readFrameLenF (tail.length + 1 + data.length + 1)
        ⟨data.drop (min n (2 - off)), tail, dflt⟩ b0' b1' off' := by
    show readFrameLenF ((tail.length + 1 + data.length + 1) + 1) _ _ _ _ = _
    simp only [readFrameLenF]
    rw [show RSrc.poll ⟨data, .ready n :: tail, dflt⟩ (2 - off) =
      (.gotBytes (data.take (min n (2 - off))), ⟨data.drop (min n (2 - off)), tail, dflt⟩)
      from rfl]
    simp only [if_neg hbs, hf, if_neg h2]
  rw [h1]
  exact readFrameLenF_mono _ _ _ b0' b1' off'
    (read_frame_len_nonstuck ⟨data.drop (min n (2 - off)), tail, dflt⟩ b0' b1' off')
    (by dsimp only; simp only [List.length_drop]; omega)

/-- Script surgery for the canonical length read: running against
`pre ++ post` either terminates (or suspends) strictly within `pre` —
with an outcome and write-backs independent of `post` — or it consumes
all of `pre` and suspends exactly on a `pend` placed after `pre`, with
the written-back `(buf, off)` and remaining data resuming the computation
exactly where the uninterrupted run would continue. -/
theorem read_frame_len_split : ∀ (pre : List UEv) (data : List Nat) (dflt : UEv)
    (b0 b1 off : Nat),
    (∃ q b0' b1' off' data' suff, suff.length ≤ pre.length ∧
      data'.length ≤ data.length ∧
      (∀ n, q = LenRes.got n → data'.length < data.length) ∧
      (∀ post, read_frame_len ⟨data, pre ++ post, dflt⟩ b0 b1 off =
        (q, b0', b1', off', ⟨data', suff ++ post, dflt⟩))) ∨
    (∃ b0' b1' off' data', data'.length ≤ data.length ∧
      read_frame_len ⟨data, pre ++ [.pend], dflt⟩ b0 b1 off =
        (.lenPending, b0', b1', off', ⟨data', [], dflt⟩) ∧
      (∀ post, read_frame_len ⟨data, pre ++ post, dflt⟩ b0 b1 off =
        read_frame_len ⟨data', post, dflt⟩ b0' b1' off')) := by
  intro pre
  induction pre with
  | nil =>
    intro data dflt b0 b1 off
    refine Or.inr ⟨b0, b1, off, data, le_refl _, ?_, ?_⟩
    · rw [List.nil_append]
      exact rfl_step_pend data [] dflt b0 b1 off
    · intro post
      rw [List.nil_append]
  | cons e pre ih =>
    intro data dflt b0 b1 off
    rcases e with n | c | _
    · by_cases hbs : (data.take (min n (2 - off))).length = 0
      · refine Or.inl ⟨.eofLen, b0, b1, off, data.drop (min n (2 - off)), pre,
          by simp, by simp [List.length_drop], fun m hm => by simp at hm, fun post => ?_⟩
        rw [List.cons_append]
        exact rfl_step_eof data n (pre ++ post) dflt b0 b1 off hbs
      · rcases hf : fill2 b0 b1 off (data.take (min n (2 - off))) with ⟨b0₂, b1₂, off₂⟩
        have hdlt : (data.drop (min n (2 - off))).length < data.length := by
          rw [List.length_take] at hbs
          rw [List.length_drop]
          omega
        by_cases h2 : off₂ = 2
        · refine Or.inl ⟨.got (256 * b0₂ + b1₂), b0₂, b1₂, 2, data.drop (min n (2 - off)),
            pre, by simp, le_of_lt hdlt, fun m hm => hdlt, fun post => ?_⟩
          rw [List.cons_append]
          exact rfl_step_got data n (pre ++ post) dflt b0 b1 off b0₂ b1₂ off₂ hbs hf h2
        · rcases ih (data.drop (min n (2 - off))) dflt b0₂ b1₂ off₂ with
            ⟨q, b0', b1', off', data', suff, hsl, hdl, hstrict, heq⟩ |
            ⟨b0', b1', off', data', hdl, h1, hrest⟩
          · refine Or.inl ⟨q, b0', b1', off', data', suff, by simp; omega,
              hdl.trans (le_of_lt hdlt), fun m hm => lt_of_le_of_lt (hstrict m hm).le hdlt,
              fun post => ?_⟩
            rw [List.cons_append,
              rfl_step_cont data n (pre ++ post) dflt b0 b1 off b0₂ b1₂ off₂ hbs hf h2]
            exact heq post
          · refine Or.inr ⟨b0', b1', off', data', hdl.trans (le_of_lt hdlt), ?_, ?_⟩
            · rw [List.cons_append]
              exact (rfl_step_cont data n (pre ++ [.pend]) dflt b0 b1 off b0₂ b1₂ off₂
                hbs hf h2).trans h1
            · intro post
              rw [List.cons_append]
              exact (rfl_step_cont data n (pre ++ post) dflt b0 b1 off b0₂ b1₂ off₂
                hbs hf h2).trans (hrest post)
    · refine Or.inl ⟨.lenErr c, b0, b1, off, data, pre, by simp, le_refl _,
        fun m hm => by simp at hm, fun post => ?_⟩
      rw [List.cons_append]
      exact rfl_step_err data (pre ++ post) dflt b0 b1 off c
    · refine Or.inl ⟨.lenPending, b0, b1, off, data, pre, by simp, le_refl _,
        fun m hm => by simp at hm, fun post => ?_⟩
      rw [List.cons_append]
      exact rfl_step_pend data (pre ++ post) dflt b0 b1 off

/-- The read loop never runs out of fuel above its per-state threshold. -/
theorem pollReadF_nonstuck : ∀ (g : Nat) (sess : Sess) (a : NoiseOutput) (u : RSrc)
    (cap : Nat),
    2 * (u.evs.length + u.data.length) + (if a.rs = .init then 4 else 3) ≤ g →
    (pollReadF sess g a u cap).1 ≠ .rStuck := by
  intro g
  induction g with
  | zero =>
    intro sess a u cap h
    have hle : 3 ≤ (if a.rs = .init then 4 else 3) := by
      by_cases hi : a.rs = .init <;> simp [hi]
    omega
  | succ g ih =>
    intro sess a u cap h
    rcases a with ⟨rs, ws, bufs, dc, ec⟩
    simp only at h
    cases rs with
    | init =>
      rw [stepR_init g]
      refine ih sess _ u cap ?_
      simp at h
      simp only [show (ReadState.readLen 0 0 0 = ReadState.init) = False from by simp,
        if_false]
      omega
    | readLen b0 b1 off =>
      simp only [if_neg (by simp : ¬ ReadState.readLen b0 b1 off = ReadState.init)] at h
      simp only [pollReadF]
      obtain ⟨hcons, hdflt, hgot⟩ := read_frame_len_consume u b0 b1 off
      rcases hr : read_frame_len u b0 b1 off with ⟨r, b0', b1', off', u'⟩
      rw [hr] at hcons hgot
      dsimp only at hcons hgot
      cases r with
      | got n =>
        have hstrict := hgot n rfl
        by_cases h0 : n = 0
        · simp only [if_pos h0]
          refine ih sess _ u' cap ?_
          simp only [if_pos rfl, if_true]
          omega
        · simp only [if_neg h0]
          refine ih sess _ u' cap ?_
          simp only [show (ReadState.readData n 0 = ReadState.init) = False from by simp,
            if_false]
          omega
      | eofLen => simp
      | lenErr c => simp
      | lenPending => simp
      | lenStuck =>
        have hns := read_frame_len_nonstuck u b0 b1 off
        rw [hr] at hns
        exact absurd rfl hns
    | readData len off =>
      simp only [if_neg (by simp : ¬ ReadState.readData len off = ReadState.init)] at h
      simp only [pollReadF]
      have hc := RSrc_poll_consume u (len - off)
      rcases hp : u.poll (len - off) with ⟨r, u'⟩
      rw [hp] at hc
      dsimp only at hc
      cases r with
      | upend => simp
      | uerr c => simp
      | gotBytes bs =>
        by_cases hb : bs.length = 0
        · simp only [if_pos hb]
          simp
        · simp only [if_neg hb]
          have hstrict := hc.2 bs rfl hb
          by_cases h2 : len = off + bs.length
          · simp only [if_pos h2]
            rcases hd : sess.dec ((spliceAt bufs.readC off bs).take len) with _ | plain
            · simp
            · refine ih sess _ u' cap ?_
              simp only [show (ReadState.copyData plain.length 0 = ReadState.init) = False
                from by simp, if_false]
              omega
          · simp only [if_neg h2]
            refine ih sess _ u' cap ?_
            simp only [show (ReadState.readData len (off + bs.length) = ReadState.init) =
              False from by simp, if_false]
            omega
    | copyData len off =>
      rw [stepR_copy g]
      simp
    | eofR clean => cases clean <;> simp [pollReadF]
    | decErr => simp [pollReadF]

/-- The canonical `poll_read` never reports fuel exhaustion. -/
theorem pollRead_nonstuck (sess : Sess) (a : NoiseOutput) (u : RSrc) (cap : Nat) :
    (pollRead sess a u cap).1 ≠ .rStuck := by
  refine pollReadF_nonstuck _ sess a u cap ?_
  have hle : (if a.rs = .init then 4 else 3) ≤ 4 := by
    by_cases hi : a.rs = .init <;> simp [hi]
  omega

/-- Any non-stuck fuel-bounded read agrees with the canonical `poll_read`. -/
theorem pollRead_bridge (sess : Sess) (g : Nat) (a : NoiseOutput) (u : RSrc) (cap : Nat)
    (h : (pollReadF sess g a u cap).1 ≠ .rStuck) :
    pollRead sess a u cap = pollReadF sess g a u cap := by
  have h1 := pollReadF_mono g (max g (2 * (u.evs.length + u.data.length) + 4)) sess a u cap h
    (le_max_left _ _)
  have h2 := pollReadF_mono (2 * (u.evs.length + u.data.length) + 4)
    (max g (2 * (u.evs.length + u.data.length) + 4)) sess a u cap
    (pollRead_nonstuck sess a u cap) (le_max_right _ _)
  exact h2.symm.trans h1

/-- Entering `poll_read` in `Init` behaves as entering in a fresh
`ReadLen`. -/
theorem pr_step_init (sess : Sess) (ws : WriteState) (bufs : Bufs)
    (dc ec : List (List Nat)) (u : RSrc) (cap : Nat) :
    pollRead sess ⟨.init, ws, bufs, dc, ec⟩ u cap =
      pollRead sess ⟨.readLen 0 0 0, ws, bufs, dc, ec⟩ u cap := by
  have e1 : pollRead sess ⟨.init, ws, bufs, dc, ec⟩ u cap =
      pollReadF sess ((2 * (u.evs.length + u.data.length) + 3) + 1)
        ⟨.init, ws, bufs, dc, ec⟩ u cap := rfl
  rw [e1, stepR_init (2 * (u.evs.length + u.data.length) + 3)]
  exact (pollRead_bridge sess _ _ u cap (pollReadF_nonstuck _ sess _ u cap
    (by simp))).symm

/-- A completed nonzero frame length: the call continues canonically in
`ReadData`. -/
theorem pr_step_len_got (sess : Sess) (ws : WriteState) (bufs : Bufs)
    (dc ec : List (List Nat)) (u u' : RSrc) (cap b0 b1 off n b0' b1' off' : Nat)
    (h : read_frame_len u b0 b1 off = (.got n, b0', b1', off', u')) (hn : n ≠ 0) :
    pollRead sess ⟨.readLen b0 b1 off, ws, bufs, dc, ec⟩ u cap =
      pollRead sess ⟨.readData n 0, ws, bufs, dc, ec⟩ u' cap := by
  obtain ⟨hcons, hdflt, hgot⟩ := read_frame_len_consume u b0 b1 off
  rw [h] at hgot
  dsimp only at hgot
  have hstrict := hgot n rfl
  have e1 : pollRead sess ⟨.readLen b0 b1 off, ws, bufs, dc, ec⟩ u cap =
      pollReadF sess ((2 * (u.evs.length + u.data.length) + 3) + 1)
        ⟨.readLen b0 b1 off, ws, bufs, dc, ec⟩ u cap := rfl
  rw [e1, stepR_len_got (2 * (u.evs.length + u.data.length) + 3) h hn]
  exact (pollRead_bridge sess _ _ u' cap (pollReadF_nonstuck _ sess _ u' cap
    (by simp; omega))).symm

/-- A completed zero frame length: the call continues canonically from
`Init`. -/
theorem pr_step_len_zero (sess : Sess) (ws : WriteState) (bufs : Bufs)
    (dc ec : List (List Nat)) (u u' : RSrc) (cap b0 b1 off b0' b1' off' : Nat)
    (h : read_frame_len u b0 b1 off = (.got 0, b0', b1', off', u')) :
    pollRead sess ⟨.readLen b0 b1 off, ws, bufs, dc, ec⟩ u cap =
      pollRead sess ⟨.init, ws, bufs, dc, ec⟩ u' cap := by
  obtain ⟨hcons, hdflt, hgot⟩ := read_frame_len_consume u b0 b1 off
  rw [h] at hgot
  dsimp only at hgot
  have hstrict := hgot 0 rfl
  have e1 : pollRead sess ⟨.readLen b0 b1 off, ws, bufs, dc, ec⟩ u cap =
      pollReadF sess ((2 * (u.evs.length + u.data.length) + 3) + 1)
        ⟨.readLen b0 b1 off, ws, bufs, dc, ec⟩ u cap := rfl
  rw [e1, stepR_len_zero (2 * (u.evs.length + u.data.length) + 3) h]
  exact (pollRead_bridge sess _ _ u' cap (pollReadF_nonstuck _ sess _ u' cap
    (by simp; omega))).symm

/-- EOF while reading the length: the call returns clean EOF. -/
theorem pr_len_eof (sess : Sess) (ws : WriteState) (bufs : Bufs)
    (dc ec : List (List Nat)) (u u' : RSrc) (cap b0 b1 off b0' b1' off' : Nat)
    (h : read_frame_len u b0 b1 off = (.eofLen, b0', b1', off', u')) :
    pollRead sess ⟨.readLen b0 b1 off, ws, bufs, dc, ec⟩ u cap =
      (.bytes [], ⟨.eofR true, ws, bufs, dc, ec⟩, u') := by
  simp only [pollRead, pollReadF]
  rw [h]

/-- An I/O error while reading the length: surfaced, state kept. -/
theorem pr_len_err (sess : Sess) (ws : WriteState) (bufs : Bufs)
    (dc ec : List (List Nat)) (u u' : RSrc) (cap b0 b1 off b0' b1' off' c : Nat)
    (h : read_frame_len u b0 b1 off = (.lenErr c, b0', b1', off', u')) :
    pollRead sess ⟨.readLen b0 b1 off, ws, bufs, dc, ec⟩ u cap =
      (.rErr (.io c), ⟨.readLen b0 b1 off, ws, bufs, dc, ec⟩, u') := by
  simp only [pollRead, pollReadF]
  rw [h]

/-- A suspension while reading the length: the partial `(buf, off)` is
written back. -/
theorem pr_len_pend (sess : Sess) (ws : WriteState) (bufs : Bufs)
    (dc ec : List (List Nat)) (u u' : RSrc) (cap b0 b1 off b0' b1' off' : Nat)
    (h : read_frame_len u b0 b1 off = (.lenPending, b0', b1', off', u')) :
    pollRead sess ⟨.readLen b0 b1 off, ws, bufs, dc, ec⟩ u cap =
      (.rPending, ⟨.readLen b0' b1' off', ws, bufs, dc, ec⟩, u') := by
  simp only [pollRead, pollReadF]
  rw [h]

/-- A suspension while reading ciphertext: state kept as is. -/
theorem pr_data_pend (sess : Sess) (ws : WriteState) (bufs : Bufs)
    (dc ec : List (List Nat)) (u u' : RSrc) (cap len off : Nat)
    (h : u.poll (len - off) = (.upend, u')) :
    pollRead sess ⟨.readData len off, ws, bufs, dc, ec⟩ u cap =
      (.rPending, ⟨.readData len off, ws, bufs, dc, ec⟩, u') := by
  simp only [pollRead, pollReadF]
  rw [h]

/-- An I/O error while reading ciphertext: surfaced, state kept. -/
theorem pr_data_err (sess : Sess) (ws : WriteState) (bufs : Bufs)
    (dc ec : List (List Nat)) (u u' : RSrc) (cap len off c : Nat)
    (h : u.poll (len - off) = (.uerr c, u')) :
    pollRead sess ⟨.readData len off, ws, bufs, dc, ec⟩ u cap =
      (.rErr (.io c), ⟨.readData len off, ws, bufs, dc, ec⟩, u') := by
  simp only [pollRead, pollReadF]
  rw [h]

/-- A zero-byte delivery mid-frame: unexpected EOF. -/
theorem pr_data_eof (sess : Sess) (ws : WriteState) (bufs : Bufs)
    (dc ec : List (List Nat)) (u u' : RSrc) (cap len off : Nat)
    (h : u.poll (len - off) = (.gotBytes [], u')) :
    pollRead sess ⟨.readData len off, ws, bufs, dc, ec⟩ u cap =
      (.rErr .ueof, ⟨.eofR false, ws, bufs, dc, ec⟩, u') := by
  simp only [pollRead, pollReadF]
  rw [h]
  simp

/-- A failing decryption at frame completion (canonical whole call). -/
theorem pr_data_fail (sess : Sess) (ws : WriteState) (bufs : Bufs)
    (dc ec : List (List Nat)) (u u' : RSrc) (cap len off : Nat) (bs : List Nat)
    (h : u.poll (len - off) = (.gotBytes bs, u')) (hbs : bs ≠ [])
    (hlen : len = off + bs.length)
    (hdec : sess.dec ((spliceAt bufs.readC off bs).take len) = none) :
    pollRead sess ⟨.readData len off, ws, bufs, dc, ec⟩ u cap =
      (.rErr .invalidData, ⟨.decErr, ws, { bufs with readC := spliceAt bufs.readC off bs },
        dc ++ [(spliceAt bufs.readC off bs).take len], ec⟩, u') := by
  have e1 : pollRead sess ⟨.readData len off, ws, bufs, dc, ec⟩ u cap =
      pollReadF sess ((2 * (u.evs.length + u.data.length) + 3) + 1)
        ⟨.readData len off, ws, bufs, dc, ec⟩ u cap := rfl
  rw [e1, stepR_data_fail (2 * (u.evs.length + u.data.length) + 3) h hbs hlen hdec]

/-- A successful decryption at frame completion: the call continues
canonically in `CopyData`. -/
theorem pr_step_data_done (sess : Sess) (ws : WriteState) (bufs : Bufs)
    (dc ec : List (List Nat)) (u u' : RSrc) (cap len off : Nat) (bs plain : List Nat)
    (h : u.poll (len - off) = (.gotBytes bs, u')) (hbs : bs ≠ [])
    (hlen : len = off + bs.length)
    (hdec : sess.dec ((spliceAt bufs.readC off bs).take len) = some plain) :
    pollRead sess ⟨.readData len off, ws, bufs, dc, ec⟩ u cap =
      pollRead sess ⟨.copyData plain.length 0, ws,
        { bufs with readC := spliceAt bufs.readC off bs,
                    readP := spliceAt bufs.readP 0 plain },
        dc ++ [(spliceAt bufs.readC off bs).take len], ec⟩ u' cap := by
  have hc := RSrc_poll_consume u (len - off)
  rw [h] at hc
  dsimp only at hc
  have hstrict := hc.2 bs rfl (by simpa using hbs)
  have e1 : pollRead sess ⟨.readData len off, ws, bufs, dc, ec⟩ u cap =
      pollReadF sess ((2 * (u.evs.length + u.data.length) + 3) + 1)
        ⟨.readData len off, ws, bufs, dc, ec⟩ u cap := rfl
  rw [e1, stepR_data_done (2 * (u.evs.length + u.data.length) + 3) h hbs hlen hdec]
  exact (pollRead_bridge sess _ _ u' cap (pollReadF_nonstuck _ sess _ u' cap
    (by simp; omega))).symm

/-- Partial ciphertext progress: the call continues canonically with the
in-state offset advanced. -/
theorem pr_step_data_more (sess : Sess) (ws : WriteState) (bufs : Bufs)
    (dc ec : List (List Nat)) (u u' : RSrc) (cap len off : Nat) (bs : List Nat)
    (h : u.poll (len - off) = (.gotBytes bs, u')) (hbs : bs ≠ [])
    (hne : ¬ len = off + bs.length) :
    pollRead sess ⟨.readData len off, ws, bufs, dc, ec⟩ u cap =
      pollRead sess ⟨.readData len (off + bs.length), ws,
        { bufs with readC := spliceAt bufs.readC off bs }, dc, ec⟩ u' cap := by
  have hc := RSrc_poll_consume u (len - off)
  rw [h] at hc
  dsimp only at hc
  have hstrict := hc.2 bs rfl (by simpa using hbs)
  have e1 : pollRead sess ⟨.readData len off, ws, bufs, dc, ec⟩ u cap =
      pollReadF sess ((2 * (u.evs.length + u.data.length) + 3) + 1)
        ⟨.readData len off, ws, bufs, dc, ec⟩ u cap := rfl
  rw [e1, stepR_data_more (2 * (u.evs.length + u.data.length) + 3) h hbs hne]
  exact (pollRead_bridge sess _ _ u' cap (pollReadF_nonstuck _ sess _ u' cap
    (by simp; omega))).symm

/-- The canonical `CopyData` call (identical to the fuel-level step). -/
theorem pr_copy (sess : Sess) (ws : WriteState) (bufs : Bufs)
    (dc ec : List (List Nat)) (u : RSrc) (cap len off : Nat) :
    pollRead sess ⟨.copyData len off, ws, bufs, dc, ec⟩ u cap =
      (.bytes ((bufs.readP.drop off).take (min (len - off) cap)),
       ⟨if len = off + min (len - off) cap then .readLen 0 0 0
        else .copyData len (off + min (len - off) cap), ws, bufs, dc, ec⟩, u) := by
  have e1 : pollRead sess ⟨.copyData len off, ws, bufs, dc, ec⟩ u cap =
      pollReadF sess ((2 * (u.evs.length + u.data.length) + 3) + 1)
        ⟨.copyData len off, ws, bufs, dc, ec⟩ u cap := rfl
  rw [e1, stepR_copy (2 * (u.evs.length + u.data.length) + 3)]

/-- Script surgery for the canonical `poll_read`: against any script
`pre ++ post` the call either finishes (or suspends) strictly within
`pre` — with outcome, adapter state and leftover stream independent of
`post` — or it consumes all of `pre`, suspends exactly on a `pend` placed
after `pre`, and re-invoking on the written-back adapter state reaches the
same outcome, with the same leftover stream, as the run without that
suspension.  (Only the outcome and the stream coincide: after an
I/O error the two runs persist different `ReadLen` write-backs, the
original entry state versus the resumed one.) -/
theorem pollRead_split (sess : Sess) (dflt : UEv) (cap : Nat) :
    ∀ (N : Nat) (pre : List UEv) (data : List Nat) (a : NoiseOutput),
      2 * (pre.length + data.length) + (if a.rs = .init then 1 else 0) < N →
      (∃ r a' data' suff, suff.length ≤ pre.length ∧ data'.length ≤ data.length ∧
        (∀ post, pollRead sess a ⟨data, pre ++ post, dflt⟩ cap =
          (r, a', ⟨data', suff ++ post, dflt⟩))) ∨
      (∃ a' data', data'.length ≤ data.length ∧
        pollRead sess a ⟨data, pre ++ [.pend], dflt⟩ cap =
          (.rPending, a', ⟨data', [], dflt⟩) ∧
        (∀ post,
          (pollRead sess a ⟨data, pre ++ post, dflt⟩ cap).1 =
            (pollRead sess a' ⟨data', post, dflt⟩ cap).1 ∧
          (pollRead sess a ⟨data, pre ++ post, dflt⟩ cap).2.2 =
            (pollRead sess a' ⟨data', post, dflt⟩ cap).2.2)) := by
  intro N
  induction N with
  | zero =>
    intro pre data a h
    omega
  | succ N ih =>
    intro pre data a hN
    rcases a with ⟨rs, ws, bufs, dc, ec⟩
    dsimp only at hN
    cases rs with
    | init =>
      simp only [if_pos rfl, if_true] at hN
      rcases ih pre data ⟨.readLen 0 0 0, ws, bufs, dc, ec⟩ (by simp; omega) with
        ⟨r, a', data', suff, h1, h2, h3⟩ | ⟨a', data', h1, h2, h3⟩
      · exact Or.inl ⟨r, a', data', suff, h1, h2, fun post =>
          (pr_step_init sess ws bufs dc ec _ cap).trans (h3 post)⟩
      · refine Or.inr ⟨a', data', h1,
          (pr_step_init sess ws bufs dc ec _ cap).trans h2, fun post => ?_⟩
        rw [pr_step_init sess ws bufs dc ec _ cap]
        exact h3 post
    | readLen b0 b1 off =>
      simp at hN
      rcases read_frame_len_split pre data dflt b0 b1 off with
        ⟨q, b0', b1', off', data', suff, hsl, hdl, hstrict, heq⟩ |
        ⟨b0', b1', off', data', hdl, h1, h2⟩
      · cases q with
        | got n =>
          have hstr := hstrict n rfl
          by_cases h0 : n = 0
          · subst h0
            rcases ih suff data' ⟨.init, ws, bufs, dc, ec⟩ (by simp; omega) with
              ⟨r, a', data'', suff', k1, k2, k3⟩ | ⟨a', data'', k1, k2, k3⟩
            · exact Or.inl ⟨r, a', data'', suff', k1.trans hsl, k2.trans hdl, fun post =>
                (pr_step_len_zero sess ws bufs dc ec _ _ cap b0 b1 off b0' b1' off'
                  (heq post)).trans (k3 post)⟩
            · refine Or.inr ⟨a', data'', k1.trans hdl,
                (pr_step_len_zero sess ws bufs dc ec _ _ cap b0 b1 off b0' b1' off'
                  (heq [.pend])).trans k2, fun post => ?_⟩
              rw [pr_step_len_zero sess ws bufs dc ec _ _ cap b0 b1 off b0' b1' off'
                (heq post)]
              exact k3 post
          · rcases ih suff data' ⟨.readData n 0, ws, bufs, dc, ec⟩ (by simp; omega) with
              ⟨r, a', data'', suff', k1, k2, k3⟩ | ⟨a', data'', k1, k2, k3⟩
            · exact Or.inl ⟨r, a', data'', suff', k1.trans hsl, k2.trans hdl, fun post =>
                (pr_step_len_got sess ws bufs dc ec _ _ cap b0 b1 off n b0' b1' off'
                  (heq post) h0).trans (k3 post)⟩
            · refine Or.inr ⟨a', data'', k1.trans hdl,
                (pr_step_len_got sess ws bufs dc ec _ _ cap b0 b1 off n b0' b1' off'
                  (heq [.pend]) h0).trans k2, fun post => ?_⟩
              rw [pr_step_len_got sess ws bufs dc ec _ _ cap b0 b1 off n b0' b1' off'
                (heq post) h0]
              exact k3 post
        | eofLen =>
          exact Or.inl ⟨.bytes [], ⟨.eofR true, ws, bufs, dc, ec⟩, data', suff, hsl, hdl,
            fun post => pr_len_eof sess ws bufs dc ec _ _ cap b0 b1 off b0' b1' off'
              (heq post)⟩
        | lenErr c =>
          exact Or.inl ⟨.rErr (.io c), ⟨.readLen b0 b1 off, ws, bufs, dc, ec⟩, data', suff,
            hsl, hdl, fun post => pr_len_err sess ws bufs dc ec _ _ cap b0 b1 off b0' b1'
              off' c (heq post)⟩
        | lenPending =>
          exact Or.inl ⟨.rPending, ⟨.readLen b0' b1' off', ws, bufs, dc, ec⟩, data', suff,
            hsl, hdl, fun post => pr_len_pend sess ws bufs dc ec _ _ cap b0 b1 off b0' b1'
              off' (heq post)⟩
        | lenStuck =>
          have hns := read_frame_len_nonstuck ⟨data, pre ++ [], dflt⟩ b0 b1 off
          rw [heq []] at hns
          exact absurd rfl hns
      · refine Or.inr ⟨⟨.readLen b0' b1' off', ws, bufs, dc, ec⟩, data', hdl,
          pr_len_pend sess ws bufs dc ec _ _ cap b0 b1 off b0' b1' off' h1, ?_⟩
        intro post
        rcases hq : read_frame_len ⟨data', post, dflt⟩ b0' b1' off' with
          ⟨q₂, b0₂, b1₂, off₂, u₂⟩
        have hL := (h2 post).trans hq
        cases q₂ with
        | got n =>
          by_cases h0 : n = 0
          · subst h0
            rw [pr_step_len_zero sess ws bufs dc ec _ _ cap b0 b1 off b0₂ b1₂ off₂ hL,
              pr_step_len_zero sess ws bufs dc ec _ _ cap b0' b1' off' b0₂ b1₂ off₂ hq]
            exact ⟨rfl, rfl⟩
          · rw [pr_step_len_got sess ws bufs dc ec _ _ cap b0 b1 off n b0₂ b1₂ off₂ hL h0,
              pr_step_len_got sess ws bufs dc ec _ _ cap b0' b1' off' n b0₂ b1₂ off₂ hq h0]
            exact ⟨rfl, rfl⟩
        | eofLen =>
          rw [pr_len_eof sess ws bufs dc ec _ _ cap b0 b1 off b0₂ b1₂ off₂ hL,
            pr_len_eof sess ws bufs dc ec _ _ cap b0' b1' off' b0₂ b1₂ off₂ hq]
          exact ⟨rfl, rfl⟩
        | lenErr c =>
          rw [pr_len_err sess ws bufs dc ec _ _ cap b0 b1 off b0₂ b1₂ off₂ c hL,
            pr_len_err sess ws bufs dc ec _ _ cap b0' b1' off' b0₂ b1₂ off₂ c hq]
          exact ⟨rfl, rfl⟩
        | lenPending =>
          rw [pr_len_pend sess ws bufs dc ec _ _ cap b0 b1 off b0₂ b1₂ off₂ hL,
            pr_len_pend sess ws bufs dc ec _ _ cap b0' b1' off' b0₂ b1₂ off₂ hq]
          exact ⟨rfl, rfl⟩
        | lenStuck =>
          have hns := read_frame_len_nonstuck ⟨data', post, dflt⟩ b0' b1' off'
          rw [hq] at hns
          exact absurd rfl hns
    | readData len off =>
      rcases pre with _ | ⟨e, pre⟩
      · refine Or.inr ⟨⟨.readData len off, ws, bufs, dc, ec⟩, data, le_refl _, ?_, ?_⟩
        · rw [List.nil_append]
          exact pr_data_pend sess ws bufs dc ec _ _ cap len off rfl
        · intro post
          rw [List.nil_append]
          exact ⟨rfl, rfl⟩
      · simp only [List.length_cons] at hN
        simp at hN
        rcases e with n | c | _
        · have hbsplit : ∀ post : List UEv,
              RSrc.poll ⟨data, UEv.ready n :: (pre ++ post), dflt⟩ (len - off) =
                (.gotBytes (data.take (min n (len - off))),
                 ⟨data.drop (min n (len - off)), pre ++ post, dflt⟩) := fun _ => rfl
          by_cases hb : (data.take (min n (len - off))).length = 0
          · have hbe : data.take (min n (len - off)) = [] := List.length_eq_zero.mp hb
            refine Or.inl ⟨.rErr .ueof, ⟨.eofR false, ws, bufs, dc, ec⟩,
              data.drop (min n (len - off)), pre, by simp,
              by simp [List.length_drop], fun post => ?_⟩
            have hpoll := hbsplit post
            rw [hbe] at hpoll
            exact pr_data_eof sess ws bufs dc ec _ _ cap len off hpoll
          · have hbs : data.take (min n (len - off)) ≠ [] := by
              intro hx
              rw [hx] at hb
              exact hb rfl
            by_cases h2 : len = off + (data.take (min n (len - off))).length
            · rcases hd : sess.dec
                ((spliceAt bufs.readC off (data.take (min n (len - off)))).take len)
                with _ | plain
              · refine Or.inl ⟨.rErr .invalidData,
                  ⟨.decErr, ws,
                    { bufs with readC := spliceAt bufs.readC off (data.take (min n (len - off))) },
                    dc ++ [(spliceAt bufs.readC off (data.take (min n (len - off)))).take len],
                    ec⟩,
                  data.drop (min n (len - off)), pre, by simp,
                  by simp [List.length_drop], fun post => ?_⟩
                exact pr_data_fail sess ws bufs dc ec _ _ cap len off _ (hbsplit post)
                  hbs h2 hd
              · rcases ih pre (data.drop (min n (len - off)))
                  ⟨.copyData plain.length 0, ws,
                    { bufs with
                      readC := spliceAt bufs.readC off (data.take (min n (len - off))),
                      readP := spliceAt bufs.readP 0 plain },
                    dc ++ [(spliceAt bufs.readC off (data.take (min n (len - off)))).take len],
                    ec⟩
                  (by simp [List.length_drop]; try omega) with
                  ⟨r, a', data'', suff', k1, k2, k3⟩ | ⟨a', data'', k1, k2, k3⟩
                · refine Or.inl ⟨r, a', data'', suff', by simp; try omega,
                    k2.trans (by simp [List.length_drop]; try omega), fun post => ?_⟩
                  exact (pr_step_data_done sess ws bufs dc ec _ _ cap len off _ plain
                    (hbsplit post) hbs h2 hd).trans (k3 post)
                · refine Or.inr ⟨a', data'',
                    k1.trans (by simp [List.length_drop]; try omega),
                    ?_, fun post => ?_⟩
                  · exact (pr_step_data_done sess ws bufs dc ec _ _ cap len off _ plain
                      (hbsplit [.pend]) hbs h2 hd).trans k2
                  · have hstep := pr_step_data_done sess ws bufs dc ec _ _ cap len off _
                      plain (hbsplit post) hbs h2 hd
                    exact ⟨(congrArg Prod.fst hstep).trans (k3 post).1,
                      (congrArg (fun p => p.2.2) hstep).trans (k3 post).2⟩
            · rcases ih pre (data.drop (min n (len - off)))
                ⟨.readData len (off + (data.take (min n (len - off))).length), ws,
                  { bufs with readC := spliceAt bufs.readC off (data.take (min n (len - off))) },
                  dc, ec⟩
                (by simp [List.length_drop]; try omega) with
                ⟨r, a', data'', suff', k1, k2, k3⟩ | ⟨a', data'', k1, k2, k3⟩
              · refine Or.inl ⟨r, a', data'', suff', by simp; try omega,
                  k2.trans (by simp [List.length_drop]; try omega), fun post => ?_⟩
                exact (pr_step_data_more sess ws bufs dc ec _ _ cap len off _
                  (hbsplit post) hbs h2).trans (k3 post)
              · refine Or.inr ⟨a', data'',
                  k1.trans (by simp [List.length_drop]; try omega),
                  ?_, fun post => ?_⟩
                · exact (pr_step_data_more sess ws bufs dc ec _ _ cap len off _
                    (hbsplit [.pend]) hbs h2).trans k2
                · have hstep := pr_step_data_more sess ws bufs dc ec _ _ cap len off _
                    (hbsplit post) hbs h2
                  exact ⟨(congrArg Prod.fst hstep).trans (k3 post).1,
                    (congrArg (fun p => p.2.2) hstep).trans (k3 post).2⟩
        · refine Or.inl ⟨.rErr (.io c), ⟨.readData len off, ws, bufs, dc, ec⟩, data, pre,
            by simp, le_refl _, fun post => ?_⟩
          exact pr_data_err sess ws bufs dc ec _ _ cap len off c rfl
        · refine Or.inl ⟨.rPending, ⟨.readData len off, ws, bufs, dc, ec⟩, data, pre,
            by simp, le_refl _, fun post => ?_⟩
          exact pr_data_pend sess ws bufs dc ec _ _ cap len off rfl
    | copyData len off =>
      exact Or.inl ⟨.bytes ((bufs.readP.drop off).take (min (len - off) cap)),
        ⟨if len = off + min (len - off) cap then .readLen 0 0 0
         else .copyData len (off + min (len - off) cap), ws, bufs, dc, ec⟩, data, pre,
        le_refl _, le_refl _, fun post => pr_copy sess ws bufs dc ec _ cap len off⟩
    | eofR clean =>
      cases clean
      · exact Or.inl ⟨.rErr .ueof, ⟨.eofR false, ws, bufs, dc, ec⟩, data, pre,
          le_refl _, le_refl _, fun post => rfl⟩
      · exact Or.inl ⟨.bytes [], ⟨.eofR true, ws, bufs, dc, ec⟩, data, pre,
          le_refl _, le_refl _, fun post => rfl⟩
    | decErr =>
      exact Or.inl ⟨.rErr .invalidData, ⟨.decErr, ws, bufs, dc, ec⟩, data, pre,
        le_refl _, le_refl _, fun post => rfl⟩

/-- Polling the underlying sink preserves its default event. -/
theorem WSnk_poll_dflt (s : WSnk) (bs : List Nat) : ((s.poll bs).2).dflt = s.dflt := by
  rcases s with ⟨sunk, evs, dflt, fl, cl⟩
  rcases evs with _ | ⟨e, rest⟩
  · rcases dflt with n | c | _ <;> rfl
  · rcases e with n | c | _ <;> rfl

/-- Polling the underlying sink never grows the script. -/
theorem WSnk_poll_evs (s : WSnk) (bs : List Nat) :
    ((s.poll bs).2).evs.length ≤ s.evs.length := by
  rcases s with ⟨sunk, evs, dflt, fl, cl⟩
  rcases evs with _ | ⟨e, rest⟩
  · rcases dflt with n | c | _ <;> simp [WSnk.poll]
  · rcases e with n | c | _ <;> simp [WSnk.poll]

/-- The sink never reports more accepted bytes than offered. -/
theorem WSnk_poll_wrote_le (s : WSnk) (bs : List Nat) :
    ∀ m, (s.poll bs).1 = .wrote m → m ≤ bs.length := by
  rcases s with ⟨sunk, evs, dflt, fl, cl⟩
  rcases evs with _ | ⟨e, rest⟩
  · rcases dflt with n | c | _ <;> intro m hm <;> simp [WSnk.poll] at hm <;> omega
  · rcases e with n | c | _ <;> intro m hm <;> simp [WSnk.poll] at hm <;> omega

/-- The length-writing loop preserves the sink's default event and ghost
counters and never grows the script. -/
theorem writeFrameLenF_consume : ∀ (g : Nat) (s : WSnk) (b0 b1 off : Nat),
    ((writeFrameLenF g s b0 b1 off).2.2).evs.length ≤ s.evs.length ∧
    ((writeFrameLenF g s b0 b1 off).2.2).dflt = s.dflt ∧
    ((writeFrameLenF g s b0 b1 off).2.2).flushed = s.flushed ∧
    ((writeFrameLenF g s b0 b1 off).2.2).closed = s.closed := by
  intro g
  induction g with
  | zero =>
    intro s b0 b1 off
    exact ⟨le_refl _, rfl, rfl, rfl⟩
  | succ g ih =>
    intro s b0 b1 off
    have hd := WSnk_poll_dflt s (([b0, b1].drop off).take (2 - off))
    have he := WSnk_poll_evs s (([b0, b1].drop off).take (2 - off))
    have hf := WSnk_poll_flushed s (([b0, b1].drop off).take (2 - off))
    have hc := WSnk_poll_closed s (([b0, b1].drop off).take (2 - off))
    unfold writeFrameLenF
    rcases hp : s.poll (([b0, b1].drop off).take (2 - off)) with ⟨r, s'⟩
    rw [hp] at hd he hf hc
    dsimp only at hd he hf hc
    cases r with
    | upend => exact ⟨he, hd, hf, hc⟩
    | uerr c => exact ⟨he, hd, hf, hc⟩
    | wrote n =>
      by_cases h0 : n = 0
      · simp only [if_pos h0]
        exact ⟨he, hd, hf, hc⟩
      · simp only [if_neg h0]
        by_cases h2 : off + n = 2
        · simp only [if_pos h2]
          exact ⟨he, hd, hf, hc⟩
        · simp only [if_neg h2]
          obtain ⟨ih1, ih2, ih3, ih4⟩ := ih s' b0 b1 (off + n)
          exact ⟨ih1.trans he, ih2.trans hd, ih3.trans hf, ih4.trans hc⟩

/-- The length-writing loop never runs out of fuel above its threshold. -/
theorem writeFrameLenF_nonstuck : ∀ (g : Nat) (s : WSnk) (b0 b1 off : Nat),
    s.evs.length + (2 - off) + 1 ≤ g →
    (writeFrameLenF g s b0 b1 off).1 ≠ .wlStuck := by
  intro g
  induction g with
  | zero =>
    intro s b0 b1 off h
    omega
  | succ g ih =>
    intro s b0 b1 off h
    have he := WSnk_poll_evs s (([b0, b1].drop off).take (2 - off))
    have hwle := WSnk_poll_wrote_le s (([b0, b1].drop off).take (2 - off))
    have hbl : (([b0, b1].drop off).take (2 - off)).length ≤ 2 - off := by
      rw [List.length_take]
      omega
    unfold writeFrameLenF
    rcases hp : s.poll (([b0, b1].drop off).take (2 - off)) with ⟨r, s'⟩
    rw [hp] at he hwle
    dsimp only at he hwle
    cases r with
    | upend => simp
    | uerr c => simp
    | wrote n =>
      have hn := hwle n rfl
      by_cases h0 : n = 0
      · simp only [if_pos h0]
        simp
      · simp only [if_neg h0]
        by_cases h2 : off + n = 2
        · simp only [if_pos h2]
          simp
        · simp only [if_neg h2]
          exact ih s' b0 b1 (off + n) (by omega)

/-- The canonical `write_frame_len` never reports fuel exhaustion. -/
theorem write_frame_len_nonstuck (s : WSnk) (b0 b1 off : Nat) :
    (write_frame_len s b0 b1 off).1 ≠ .wlStuck :=
  writeFrameLenF_nonstuck _ s b0 b1 off (by omega)

/-- Any non-stuck fuel-bounded length write agrees with the canonical one. -/
theorem write_frame_len_bridge (g : Nat) (s : WSnk) (b0 b1 off : Nat)
    (h : (writeFrameLenF g s b0 b1 off).1 ≠ .wlStuck) :
    write_frame_len s b0 b1 off = writeFrameLenF g s b0 b1 off := by
  have h1 := writeFrameLenF_mono g (max g (s.evs.length + 4)) s b0 b1 off h (le_max_left _ _)
  have h2 := writeFrameLenF_mono (s.evs.length + 4) (max g (s.evs.length + 4)) s b0 b1 off
    (write_frame_len_nonstuck s b0 b1 off) (le_max_right _ _)
  exact h2.symm.trans h1

/-- One canonical length-write iteration hitting a scripted suspension. -/
theorem wfl_step_pend (sunk : List Nat) (tail : List UEv) (dflt : UEv) (fl cl : Nat)
    (b0 b1 off : Nat) :
    write_frame_len ⟨sunk, .pend :: tail, dflt, fl, cl⟩ b0 b1 off =
      (.wlPending, off, ⟨sunk, tail, dflt, fl, cl⟩) := rfl

/-- One canonical length-write iteration hitting a scripted I/O error. -/
theorem wfl_step_err (sunk : List Nat) (tail : List UEv) (dflt : UEv) (fl cl : Nat)
    (b0 b1 off c : Nat) :
    write_frame_len ⟨sunk, .ioErr c :: tail, dflt, fl, cl⟩ b0 b1 off =
      (.wlErr c, off, ⟨sunk, tail, dflt, fl, cl⟩) := rfl

/-- One canonical length-write iteration accepted by the sink. -/
theorem wfl_step_ready (sunk : List Nat) (n : Nat) (tail : List UEv) (dflt : UEv)
    (fl cl : Nat) (b0 b1 off : Nat) :
    write_frame_len ⟨sunk, .ready n :: tail, dflt, fl, cl⟩ b0 b1 off =
      (let bs := (([b0, b1].drop off).take (2 - off))
       let m := min n bs.length
       if m = 0 then (.wlEof, off, ⟨sunk ++ bs.take m, tail, dflt, fl, cl⟩)
       else if off + m = 2 then (.wlDone, 2, ⟨sunk ++ bs.take m, tail, dflt, fl, cl⟩)
       else write_frame_len ⟨sunk ++ bs.take m, tail, dflt, fl, cl⟩ b0 b1 (off + m)) := rfl

/-- Script surgery for the canonical `write_frame_len`: the run either
finishes (or suspends) strictly within `pre`, independently of what
follows, or consumes all of `pre` and suspends exactly on a `pend` placed
after `pre`, with the written-back offset resuming the loop exactly where
the uninterrupted run would continue. -/
theorem write_frame_len_split : ∀ (pre : List UEv) (sunk : List Nat) (dflt : UEv)
    (fl cl : Nat) (b0 b1 off : Nat),
    (∃ q off' sunk' suff, suff.length ≤ pre.length ∧
      (∀ post, write_frame_len ⟨sunk, pre ++ post, dflt, fl, cl⟩ b0 b1 off =
        (q, off', ⟨sunk', suff ++ post, dflt, fl, cl⟩))) ∨
    (∃ off' sunk', write_frame_len ⟨sunk, pre ++ [.pend], dflt, fl, cl⟩ b0 b1 off =
        (.wlPending, off', ⟨sunk', [], dflt, fl, cl⟩) ∧
      (∀ post, write_frame_len ⟨sunk, pre ++ post, dflt, fl, cl⟩ b0 b1 off =
        write_frame_len ⟨sunk', post, dflt, fl, cl⟩ b0 b1 off')) := by
  intro pre
  induction pre with
  | nil =>
    intro sunk dflt fl cl b0 b1 off
    refine Or.inr ⟨off, sunk, ?_, fun post => ?_⟩
    · rw [List.nil_append]
      exact wfl_step_pend sunk [] dflt fl cl b0 b1 off
    · rw [List.nil_append]
  | cons e pre ih =>
    intro sunk dflt fl cl b0 b1 off
    rcases e with n | c | _
    · by_cases h0 : min n ((([b0, b1].drop off).take (2 - off))).length = 0
      · refine Or.inl ⟨.wlEof, off,
          sunk ++ (([b0, b1].drop off).take (2 - off)).take
            (min n ((([b0, b1].drop off).take (2 - off))).length), pre, by simp,
          fun post => ?_⟩
        rw [List.cons_append, wfl_step_ready sunk n (pre ++ post) dflt fl cl b0 b1 off]
        dsimp only
        rw [if_pos h0]
      · by_cases h2 : off + min n ((([b0, b1].drop off).take (2 - off))).length = 2
        · refine Or.inl ⟨.wlDone, 2,
            sunk ++ (([b0, b1].drop off).take (2 - off)).take
              (min n ((([b0, b1].drop off).take (2 - off))).length), pre, by simp,
            fun post => ?_⟩
          rw [List.cons_append, wfl_step_ready sunk n (pre ++ post) dflt fl cl b0 b1 off]
          dsimp only
          rw [if_neg h0, if_pos h2]
        · rcases ih (sunk ++ (([b0, b1].drop off).take (2 - off)).take
              (min n ((([b0, b1].drop off).take (2 - off))).length)) dflt fl cl b0 b1
              (off + min n ((([b0, b1].drop off).take (2 - off))).length) with
            ⟨q, off', sunk', suff, hsl, heq⟩ | ⟨off', sunk', h1, h2r⟩
          · refine Or.inl ⟨q, off', sunk', suff, by simp; omega, fun post => ?_⟩
            rw [List.cons_append, wfl_step_ready sunk n (pre ++ post) dflt fl cl b0 b1 off]
            dsimp only
            rw [if_neg h0, if_neg h2]
            exact heq post
          · refine Or.inr ⟨off', sunk', ?_, fun post => ?_⟩
            · rw [List.cons_append, wfl_step_ready sunk n (pre ++ [UEv.pend]) dflt fl cl b0 b1 off]
              dsimp only
              rw [if_neg h0, if_neg h2]
              exact h1
            · rw [List.cons_append, wfl_step_ready sunk n (pre ++ post) dflt fl cl b0 b1 off]
              dsimp only
              rw [if_neg h0, if_neg h2]
              exact h2r post
    · refine Or.inl ⟨.wlErr c, off, sunk, pre, by simp, fun post => ?_⟩
      rw [List.cons_append]
      exact wfl_step_err sunk (pre ++ post) dflt fl cl b0 b1 off c
    · refine Or.inl ⟨.wlPending, off, sunk, pre, by simp, fun post => ?_⟩
      rw [List.cons_append]
      exact wfl_step_pend sunk (pre ++ post) dflt fl cl b0 b1 off

/-- Consumption facts for the canonical `write_frame_len`. -/
theorem write_frame_len_consume (s : WSnk) (b0 b1 off : Nat) :
    ((write_frame_len s b0 b1 off).2.2).evs.length ≤ s.evs.length ∧
    ((write_frame_len s b0 b1 off).2.2).dflt = s.dflt ∧
    ((write_frame_len s b0 b1 off).2.2).flushed = s.flushed ∧
    ((write_frame_len s b0 b1 off).2.2).closed = s.closed :=
  writeFrameLenF_consume _ s b0 b1 off

/-- The `BufferData` arm returns within one iteration whatever the fuel. -/
theorem pollWriteF_buffer_nonstuck (sess : Sess) (g : Nat) (rs : ReadState) (bufs : Bufs)
    (dc ec : List (List Nat)) (s : WSnk) (src : List Nat) (off : Nat) (hg : 1 ≤ g) :
    (pollWriteF sess g ⟨rs, .bufferData off, bufs, dc, ec⟩ s src).1 ≠ .wStuck := by
  obtain ⟨k, rfl⟩ : ∃ k, g = k + 1 := ⟨g - 1, by omega⟩
  simp only [pollWriteF]
  by_cases hfull : off + min (MAX_WRITE_BUF_LEN - off) src.length = MAX_WRITE_BUF_LEN
  · simp only [if_pos hfull]
    rcases sess.enc (spliceAt bufs.wplain off
      (src.take (min (MAX_WRITE_BUF_LEN - off) src.length))) with _ | c
    · simp
    · simp
  · simp only [if_neg hfull]
    simp

/-- The write loop never runs out of fuel above its per-state threshold. -/
theorem pollWriteF_nonstuck : ∀ (g : Nat) (sess : Sess) (a : NoiseOutput) (s : WSnk)
    (src : List Nat), s.evs.length + wSlack a.ws + 4 ≤ g →
    (pollWriteF sess g a s src).1 ≠ .wStuck := by
  intro g
  induction g with
  | zero =>
    intro sess a s src h
    omega
  | succ g ih =>
    intro sess a s src h
    rcases a with ⟨rs, ws, bufs, dc, ec⟩
    dsimp only at h
    cases ws with
    | init =>
      rw [stepW_init g]
      exact pollWriteF_buffer_nonstuck sess g rs bufs dc ec s src 0 (by omega)
    | bufferData off =>
      exact pollWriteF_buffer_nonstuck sess (g + 1) rs bufs dc ec s src off (by omega)
    | writeLen len b0 b1 off =>
      have hw : wSlack (.writeLen len b0 b1 off) = len + 4 := rfl
      rw [hw] at h
      obtain ⟨hce, hcd, hcf, hcc⟩ := write_frame_len_consume s b0 b1 off
      simp only [pollWriteF]
      rcases hr : write_frame_len s b0 b1 off with ⟨r, off', s'⟩
      rw [hr] at hce
      dsimp only at hce
      cases r with
      | wlDone =>
        refine ih sess _ s' src ?_
        have hw2 : wSlack (.writeData len 0) = len - 0 + 3 := rfl
        dsimp only
        rw [hw2]
        omega
      | wlEof => simp
      | wlErr c => simp
      | wlPending => simp
      | wlStuck =>
        have hns := write_frame_len_nonstuck s b0 b1 off
        rw [hr] at hns
        exact absurd rfl hns
    | writeData len off =>
      have hw : wSlack (.writeData len off) = len - off + 3 := rfl
      rw [hw] at h
      have he := WSnk_poll_evs s ((bufs.wcipher.drop off).take (len - off))
      have hwle := WSnk_poll_wrote_le s ((bufs.wcipher.drop off).take (len - off))
      have hble : ((bufs.wcipher.drop off).take (len - off)).length ≤ len - off := by
        rw [List.length_take]
        omega
      simp only [pollWriteF]
      rcases hp : s.poll ((bufs.wcipher.drop off).take (len - off)) with ⟨r, s'⟩
      rw [hp] at he hwle
      dsimp only at he hwle
      cases r with
      | upend => simp
      | uerr c => simp
      | wrote n =>
        have hnle := hwle n rfl
        by_cases h0 : n = 0
        · simp only [if_pos h0]
          simp
        · simp only [if_neg h0]
          by_cases h2 : len = off + n
          · simp only [if_pos h2]
            refine ih sess _ s' src ?_
            have hw2 : wSlack WriteState.init = 3 := rfl
            dsimp only
            rw [hw2]
            omega
          · simp only [if_neg h2]
            refine ih sess _ s' src ?_
            have hw2 : wSlack (.writeData len (off + n)) = len - (off + n) + 3 := rfl
            dsimp only
            rw [hw2]
            omega
    | eofW => simp [pollWriteF]
    | encErr => simp [pollWriteF]

/-- The canonical `poll_write` never reports fuel exhaustion. -/
theorem pollWrite_nonstuck (sess : Sess) (a : NoiseOutput) (s : WSnk) (src : List Nat) :
    (pollWrite sess a s src).1 ≠ .wStuck :=
  pollWriteF_nonstuck _ sess a s src (by omega)

/-- Any non-stuck fuel-bounded write agrees with the canonical
`poll_write`. -/
theorem pollWrite_bridge (sess : Sess) (g : Nat) (a : NoiseOutput) (s : WSnk)
    (src : List Nat) (h : (pollWriteF sess g a s src).1 ≠ .wStuck) :
    pollWrite sess a s src = pollWriteF sess g a s src := by
  have h1 := pollWriteF_mono g (max g (s.evs.length + wSlack a.ws + 4)) sess a s src h
    (le_max_left _ _)
  have h2 := pollWriteF_mono (s.evs.length + wSlack a.ws + 4)
    (max g (s.evs.length + wSlack a.ws + 4)) sess a s src
    (pollWrite_nonstuck sess a s src) (le_max_right _ _)
  exact h2.symm.trans h1

/-- The `BufferData` arm: outcome and final adapter state are independent
of the underlying sink, which is returned untouched. -/
theorem pw_buffer (sess : Sess) (rs : ReadState) (bufs : Bufs) (dc ec : List (List Nat))
    (src : List Nat) (off : Nat) :
    ∃ r a', ∀ s, pollWrite sess ⟨rs, .bufferData off, bufs, dc, ec⟩ s src = (r, a', s) := by
  by_cases hfull : off + min (MAX_WRITE_BUF_LEN - off) src.length = MAX_WRITE_BUF_LEN
  · rcases henc : sess.enc (spliceAt bufs.wplain off
      (src.take (min (MAX_WRITE_BUF_LEN - off) src.length))) with _ | c
    · refine ⟨.wErr .invalidData,
        ⟨rs, .encErr,
         { bufs with wplain :=
             spliceAt bufs.wplain off (src.take (min (MAX_WRITE_BUF_LEN - off) src.length)) },
         dc, ec ++ [spliceAt bufs.wplain off
           (src.take (min (MAX_WRITE_BUF_LEN - off) src.length))]⟩, fun s => ?_⟩
      rw [pollWrite_bridge sess 1 _ s src (by rw [stepW_buffer_encfail 0 hfull henc]; simp),
        stepW_buffer_encfail 0 hfull henc]
    · refine ⟨.accepted (min (MAX_WRITE_BUF_LEN - off) src.length),
        ⟨rs, .writeLen c.length (c.length / 256 % 256) (c.length % 256) 0,
         { bufs with
           wplain :=
             spliceAt bufs.wplain off (src.take (min (MAX_WRITE_BUF_LEN - off) src.length)),
           wcipher := spliceAt bufs.wcipher 0 c },
         dc, ec ++ [spliceAt bufs.wplain off
           (src.take (min (MAX_WRITE_BUF_LEN - off) src.length))]⟩, fun s => ?_⟩
      rw [pollWrite_bridge sess 1 _ s src (by rw [stepW_buffer_fill 0 hfull henc]; simp),
        stepW_buffer_fill 0 hfull henc]
  · refine ⟨.accepted (min (MAX_WRITE_BUF_LEN - off) src.length),
      ⟨rs, .bufferData (off + min (MAX_WRITE_BUF_LEN - off) src.length),
       { bufs with wplain :=
           spliceAt bufs.wplain off (src.take (min (MAX_WRITE_BUF_LEN - off) src.length)) },
       dc, ec⟩, fun s => ?_⟩
    rw [pollWrite_bridge sess 1 _ s src (by rw [stepW_buffer_part 0 hfull]; simp),
      stepW_buffer_part 0 hfull]

/-- Entering `poll_write` in `Init` behaves as entering in `BufferData 0`. -/
theorem pw_step_init (sess : Sess) (rs : ReadState) (bufs : Bufs) (dc ec : List (List Nat))
    (s : WSnk) (src : List Nat) :
    pollWrite sess ⟨rs, .init, bufs, dc, ec⟩ s src =
      pollWrite sess ⟨rs, .bufferData 0, bufs, dc, ec⟩ s src := by
  have e1 : pollWrite sess ⟨rs, .init, bufs, dc, ec⟩ s src =
      pollWriteF sess ((s.evs.length + 6) + 1) ⟨rs, .init, bufs, dc, ec⟩ s src := rfl
  rw [e1, stepW_init (s.evs.length + 6)]
  exact (pollWrite_bridge sess _ _ s src
    (pollWriteF_buffer_nonstuck sess _ rs bufs dc ec s src 0 (by omega))).symm

/-- A completed length prefix: the call continues canonically in
`WriteData`. -/
theorem pw_step_len_done (sess : Sess) (rs : ReadState) (bufs : Bufs)
    (dc ec : List (List Nat)) (s s' : WSnk) (src : List Nat) (len b0 b1 off off' : Nat)
    (h : write_frame_len s b0 b1 off = (.wlDone, off', s')) :
    pollWrite sess ⟨rs, .writeLen len b0 b1 off, bufs, dc, ec⟩ s src =
      pollWrite sess ⟨rs, .writeData len 0, bufs, dc, ec⟩ s' src := by
  obtain ⟨hce, hcd, hcf, hcc⟩ := write_frame_len_consume s b0 b1 off
  rw [h] at hce
  dsimp only at hce
  have e1 : pollWrite sess ⟨rs, .writeLen len b0 b1 off, bufs, dc, ec⟩ s src =
      pollWriteF sess ((s.evs.length + (len + 4) + 3) + 1)
        ⟨rs, .writeLen len b0 b1 off, bufs, dc, ec⟩ s src := rfl
  rw [e1, stepW_len_done (s.evs.length + (len + 4) + 3) h]
  refine (pollWrite_bridge sess _ _ s' src (pollWriteF_nonstuck _ sess _ s' src ?_)).symm
  have hw : wSlack (.writeData len 0) = len - 0 + 3 := rfl
  dsimp only
  rw [hw]
  omega

/-- The closed sink during the length write: `Err(WriteZero)`, `EofW`. -/
theorem pw_len_eof (sess : Sess) (rs : ReadState) (bufs : Bufs) (dc ec : List (List Nat))
    (s s' : WSnk) (src : List Nat) (len b0 b1 off off' : Nat)
    (h : write_frame_len s b0 b1 off = (.wlEof, off', s')) :
    pollWrite sess ⟨rs, .writeLen len b0 b1 off, bufs, dc, ec⟩ s src =
      (.wErr .writeZero, ⟨rs, .eofW, bufs, dc, ec⟩, s') := by
  simp only [pollWrite, pollWriteF]
  rw [h]

/-- An I/O error during the length write: surfaced, entry state kept. -/
theorem pw_len_err (sess : Sess) (rs : ReadState) (bufs : Bufs) (dc ec : List (List Nat))
    (s s' : WSnk) (src : List Nat) (len b0 b1 off off' c : Nat)
    (h : write_frame_len s b0 b1 off = (.wlErr c, off', s')) :
    pollWrite sess ⟨rs, .writeLen len b0 b1 off, bufs, dc, ec⟩ s src =
      (.wErr (.io c), ⟨rs, .writeLen len b0 b1 off, bufs, dc, ec⟩, s') := by
  simp only [pollWrite, pollWriteF]
  rw [h]

/-- A suspension during the length write: the offset is written back. -/
theorem pw_len_pend (sess : Sess) (rs : ReadState) (bufs : Bufs) (dc ec : List (List Nat))
    (s s' : WSnk) (src : List Nat) (len b0 b1 off off' : Nat)
    (h : write_frame_len s b0 b1 off = (.wlPending, off', s')) :
    pollWrite sess ⟨rs, .writeLen len b0 b1 off, bufs, dc, ec⟩ s src =
      (.wPending, ⟨rs, .writeLen len b0 b1 off', bufs, dc, ec⟩, s') := by
  simp only [pollWrite, pollWriteF]
  rw [h]

/-- A suspension during the frame-body write: state kept as is. -/
theorem pw_data_pend (sess : Sess) (rs : ReadState) (bufs : Bufs) (dc ec : List (List Nat))
    (s s' : WSnk) (src : List Nat) (len off : Nat)
    (h : s.poll ((bufs.wcipher.drop off).take (len - off)) = (.upend, s')) :
    pollWrite sess ⟨rs, .writeData len off, bufs, dc, ec⟩ s src =
      (.wPending, ⟨rs, .writeData len off, bufs, dc, ec⟩, s') := by
  simp only [pollWrite, pollWriteF]
  rw [h]

/-- An I/O error during the frame-body write: surfaced, state kept. -/
theorem pw_data_err (sess : Sess) (rs : ReadState) (bufs : Bufs) (dc ec : List (List Nat))
    (s s' : WSnk) (src : List Nat) (len off c : Nat)
    (h : s.poll ((bufs.wcipher.drop off).take (len - off)) = (.uerr c, s')) :
    pollWrite sess ⟨rs, .writeData len off, bufs, dc, ec⟩ s src =
      (.wErr (.io c), ⟨rs, .writeData len off, bufs, dc, ec⟩, s') := by
  simp only [pollWrite, pollWriteF]
  rw [h]

/-- The closed sink during the frame-body write. -/
theorem pw_data_zero (sess : Sess) (rs : ReadState) (bufs : Bufs) (dc ec : List (List Nat))
    (s s' : WSnk) (src : List Nat) (len off : Nat)
    (h : s.poll ((bufs.wcipher.drop off).take (len - off)) = (.wrote 0, s')) :
    pollWrite sess ⟨rs, .writeData len off, bufs, dc, ec⟩ s src =
      (.wErr .writeZero, ⟨rs, .eofW, bufs, dc, ec⟩, s') := by
  simp only [pollWrite, pollWriteF]
  rw [h]
  simp

/-- A completed frame body: the call continues canonically from `Init`. -/
theorem pw_step_data_done (sess : Sess) (rs : ReadState) (bufs : Bufs)
    (dc ec : List (List Nat)) (s s' : WSnk) (src : List Nat) (len off n : Nat)
    (h : s.poll ((bufs.wcipher.drop off).take (len - off)) = (.wrote n, s'))
    (hn : n ≠ 0) (hfin : len = off + n) :
    pollWrite sess ⟨rs, .writeData len off, bufs, dc, ec⟩ s src =
      pollWrite sess ⟨rs, .init, bufs, dc, ec⟩ s' src := by
  have he := WSnk_poll_evs s ((bufs.wcipher.drop off).take (len - off))
  rw [h] at he
  dsimp only at he
  have e1 : pollWrite sess ⟨rs, .writeData len off, bufs, dc, ec⟩ s src =
      pollWriteF sess ((s.evs.length + (len - off + 3) + 3) + 1)
        ⟨rs, .writeData len off, bufs, dc, ec⟩ s src := rfl
  rw [e1, stepW_data_done (s.evs.length + (len - off + 3) + 3) h hn hfin]
  refine (pollWrite_bridge sess _ _ s' src (pollWriteF_nonstuck _ sess _ s' src ?_)).symm
  have hw : wSlack WriteState.init = 3 := rfl
  dsimp only
  rw [hw]
  omega

/-- Partial frame-body progress: the call continues canonically with the
in-state offset advanced. -/
theorem pw_step_data_more (sess : Sess) (rs : ReadState) (bufs : Bufs)
    (dc ec : List (List Nat)) (s s' : WSnk) (src : List Nat) (len off n : Nat)
    (h : s.poll ((bufs.wcipher.drop off).take (len - off)) = (.wrote n, s'))
    (hn : n ≠ 0) (hne : ¬ len = off + n) :
    pollWrite sess ⟨rs, .writeData len off, bufs, dc, ec⟩ s src =
      pollWrite sess ⟨rs, .writeData len (off + n), bufs, dc, ec⟩ s' src := by
  have he := WSnk_poll_evs s ((bufs.wcipher.drop off).take (len - off))
  have hwle := WSnk_poll_wrote_le s ((bufs.wcipher.drop off).take (len - off))
  rw [h] at he hwle
  dsimp only at he hwle
  have hnle := hwle n rfl
  have hble : ((bufs.wcipher.drop off).take (len - off)).length ≤ len - off := by
    rw [List.length_take]
    omega
  have e1 : pollWrite sess ⟨rs, .writeData len off, bufs, dc, ec⟩ s src =
      pollWriteF sess ((s.evs.length + (len - off + 3) + 3) + 1)
        ⟨rs, .writeData len off, bufs, dc, ec⟩ s src := rfl
  rw [e1, stepW_data_part (s.evs.length + (len - off + 3) + 3) h hn hne]
  refine (pollWrite_bridge sess _ _ s' src (pollWriteF_nonstuck _ sess _ s' src ?_)).symm
  have hw : wSlack (.writeData len (off + n)) = len - (off + n) + 3 := rfl
  dsimp only
  rw [hw]
  omega

/-- Script surgery for the canonical `poll_write`: against any sink script
`pre ++ post` the call either finishes (or suspends) strictly within
`pre` — outcome, adapter state and sink contents independent of `post` —
or it consumes all of `pre`, suspends exactly on a `pend` placed after
`pre`, and re-invoking on the written-back adapter state reaches the same
outcome, with the same sink, as the run without that suspension. -/
theorem pollWrite_split (sess : Sess) (dflt : UEv) (src : List Nat) (fl cl : Nat) :
    ∀ (N : Nat) (pre : List UEv) (sunk : List Nat) (a : NoiseOutput),
      2 * pre.length + wSlack a.ws + (if a.ws = .init then 1 else 0) < N →
      (∃ r a' sunk' suff, suff.length ≤ pre.length ∧
        (∀ post, pollWrite sess a ⟨sunk, pre ++ post, dflt, fl, cl⟩ src =
          (r, a', ⟨sunk', suff ++ post, dflt, fl, cl⟩))) ∨
      (∃ a' sunk', pollWrite sess a ⟨sunk, pre ++ [.pend], dflt, fl, cl⟩ src =
          (.wPending, a', ⟨sunk', [], dflt, fl, cl⟩) ∧
        (∀ post,
          (pollWrite sess a ⟨sunk, pre ++ post, dflt, fl, cl⟩ src).1 =
            (pollWrite sess a' ⟨sunk', post, dflt, fl, cl⟩ src).1 ∧
          (pollWrite sess a ⟨sunk, pre ++ post, dflt, fl, cl⟩ src).2.2 =
            (pollWrite sess a' ⟨sunk', post, dflt, fl, cl⟩ src).2.2)) := by
  intro N
  induction N with
  | zero =>
    intro pre sunk a h
    omega
  | succ N ih =>
    intro pre sunk a hN
    rcases a with ⟨rs, ws, bufs, dc, ec⟩
    dsimp only at hN
    cases ws with
    | init =>
      have hw : wSlack WriteState.init = 3 := rfl
      rw [hw] at hN
      simp only [if_pos rfl, if_true] at hN
      rcases ih pre sunk ⟨rs, .bufferData 0, bufs, dc, ec⟩
        (by dsimp only; have hw2 : wSlack (.bufferData 0) = 3 := rfl; rw [hw2]; simp; omega)
        with ⟨r, a', sunk', suff, h1, h3⟩ | ⟨a', sunk', h2, h3⟩
      · exact Or.inl ⟨r, a', sunk', suff, h1, fun post =>
          (pw_step_init sess rs bufs dc ec _ src).trans (h3 post)⟩
      · refine Or.inr ⟨a', sunk',
          (pw_step_init sess rs bufs dc ec _ src).trans h2, fun post => ?_⟩
        rw [pw_step_init sess rs bufs dc ec _ src]
        exact h3 post
    | bufferData off =>
      obtain ⟨r, a', hba⟩ := pw_buffer sess rs bufs dc ec src off
      exact Or.inl ⟨r, a', sunk, pre, le_refl _, fun post => hba _⟩
    | writeLen len b0 b1 off =>
      have hw : wSlack (.writeLen len b0 b1 off) = len + 4 := rfl
      rw [hw] at hN
      simp at hN
      rcases write_frame_len_split pre sunk dflt fl cl b0 b1 off with
        ⟨q, off', sunk', suff, hsl, heq⟩ | ⟨off', sunk', h1, h2⟩
      · cases q with
        | wlDone =>
          rcases ih suff sunk' ⟨rs, .writeData len 0, bufs, dc, ec⟩
            (by dsimp only; have hw2 : wSlack (.writeData len 0) = len - 0 + 3 := rfl;
                rw [hw2]; simp; omega)
            with ⟨r, a', sunk'', suff', k1, k3⟩ | ⟨a', sunk'', k2, k3⟩
          · exact Or.inl ⟨r, a', sunk'', suff', k1.trans hsl, fun post =>
              (pw_step_len_done sess rs bufs dc ec _ _ src len b0 b1 off off'
                (heq post)).trans (k3 post)⟩
          · refine Or.inr ⟨a', sunk'',
              (pw_step_len_done sess rs bufs dc ec _ _ src len b0 b1 off off'
                (heq [UEv.pend])).trans k2, fun post => ?_⟩
            rw [pw_step_len_done sess rs bufs dc ec _ _ src len b0 b1 off off' (heq post)]
            exact k3 post
        | wlEof =>
          exact Or.inl ⟨.wErr .writeZero, ⟨rs, .eofW, bufs, dc, ec⟩, sunk', suff, hsl,
            fun post => pw_len_eof sess rs bufs dc ec _ _ src len b0 b1 off off'
              (heq post)⟩
        | wlErr c =>
          exact Or.inl ⟨.wErr (.io c), ⟨rs, .writeLen len b0 b1 off, bufs, dc, ec⟩, sunk',
            suff, hsl, fun post => pw_len_err sess rs bufs dc ec _ _ src len b0 b1 off off'
              c (heq post)⟩
        | wlPending =>
          exact Or.inl ⟨.wPending, ⟨rs, .writeLen len b0 b1 off', bufs, dc, ec⟩, sunk',
            suff, hsl, fun post => pw_len_pend sess rs bufs dc ec _ _ src len b0 b1 off
              off' (heq post)⟩
        | wlStuck =>
          have hns := write_frame_len_nonstuck ⟨sunk, pre ++ [], dflt, fl, cl⟩ b0 b1 off
          rw [heq []] at hns
          exact absurd rfl hns
      · refine Or.inr ⟨⟨rs, .writeLen len b0 b1 off', bufs, dc, ec⟩, sunk',
          pw_len_pend sess rs bufs dc ec _ _ src len b0 b1 off off' h1, ?_⟩
        intro post
        rcases hq : write_frame_len ⟨sunk', post, dflt, fl, cl⟩ b0 b1 off' with
          ⟨q₂, off₂, s₂⟩
        have hL := (h2 post).trans hq
        cases q₂ with
        | wlDone =>
          rw [pw_step_len_done sess rs bufs dc ec _ _ src len b0 b1 off off₂ hL,
            pw_step_len_done sess rs bufs dc ec _ _ src len b0 b1 off' off₂ hq]
          exact ⟨rfl, rfl⟩
        | wlEof =>
          rw [pw_len_eof sess rs bufs dc ec _ _ src len b0 b1 off off₂ hL,
            pw_len_eof sess rs bufs dc ec _ _ src len b0 b1 off' off₂ hq]
          exact ⟨rfl, rfl⟩
        | wlErr c =>
          rw [pw_len_err sess rs bufs dc ec _ _ src len b0 b1 off off₂ c hL,
            pw_len_err sess rs bufs dc ec _ _ src len b0 b1 off' off₂ c hq]
          exact ⟨rfl, rfl⟩
        | wlPending =>
          rw [pw_len_pend sess rs bufs dc ec _ _ src len b0 b1 off off₂ hL,
            pw_len_pend sess rs bufs dc ec _ _ src len b0 b1 off' off₂ hq]
          exact ⟨rfl, rfl⟩
        | wlStuck =>
          have hns := write_frame_len_nonstuck ⟨sunk', post, dflt, fl, cl⟩ b0 b1 off'
          rw [hq] at hns
          exact absurd rfl hns
    | writeData len off =>
      have hw : wSlack (.writeData len off) = len - off + 3 := rfl
      rw [hw] at hN
      rcases pre with _ | ⟨e, pre⟩
      · refine Or.inr ⟨⟨rs, .writeData len off, bufs, dc, ec⟩, sunk, ?_, ?_⟩
        · rw [List.nil_append]
          exact pw_data_pend sess rs bufs dc ec _ _ src len off rfl
        · intro post
          rw [List.nil_append]
          exact ⟨rfl, rfl⟩
      · simp only [List.length_cons] at hN
        simp at hN
        rcases e with n | c | _
        · have hbsplit : ∀ post : List UEv,
              WSnk.poll ⟨sunk, UEv.ready n :: (pre ++ post), dflt, fl, cl⟩
                ((bufs.wcipher.drop off).take (len - off)) =
              (.wrote (min n ((bufs.wcipher.drop off).take (len - off)).length),
               ⟨sunk ++ ((bufs.wcipher.drop off).take (len - off)).take
                  (min n ((bufs.wcipher.drop off).take (len - off)).length),
                pre ++ post, dflt, fl, cl⟩) := fun _ => rfl
          by_cases h0 : min n ((bufs.wcipher.drop off).take (len - off)).length = 0
          · refine Or.inl ⟨.wErr .writeZero, ⟨rs, .eofW, bufs, dc, ec⟩, sunk,
              pre, by simp, fun post => ?_⟩
            have hpoll := hbsplit post
            rw [h0] at hpoll
            simp only [List.take_zero, List.append_nil] at hpoll
            exact pw_data_zero sess rs bufs dc ec _ _ src len off hpoll
          · by_cases h2 : len = off + min n ((bufs.wcipher.drop off).take (len - off)).length
            · rcases ih pre (sunk ++ ((bufs.wcipher.drop off).take (len - off)).take
                  (min n ((bufs.wcipher.drop off).take (len - off)).length))
                ⟨rs, .init, bufs, dc, ec⟩
                (by dsimp only; have hw2 : wSlack WriteState.init = 3 := rfl;
                    rw [hw2]; simp; omega)
                with ⟨r, a', sunk'', suff', k1, k3⟩ | ⟨a', sunk'', k2, k3⟩
              · refine Or.inl ⟨r, a', sunk'', suff', by simp; omega, fun post => ?_⟩
                exact (pw_step_data_done sess rs bufs dc ec _ _ src len off _
                  (hbsplit post) h0 h2).trans (k3 post)
              · refine Or.inr ⟨a', sunk'',
                  (pw_step_data_done sess rs bufs dc ec _ _ src len off _
                    (hbsplit [UEv.pend]) h0 h2).trans k2, fun post => ?_⟩
                have hstep := pw_step_data_done sess rs bufs dc ec _ _ src len off _
                  (hbsplit post) h0 h2
                exact ⟨(congrArg Prod.fst hstep).trans (k3 post).1,
                  (congrArg (fun p => p.2.2) hstep).trans (k3 post).2⟩
            · rcases ih pre (sunk ++ ((bufs.wcipher.drop off).take (len - off)).take
                  (min n ((bufs.wcipher.drop off).take (len - off)).length))
                ⟨rs, .writeData len
                  (off + min n ((bufs.wcipher.drop off).take (len - off)).length),
                  bufs, dc, ec⟩
                (by dsimp only;
                    have hw2 : wSlack (.writeData len
                      (off + min n ((bufs.wcipher.drop off).take (len - off)).length)) =
                      len - (off + min n ((bufs.wcipher.drop off).take (len - off)).length) +
                        3 := rfl
                    rw [hw2]; simp; omega)
                with ⟨r, a', sunk'', suff', k1, k3⟩ | ⟨a', sunk'', k2, k3⟩
              · refine Or.inl ⟨r, a', sunk'', suff', by simp; omega, fun post => ?_⟩
                exact (pw_step_data_more sess rs bufs dc ec _ _ src len off _
                  (hbsplit post) h0 h2).trans (k3 post)
              · refine Or.inr ⟨a', sunk'',
                  (pw_step_data_more sess rs bufs dc ec _ _ src len off _
                    (hbsplit [UEv.pend]) h0 h2).trans k2, fun post => ?_⟩
                have hstep := pw_step_data_more sess rs bufs dc ec _ _ src len off _
                  (hbsplit post) h0 h2
                exact ⟨(congrArg Prod.fst hstep).trans (k3 post).1,
                  (congrArg (fun p => p.2.2) hstep).trans (k3 post).2⟩
        · refine Or.inl ⟨.wErr (.io c), ⟨rs, .writeData len off, bufs, dc, ec⟩, sunk, pre,
            by simp, fun post => ?_⟩
          exact pw_data_err sess rs bufs dc ec _ _ src len off c rfl
        · refine Or.inl ⟨.wPending, ⟨rs, .writeData len off, bufs, dc, ec⟩, sunk, pre,
            by simp, fun post => ?_⟩
          exact pw_data_pend sess rs bufs dc ec _ _ src len off rfl
    | eofW =>
      exact Or.inl ⟨.wErr .writeZero, ⟨rs, .eofW, bufs, dc, ec⟩, sunk, pre, le_refl _,
        fun post => rfl⟩
    | encErr =>
      exact Or.inl ⟨.wErr .invalidData, ⟨rs, .encErr, bufs, dc, ec⟩, sunk, pre, le_refl _,
        fun post => rfl⟩

/-- C9: suspension transparency.  If a `poll_read` (resp. `poll_write`)
suspends on a `Pending` from the underlying stream — modelled as the run
against script `pre ++ [pend]` returning `Pending` with the script
exhausted — then re-invoking the operation on the returned adapter state,
with no other state change, reaches the same `Ready`/`Err` outcome and the
same underlying-stream state as the run whose script never contained the
suspension (`pre ++ post` in one go), for every continuation `post` of
the underlying stream's behavior. -/
theorem c9_pending_transparent :
    (∀ (sess : Sess) (a : NoiseOutput) (data : List Nat) (pre : List UEv) (dflt : UEv)
       (cap : Nat) (a' : NoiseOutput) (data' : List Nat),
      pollRead sess a ⟨data, pre ++ [.pend], dflt⟩ cap =
        (.rPending, a', ⟨data', [], dflt⟩) →
      ∀ post,
        (pollRead sess a' ⟨data', post, dflt⟩ cap).1 =
          (pollRead sess a ⟨data, pre ++ post, dflt⟩ cap).1 ∧
        (pollRead sess a' ⟨data', post, dflt⟩ cap).2.2 =
          (pollRead sess a ⟨data, pre ++ post, dflt⟩ cap).2.2) ∧
    (∀ (sess : Sess) (a : NoiseOutput) (sunk : List Nat) (pre : List UEv) (dflt : UEv)
       (src : List Nat) (fl cl : Nat) (a' : NoiseOutput) (sunk' : List Nat),
      pollWrite sess a ⟨sunk, pre ++ [.pend], dflt, fl, cl⟩ src =
        (.wPending, a', ⟨sunk', [], dflt, fl, cl⟩) →
      ∀ post,
        (pollWrite sess a' ⟨sunk', post, dflt, fl, cl⟩ src).1 =
          (pollWrite sess a ⟨sunk, pre ++ post, dflt, fl, cl⟩ src).1 ∧
        (pollWrite sess a' ⟨sunk', post, dflt, fl, cl⟩ src).2.2 =
          (pollWrite sess a ⟨sunk, pre ++ post, dflt, fl, cl⟩ src).2.2) := by
  constructor
  · intro sess a data pre dflt cap a' data' h post
    rcases pollRead_split sess dflt cap
        (2 * (pre.length + data.length) + (if a.rs = .init then 1 else 0) + 1) pre data a
        (by omega) with
      ⟨r, a₂, data₂, suff, h1, h2, h3⟩ | ⟨a₂, data₂, h1, h2, h3⟩
    · exfalso
      have h5 := h.symm.trans (h3 [.pend])
      have h6 := congrArg (fun p => (p.2.2).evs) h5
      simp at h6
    · have h5 := h2.symm.trans h
      have ha : a₂ = a' := congrArg (fun p => p.2.1) h5
      have hd : data₂ = data' := congrArg (fun p => (p.2.2).data) h5
      subst ha hd
      exact ⟨(h3 post).1.symm, (h3 post).2.symm⟩
  · intro sess a sunk pre dflt src fl cl a' sunk' h post
    rcases pollWrite_split sess dflt src fl cl
        (2 * pre.length + wSlack a.ws + (if a.ws = .init then 1 else 0) + 1) pre sunk a
        (by omega) with
      ⟨r, a₂, sunk₂, suff, h1, h3⟩ | ⟨a₂, sunk₂, h2, h3⟩
    · exfalso
      have h5 := h.symm.trans (h3 [.pend])
      have h6 := congrArg (fun p => (p.2.2).evs) h5
      simp at h6
    · have h5 := h2.symm.trans h
      have ha : a₂ = a' := congrArg (fun p => p.2.1) h5
      have hd : sunk₂ = sunk' := congrArg (fun p => (p.2.2).sunk) h5
      subst ha hd
      exact ⟨(h3 post).1.symm, (h3 post).2.symm⟩

/-- C9 witness: a length read suspends after one of the two prefix bytes;
the written-back `ReadLen{_, off = 1}` resumes against a continuation
delivering the second byte with the same outcome as the uninterrupted
run.  Dually, a length write suspends after one of the two prefix bytes
and resumes transparently. -/
theorem c9_pending_transparent_witness :
    (pollRead noSess ⟨.readLen 0 0 0, .init, ⟨[], [], [], []⟩, [], []⟩
        ⟨[0, 2], [.ready 1] ++ [.pend], .pend⟩ 8 =
      (.rPending, ⟨.readLen 0 0 1, .init, ⟨[], [], [], []⟩, [], []⟩,
        ⟨[2], [], .pend⟩)) ∧
    ((pollRead noSess ⟨.readLen 0 0 1, .init, ⟨[], [], [], []⟩, [], []⟩
        ⟨[2], [.ready 1], .pend⟩ 8).1 =
      (pollRead noSess ⟨.readLen 0 0 0, .init, ⟨[], [], [], []⟩, [], []⟩
        ⟨[0, 2], [.ready 1] ++ [.ready 1], .pend⟩ 8).1 ∧
     (pollRead noSess ⟨.readLen 0 0 1, .init, ⟨[], [], [], []⟩, [], []⟩
        ⟨[2], [.ready 1], .pend⟩ 8).2.2 =
      (pollRead noSess ⟨.readLen 0 0 0, .init, ⟨[], [], [], []⟩, [], []⟩
        ⟨[0, 2], [.ready 1] ++ [.ready 1], .pend⟩ 8).2.2) ∧
    (pollWrite noSess ⟨.init, .writeLen 2 0 2 0, ⟨[], [], [], [9, 9]⟩, [], []⟩
        ⟨[], [.ready 1] ++ [.pend], .pend, 0, 0⟩ [] =
      (.wPending, ⟨.init, .writeLen 2 0 2 1, ⟨[], [], [], [9, 9]⟩, [], []⟩,
        ⟨[0], [], .pend, 0, 0⟩)) ∧
    ((pollWrite noSess ⟨.init, .writeLen 2 0 2 1, ⟨[], [], [], [9, 9]⟩, [], []⟩
        ⟨[0], [.ready 1], .pend, 0, 0⟩ []).1 =
      (pollWrite noSess ⟨.init, .writeLen 2 0 2 0, ⟨[], [], [], [9, 9]⟩, [], []⟩
        ⟨[], [.ready 1] ++ [.ready 1], .pend, 0, 0⟩ []).1 ∧
     (pollWrite noSess ⟨.init, .writeLen 2 0 2 1, ⟨[], [], [], [9, 9]⟩, [], []⟩
        ⟨[0], [.ready 1], .pend, 0, 0⟩ []).2.2 =
      (pollWrite noSess ⟨.init, .writeLen 2 0 2 0, ⟨[], [], [], [9, 9]⟩, [], []⟩
        ⟨[], [.ready 1] ++ [.ready 1], .pend, 0, 0⟩ []).2.2) :=
  ⟨rfl,
   c9_pending_transparent.1 noSess ⟨.readLen 0 0 0, .init, ⟨[], [], [], []⟩, [], []⟩
     [0, 2] [.ready 1] .pend 8 ⟨.readLen 0 0 1, .init, ⟨[], [], [], []⟩, [], []⟩ [2]
     rfl [.ready 1],
   rfl,
   c9_pending_transparent.2 noSess ⟨.init, .writeLen 2 0 2 0, ⟨[], [], [], [9, 9]⟩, [], []⟩
     [] [.ready 1] .pend [] 0 0 ⟨.init, .writeLen 2 0 2 1, ⟨[], [], [], [9, 9]⟩, [], []⟩ [0]
     rfl [.ready 1]⟩
